import Mathlib

/-!
# Bytecode dump/load codec

A shallow embedding of `src/duk_api_bytecode.c` (primitive codec, function
dump, function load) and `src/duk_util_bufwriter.c` (the growable write
cursor), followed by theorems about them.

Conventions of the embedding

* A byte is a `Nat`; every byte the codec produces is reduced `% 256`.
  `duk_uint16_t` / `duk_uint32_t` values are `Nat`s, reduced `% 65536` /
  `% 4294967296` wherever the C code casts or computes in that type.
  `duk_size_t` arithmetic is carried out in `Nat` (sizes of live objects are
  bounded by the address space, so it does not wrap on the inputs modelled),
  except for the size and the addresses of the loader's data region
  (`duk__load_func_layout`) and the argument of `duk_require_stack`
  (`duk__load_func_reserve`), which are computed from counts read from the
  input and are modelled with their wrap-around.
* A pointer is an absolute address (`Nat`).  The only writable block is the
  dynamic buffer owned by the buffer writer; a store through a pointer that
  does not lie inside that block is a memory fault (`out_of_bounds`).
* The input of the loader is a byte list `mem` holding the input buffer
  followed by whatever memory comes after it, a cursor `p` (an index into
  `mem`) and the end pointer `p_end`.
* Things that live in `duk_internal.h` (not part of this fragment) are either
  fields of `Config` or definitions marked `Modelled from the spec:`.
* The loader is embedded twice: as a function of the input that yields the
  loaded function (`duk__load_func`), and with the value stack of the context
  as explicit state (`Stack.duk__load_func`); the two are proved to agree.
-/

namespace Duk

/-! ## Configuration -/

/-- A double seen as `duk_double_union`: the two 32-bit halves
`ui[DUK_DBL_IDX_UI0]` and `ui[DUK_DBL_IDX_UI1]`. -/
structure duk_double_union where
  ui0 : Nat
  ui1 : Nat
deriving DecidableEq, Repr

/-- Build options and host behaviour the codec depends on.

* `integer_be`: `DUK_USE_INTEGER_BE` when true, `DUK_USE_INTEGER_LE` otherwise;
* `debugger_support`: `DUK_USE_DEBUGGER_SUPPORT`;
* `asserts`: whether `DUK_ASSERT` is compiled in;
* `malloc`, `realloc`: where the host allocator puts a fresh block of a given
  size, and where it puts a block (old address, old size) resized to a new size;
* `dbl_to_u32`: the C conversion `(duk_uint32_t) d` of a double;
* `u32_to_dbl`: the double pushed by `duk_push_u32`;
* `namebinding`: the bit `DUK_HOBJECT_FLAG_NAMEBINDING` of the flags word;
* `sizeof_tval`, `sizeof_hobject_ptr`: `sizeof(duk_tval)` and
  `sizeof(duk_hobject *)`;
* `size_bits`: the width of `duk_size_t`. -/
structure Config where
  integer_be : Bool
  debugger_support : Bool
  asserts : Bool
  malloc : Nat → Nat
  realloc : Nat → Nat → Nat → Nat
  dbl_to_u32 : duk_double_union → Nat
  u32_to_dbl : Nat → duk_double_union
  namebinding : Nat
  sizeof_tval : Nat := 16
  sizeof_hobject_ptr : Nat := 8
  size_bits : Nat := 64

def DUK__SER_MARKER : Nat := 0xff
def DUK__SER_VERSION : Nat := 0x00
def DUK__SER_STRING : Nat := 0x00
def DUK__SER_NUMBER : Nat := 0x01

/-! ## Primitive codec (lines 39-150) -/

/-- Modelled from the spec: the byte-swap macro `DUK_BSWAP32` of
`duk_internal.h` ("a little-endian host must byte-swap each word"). -/
def DUK_BSWAP32 (x : Nat) : Nat :=
  (x % 256) * 16777216 + (x / 256 % 256) * 65536 + (x / 65536 % 256) * 256
    + (x / 16777216 % 256)

/-- Modelled from the spec: the byte-swap macro `DUK_BSWAP16` of
`duk_internal.h`. -/
def DUK_BSWAP16 (x : Nat) : Nat :=
  (x % 256) * 256 + (x / 256 % 256)

/-- `DUK__HTON32` (lines 39-51). -/
def DUK__HTON32 (cfg : Config) (x : Nat) : Nat :=
  if cfg.integer_be then x else DUK_BSWAP32 x

/-- `DUK__NTOH32` (lines 39-51). -/
def DUK__NTOH32 (cfg : Config) (x : Nat) : Nat :=
  if cfg.integer_be then x else DUK_BSWAP32 x

/-- `DUK__HTON16` (lines 39-51). -/
def DUK__HTON16 (cfg : Config) (x : Nat) : Nat :=
  if cfg.integer_be then x else DUK_BSWAP16 x

/-- `DUK__NTOH16` (lines 39-51). -/
def DUK__NTOH16 (cfg : Config) (x : Nat) : Nat :=
  if cfg.integer_be then x else DUK_BSWAP16 x

/-- The member `b` of `union { duk_uint8_t b[2]; duk_uint16_t x; }` when `x`
holds the given value: the host's in-memory image of a 16-bit integer. -/
def union_b16 (cfg : Config) (x : Nat) : List Nat :=
  if cfg.integer_be then [x / 256 % 256, x % 256] else [x % 256, x / 256 % 256]

/-- The member `x` of the 16-bit union when `b` holds the given bytes. -/
def union_x16 (cfg : Config) (b : List Nat) : Nat :=
  match b with
  | [b0, b1] => if cfg.integer_be then b0 * 256 + b1 else b0 + b1 * 256
  | _ => 0

/-- The member `b` of `union { duk_uint8_t b[4]; duk_uint32_t x; }` when `x`
holds the given value: the host's in-memory image of a 32-bit integer. -/
def union_b32 (cfg : Config) (x : Nat) : List Nat :=
  if cfg.integer_be then
    [x / 16777216 % 256, x / 65536 % 256, x / 256 % 256, x % 256]
  else
    [x % 256, x / 256 % 256, x / 65536 % 256, x / 16777216 % 256]

/-- The member `x` of the 32-bit union when `b` holds the given bytes. -/
def union_x32 (cfg : Config) (b : List Nat) : Nat :=
  match b with
  | [b0, b1, b2, b3] =>
    if cfg.integer_be then b0 * 16777216 + b1 * 65536 + b2 * 256 + b3
    else b0 + b1 * 256 + b2 * 65536 + b3 * 16777216
  | _ => 0

/-- What can interrupt the codec. `format_error` is the `NULL` return of
`duk__load_func` (label `format_error`); `type_error` is
`DUK_ERROR(thr, DUK_ERR_TYPE_ERROR, "invalid format")` raised by
`duk_load_function`; `assertion` is a failed `DUK_ASSERT`; `out_of_bounds` is a
store outside the live dynamic buffer, a pointer difference taken with a
pointer outside it, or a read outside the modelled input memory; `api_error`
is an error thrown by a call of the host's value-stack API (an invalid index,
a value of the wrong kind); `fuel` is the recursion budget of the embedding
running out. -/
inductive duk_fault where
  | format_error
  | type_error
  | assertion
  | out_of_bounds
  | api_error
  | fuel
deriving DecidableEq, Repr

/-- `DUK_ASSERT(c)`: nothing when assertions are compiled out. -/
def DUK_ASSERT (cfg : Config) (c : Bool) : Except duk_fault Unit :=
  if cfg.asserts && !c then .error .assertion else .ok ()

/-- The dynamic buffer the writer owns: the address of its data area
(`DUK_HBUFFER_DYNAMIC_GET_DATA_PTR`) and its contents
(`DUK_HBUFFER_DYNAMIC_GET_SIZE` is the length of `bytes`). -/
structure duk_hbuffer_dynamic where
  data_ptr : Nat
  bytes : List Nat
deriving DecidableEq, Repr

/-- `DUK_MEMCPY((void *) p, src, n)` with the destination in the dynamic
buffer `h`: the `n = src.length` bytes are stored at address `p`.  A
destination range that is not inside the live block is a memory fault. -/
def store (h : duk_hbuffer_dynamic) (p : Nat) (src : List Nat) :
    Except duk_fault duk_hbuffer_dynamic :=
  if h.data_ptr ≤ p ∧ p + src.length ≤ h.data_ptr + h.bytes.length then
    .ok { h with
      bytes := h.bytes.take (p - h.data_ptr) ++ src
        ++ h.bytes.drop (p - h.data_ptr + src.length) }
  else .error .out_of_bounds

/-- `DUK_MEMCPY(dst, (const void *) p, n)` with the source in the loader's
input memory: the `n` bytes at index `p`, or `none` when they are not all
inside the modelled memory. -/
def fetch (mem : List Nat) (p n : Nat) : Option (List Nat) :=
  if p + n ≤ mem.length then some ((mem.drop p).take n) else none

/-- `DUK__READ_U8(ptr)`: `(duk_uint8_t) (*(ptr)++)`. -/
def DUK__READ_U8 (mem : List Nat) (p : Nat) : Except duk_fault (Nat × Nat) :=
  match fetch mem p 1 with
  | some [b] => .ok (b % 256, p + 1)
  | _ => .error .out_of_bounds

/-- `duk__read_u16` (lines 65-76). -/
def duk__read_u16 (cfg : Config) (mem : List Nat) (p : Nat) : Except duk_fault (Nat × Nat) :=
  match fetch mem p 2 with
  | some b => .ok (DUK__NTOH16 cfg (union_x16 cfg b), p + 2)
  | none => .error .out_of_bounds

/-- `duk__read_u32` (lines 78-89). -/
def duk__read_u32 (cfg : Config) (mem : List Nat) (p : Nat) : Except duk_fault (Nat × Nat) :=
  match fetch mem p 4 with
  | some b => .ok (DUK__NTOH32 cfg (union_x32 cfg b), p + 4)
  | none => .error .out_of_bounds

/-- `duk__read_double` (lines 91-108). -/
def duk__read_double (cfg : Config) (mem : List Nat) (p : Nat) : Except duk_fault (duk_double_union × Nat) :=
  match fetch mem p 4, fetch mem (p + 4) 4 with
  | some b, some c =>
    .ok ({ ui0 := DUK__NTOH32 cfg (union_x32 cfg b),
           ui1 := DUK__NTOH32 cfg (union_x32 cfg c) }, p + 8)
  | _, _ => .error .out_of_bounds

/-- A write step: the buffer after the store and the advanced cursor. -/
abbrev Wr := Except duk_fault (duk_hbuffer_dynamic × Nat)

/-- `DUK__WRITE_U8(ptr, val)`: `*(ptr)++ = (duk_uint8_t) (val)`. -/
def DUK__WRITE_U8 (h : duk_hbuffer_dynamic) (p : Nat) (val : Nat) : Wr := do
  let h ← store h p [val % 256]
  pure (h, p + 1)

/-- `duk__write_u16` (lines 110-120). -/
def duk__write_u16 (cfg : Config) (h : duk_hbuffer_dynamic) (p : Nat) (val : Nat) : Wr := do
  let h ← store h p (union_b16 cfg (DUK__HTON16 cfg val))
  pure (h, p + 2)

/-- `duk__write_u32` (lines 122-132). -/
def duk__write_u32 (cfg : Config) (h : duk_hbuffer_dynamic) (p : Nat) (val : Nat) : Wr := do
  let h ← store h p (union_b32 cfg (DUK__HTON32 cfg val))
  pure (h, p + 4)

/-- `duk__write_double` (lines 134-150). -/
def duk__write_double (cfg : Config) (h : duk_hbuffer_dynamic) (p : Nat)
    (du : duk_double_union) : Wr := do
  let h ← store h p (union_b32 cfg (DUK__HTON32 cfg du.ui0))
  let h ← store h (p + 4) (union_b32 cfg (DUK__HTON32 cfg du.ui1))
  pure (h, p + 8)

/-- `DUK__WRITE_U16(ptr, val)`: the cast to `duk_uint16_t`, then `duk__write_u16`. -/
def DUK__WRITE_U16 (cfg : Config) (h : duk_hbuffer_dynamic) (p : Nat) (val : Nat) : Wr :=
  duk__write_u16 cfg h p (val % 65536)

/-- `DUK__WRITE_U32(ptr, val)`: the cast to `duk_uint32_t`, then `duk__write_u32`. -/
def DUK__WRITE_U32 (cfg : Config) (h : duk_hbuffer_dynamic) (p : Nat) (val : Nat) : Wr :=
  duk__write_u32 cfg h p (val % 4294967296)

/-! ## Data model -/

/-- A constant of the pool: "constants are strings or numbers now"
(asserted at lines 421-422). A string is its byte sequence
(`DUK_HSTRING_GET_DATA`, `DUK_HSTRING_GET_BYTELEN` is its length). -/
inductive duk_const where
  | string (h : List Nat)
  | number (d : duk_double_union)
deriving DecidableEq, Repr

/-- An object as far as the codec looks into it: the entry part (slots
`0 .. ENEXT-1`, each a key and a value; for `_Varmap` the keys are non-NULL
and the values numbers, asserted at lines 284-288) and the array part
(`ASIZE` slots; `some s` is a slot holding the string `s`, `none` a slot that
does not hold a string, e.g. UNUSED). -/
structure duk_hobject where
  e_part : List (List Nat × duk_double_union)
  a_part : List (Option (List Nat))
deriving DecidableEq, Repr

/-- A tagged value found as the value of an own property. -/
inductive duk_tval where
  | undefined
  | number (d : duk_double_union)
  | string (h : List Nat)
  | buffer (h : List Nat)
  | object (h : duk_hobject)
deriving DecidableEq, Repr

/-- The own properties of a compiled function the codec reads or defines;
`none` is an absent property (`duk_hobject_find_existing_entry_tval_ptr`
returning `NULL`).  `lexenv` is the `_Lexenv` property: `some name` stands for
the declarative environment whose single binding maps `name` to the function
itself.  `prototype` is true when the function has the `prototype` property
(an object whose `constructor` is the function itself). -/
structure duk_props where
  length : Option duk_tval
  name : Option duk_tval
  file_name : Option duk_tval
  pc2line : Option duk_tval
  varmap : Option duk_tval
  formals : Option duk_tval
  lexenv : Option (List Nat)
  prototype : Bool
deriving DecidableEq, Repr

/-- A compiled function (`duk_hcompiledfunction`): `nregs`, `nargs`,
`start_line`, `end_line`, the flag part of the heap header word
(`h_flags & DUK_HEAPHDR_FLAGS_FLAG_MASK`, the part that
`DUK_HEAPHDR_SET_FLAGS` replaces), the bytecode words, the constants, the
inner functions and the own properties. -/
inductive duk_hcompiledfunction where
  | mk (nregs nargs start_line end_line flags : Nat) (code : List Nat)
      (consts : List duk_const) (funcs : List duk_hcompiledfunction)
      (props : duk_props) : duk_hcompiledfunction

namespace duk_hcompiledfunction

def nregs : duk_hcompiledfunction → Nat
  | mk a _ _ _ _ _ _ _ _ => a

def nargs : duk_hcompiledfunction → Nat
  | mk _ a _ _ _ _ _ _ _ => a

def start_line : duk_hcompiledfunction → Nat
  | mk _ _ a _ _ _ _ _ _ => a

def end_line : duk_hcompiledfunction → Nat
  | mk _ _ _ a _ _ _ _ _ => a

def flags : duk_hcompiledfunction → Nat
  | mk _ _ _ _ a _ _ _ _ => a

def code : duk_hcompiledfunction → List Nat
  | mk _ _ _ _ _ a _ _ _ => a

def consts : duk_hcompiledfunction → List duk_const
  | mk _ _ _ _ _ _ a _ _ => a

def funcs : duk_hcompiledfunction → List duk_hcompiledfunction
  | mk _ _ _ _ _ _ _ a _ => a

def props : duk_hcompiledfunction → duk_props
  | mk _ _ _ _ _ _ _ _ a => a

end duk_hcompiledfunction

/-- The property names the codec looks up (`DUK_STRIDX_LENGTH`,
`DUK_STRIDX_NAME`, `DUK_STRIDX_FILE_NAME`, `DUK_STRIDX_INT_PC2LINE`,
`DUK_STRIDX_INT_VARMAP`, `DUK_STRIDX_INT_FORMALS`). -/
inductive duk_stridx where
  | LENGTH
  | NAME
  | FILE_NAME
  | INT_PC2LINE
  | INT_VARMAP
  | INT_FORMALS
deriving DecidableEq, Repr

/-- `duk_hobject_find_existing_entry_tval_ptr(thr->heap, func, thr->strs[stridx])`. -/
def duk_hobject_find_existing_entry_tval_ptr (func : duk_props) :
    duk_stridx → Option duk_tval
  | .LENGTH => func.length
  | .NAME => func.name
  | .FILE_NAME => func.file_name
  | .INT_PC2LINE => func.pc2line
  | .INT_VARMAP => func.varmap
  | .INT_FORMALS => func.formals

/-! ## Buffer writer (duk_util_bufwriter.c) -/

/-- `duk_bufwriter_ctx`: `offset`, `length`, `limit` and the buffer `buf`. -/
structure duk_bufwriter_ctx where
  offset : Nat
  length : Nat
  limit : Nat
  buf : duk_hbuffer_dynamic
deriving DecidableEq, Repr

/-- `duk_push_dynamic_buffer(ctx, size)`: a fresh zeroed dynamic buffer. -/
def duk_push_dynamic_buffer (cfg : Config) (size : Nat) : duk_hbuffer_dynamic :=
  { data_ptr := cfg.malloc size, bytes := List.replicate size 0 }

/-- Modelled from the spec: `duk_hbuffer_resize(thr, buf, new_sz, new_sz)` of
the host heap, which is not part of this fragment.  The buffer gets exactly
`new_sz` bytes, the retained prefix is preserved, added bytes are zero, and
the data area may move (to where the host allocator says). -/
def duk_hbuffer_resize (cfg : Config) (h : duk_hbuffer_dynamic) (new_sz : Nat) :
    duk_hbuffer_dynamic :=
  { data_ptr := cfg.realloc h.data_ptr h.bytes.length new_sz,
    bytes := h.bytes.take new_sz ++ List.replicate (new_sz - h.bytes.length) 0 }

/-- `(duk_size_t) (ptr - base)` for a pointer into (or one past) the live
block; a difference taken with any other pointer is a fault. -/
def ptr_offset (h : duk_hbuffer_dynamic) (ptr : Nat) : Except duk_fault Nat :=
  if h.data_ptr ≤ ptr ∧ ptr ≤ h.data_ptr + h.bytes.length then .ok (ptr - h.data_ptr)
  else .error .out_of_bounds

/-- `duk_bw_init` (lines 7-17). -/
def duk_bw_init (h_buf : duk_hbuffer_dynamic) : duk_bufwriter_ctx :=
  { offset := 0,
    length := h_buf.bytes.length,
    limit := h_buf.data_ptr + h_buf.bytes.length,
    buf := h_buf }

/-- `duk_bw_getptr` (lines 22-28). -/
def duk_bw_getptr (bw_ctx : duk_bufwriter_ctx) : Nat :=
  bw_ctx.buf.data_ptr + bw_ctx.offset

/-- `duk_bw_resize` (lines 33-54): the new context and the returned pointer. -/
def duk_bw_resize (cfg : Config) (bw_ctx : duk_bufwriter_ctx) (sz : Nat) (ptr : Nat) :
    Except duk_fault (duk_bufwriter_ctx × Nat) := do
  let offset ← ptr_offset bw_ctx.buf ptr
  let new_sz := offset + sz + 1024
  let buf := duk_hbuffer_resize cfg bw_ctx.buf new_sz
  let base := buf.data_ptr
  pure ({ bw_ctx with buf := buf, length := new_sz, limit := base + new_sz }, base + offset)

/-- `duk_bw_finish` (lines 57-67). -/
def duk_bw_finish (bw_ctx : duk_bufwriter_ctx) (ptr : Nat) :
    Except duk_fault duk_bufwriter_ctx := do
  let offset ← ptr_offset bw_ctx.buf ptr
  pure { bw_ctx with offset := offset }

/-- `duk_bw_compact` (lines 70-76). -/
def duk_bw_compact (cfg : Config) (bw_ctx : duk_bufwriter_ctx) : duk_bufwriter_ctx :=
  { bw_ctx with buf := duk_hbuffer_resize cfg bw_ctx.buf bw_ctx.offset }

/-- Modelled from the spec: the macro `DUK_BW_ENSURE(thr, bw_ctx, sz, ptr)` of
`duk_internal.h`: "fast path, if `p + n ≤ limit`, return `p` unchanged; slow
path, grow the buffer ... then return a refreshed cursor" (the slow path is
`duk_bw_resize`).  The value is the context after the call and the pointer
the macro evaluates to. -/
def DUK_BW_ENSURE (cfg : Config) (bw_ctx : duk_bufwriter_ctx) (sz : Nat) (ptr : Nat) :
    Except duk_fault (duk_bufwriter_ctx × Nat) :=
  if ptr + sz ≤ bw_ctx.limit then .ok (bw_ctx, ptr) else duk_bw_resize cfg bw_ctx sz ptr

/-! ## Function codec: dump (lines 177-471, 740-778) -/

/-- A dump step: the writer context (with its buffer) and the cursor `p`. -/
abbrev Dump := Except duk_fault (duk_bufwriter_ctx × Nat)

/-- A raw write made while the writer context `bw_ctx` is live: the buffer
written is the one the context owns. -/
def raw (bw_ctx : duk_bufwriter_ctx) (w : duk_hbuffer_dynamic → Wr) : Dump := do
  let (h, p) ← w bw_ctx.buf
  pure ({ bw_ctx with buf := h }, p)

/-- `duk__dump_hstring` (lines 177-192). -/
def duk__dump_hstring (cfg : Config) (m : duk_hbuffer_dynamic) (p : Nat) (h : List Nat) : Wr := do
  let len := h.length
  DUK_ASSERT cfg (decide (len ≤ 0xffffffff))
  let tmp32 := len % 4294967296
  let (m, p) ← DUK__WRITE_U32 cfg m p tmp32
  let m ← store m p h
  pure (m, p + len)

/-- `duk__dump_hbuffer` (lines 194-211). -/
def duk__dump_hbuffer (cfg : Config) (m : duk_hbuffer_dynamic) (p : Nat) (h : List Nat) : Wr := do
  let len := h.length
  DUK_ASSERT cfg (decide (len ≤ 0xffffffff))
  let tmp32 := len % 4294967296
  let (m, p) ← DUK__WRITE_U32 cfg m p tmp32
  let m ← store m p h
  pure (m, p + len)

/-- `duk__dump_string_prop` (lines 213-228). -/
def duk__dump_string_prop (cfg : Config) (p : Nat) (bw_ctx : duk_bufwriter_ctx)
    (func : duk_props) (stridx : duk_stridx) : Dump := do
  let h_str :=
    match duk_hobject_find_existing_entry_tval_ptr func stridx with
    | some (.string h) => h
    | _ => []
  let (bw_ctx, p) ← DUK_BW_ENSURE cfg bw_ctx (4 + h_str.length) p
  raw bw_ctx fun m => duk__dump_hstring cfg m p h_str

/-- `duk__dump_buffer_prop` (lines 230-245). -/
def duk__dump_buffer_prop (cfg : Config) (p : Nat) (bw_ctx : duk_bufwriter_ctx)
    (func : duk_props) (stridx : duk_stridx) : Dump :=
  match duk_hobject_find_existing_entry_tval_ptr func stridx with
  | some (.buffer h_buf) => do
    let (bw_ctx, p) ← DUK_BW_ENSURE cfg bw_ctx (4 + h_buf.length) p
    raw bw_ctx fun m => duk__dump_hbuffer cfg m p h_buf
  | _ => do
    let (bw_ctx, p) ← DUK_BW_ENSURE cfg bw_ctx 4 p
    raw bw_ctx fun m => DUK__WRITE_U32 cfg m p 0

/-- `duk__dump_uint32_prop` (lines 247-260). -/
def duk__dump_uint32_prop (cfg : Config) (p : Nat) (bw_ctx : duk_bufwriter_ctx)
    (func : duk_props) (stridx : duk_stridx) (def_value : Nat) : Dump := do
  let val :=
    match duk_hobject_find_existing_entry_tval_ptr func stridx with
    | some (.number d) => cfg.dbl_to_u32 d % 4294967296
    | _ => def_value
  let (bw_ctx, p) ← DUK_BW_ENSURE cfg bw_ctx 4 p
  raw bw_ctx fun m => DUK__WRITE_U32 cfg m p val

/-- The `for` loop of `duk__dump_varmap` (lines 278-294) over the entry part.
The value of `DUK_BW_ENSURE` is not assigned to `p` (line 291): the context
is updated, the cursor is not. -/
def duk__dump_varmap_loop (cfg : Config) :
    List (List Nat × duk_double_union) → duk_bufwriter_ctx → Nat → Dump
  | [], bw_ctx, p => pure (bw_ctx, p)
  | (key, tv_val) :: rest, bw_ctx, p => do
    let val := cfg.dbl_to_u32 tv_val % 4294967296
    let (bw_ctx, _) ← DUK_BW_ENSURE cfg bw_ctx (4 + key.length + 4) p
    let (bw_ctx, p) ← raw bw_ctx fun m => duk__dump_hstring cfg m p key
    let (bw_ctx, p) ← raw bw_ctx fun m => DUK__WRITE_U32 cfg m p val
    duk__dump_varmap_loop cfg rest bw_ctx p

/-- `duk__dump_varmap` (lines 262-299). -/
def duk__dump_varmap (cfg : Config) (p : Nat) (bw_ctx : duk_bufwriter_ctx)
    (func : duk_props) : Dump := do
  let (bw_ctx, p) ←
    match duk_hobject_find_existing_entry_tval_ptr func .INT_VARMAP with
    | some (.object h) => duk__dump_varmap_loop cfg h.e_part bw_ctx p
    | _ => pure (bw_ctx, p)
  let (bw_ctx, p) ← DUK_BW_ENSURE cfg bw_ctx 4 p
  raw bw_ctx fun m => DUK__WRITE_U32 cfg m p 0

/-- The `for` loop of `duk__dump_formals` (lines 316-332) over the array part.
The value of `DUK_BW_ENSURE` is not assigned to `p` (line 329). -/
def duk__dump_formals_loop (cfg : Config) :
    List (Option (List Nat)) → duk_bufwriter_ctx → Nat → Dump
  | [], bw_ctx, p => pure (bw_ctx, p)
  | some varname :: rest, bw_ctx, p => do
    let (bw_ctx, _) ← DUK_BW_ENSURE cfg bw_ctx (4 + varname.length) p
    let (bw_ctx, p) ← raw bw_ctx fun m => duk__dump_hstring cfg m p varname
    duk__dump_formals_loop cfg rest bw_ctx p
  | none :: rest, bw_ctx, p => duk__dump_formals_loop cfg rest bw_ctx p

/-- `duk__dump_formals` (lines 301-337). -/
def duk__dump_formals (cfg : Config) (p : Nat) (bw_ctx : duk_bufwriter_ctx)
    (func : duk_props) : Dump := do
  let (bw_ctx, p) ←
    match duk_hobject_find_existing_entry_tval_ptr func .INT_FORMALS with
    | some (.object h) => duk__dump_formals_loop cfg h.a_part bw_ctx p
    | _ => pure (bw_ctx, p)
  let (bw_ctx, p) ← DUK_BW_ENSURE cfg bw_ctx 4 p
  raw bw_ctx fun m => DUK__WRITE_U32 cfg m p 0

/-- The fixed header of `duk__dump_func` (lines 376-397), written through the
cursor without a further ensure. -/
def duk__dump_func_header (cfg : Config) (nregs nargs start_line end_line flags : Nat)
    (count_instr count_const count_funcs : Nat) (m : duk_hbuffer_dynamic) (p : Nat) : Wr := do
  let (m, p) ← DUK__WRITE_U32 cfg m p count_instr
  let (m, p) ← DUK__WRITE_U32 cfg m p count_const
  let (m, p) ← DUK__WRITE_U32 cfg m p count_funcs
  let (m, p) ← DUK__WRITE_U16 cfg m p nregs
  let (m, p) ← DUK__WRITE_U16 cfg m p nargs
  let (m, p) ← DUK__WRITE_U32 cfg m p (if cfg.debugger_support then start_line else 0)
  let (m, p) ← DUK__WRITE_U32 cfg m p (if cfg.debugger_support then end_line else 0)
  DUK__WRITE_U32 cfg m p flags

/-- The `while (ins != ins_end)` loop of lines 409-413. -/
def duk__dump_func_instrs_loop (cfg : Config) : List Nat → duk_hbuffer_dynamic → Nat → Wr
  | [], m, p => pure (m, p)
  | ins :: rest, m, p => do
    let (m, p) ← DUK__WRITE_U32 cfg m p ins
    duk__dump_func_instrs_loop cfg rest m p

/-- The bytecode instructions of `duk__dump_func` (lines 399-414).  With
`DUK_USE_INTEGER_BE` this is a `DUK_MEMCPY` of `(size_t) (ins_end - ins)`
bytes from the instruction array (whose memory image is the host image of its
words) followed by `p += (size_t) (ins_end - ins)`, where `ins_end - ins` is
a difference of `duk_instr_t *`, i.e. the number of instructions. -/
def duk__dump_func_instrs (cfg : Config) (code : List Nat) (m : duk_hbuffer_dynamic)
    (p : Nat) : Wr :=
  if cfg.integer_be then do
    let n := code.length
    let m ← store m p ((code.flatMap (union_b32 cfg)).take n)
    pure (m, p + n)
  else
    duk__dump_func_instrs_loop cfg code m p

/-- The constants loop of `duk__dump_func` (lines 416-438). -/
def duk__dump_func_consts (cfg : Config) : List duk_const → duk_bufwriter_ctx → Nat → Dump
  | [], bw_ctx, p => pure (bw_ctx, p)
  | .string h_str :: rest, bw_ctx, p => do
    let (bw_ctx, p) ← DUK_BW_ENSURE cfg bw_ctx (1 + 4 + h_str.length) p
    let (bw_ctx, p) ← raw bw_ctx fun m => DUK__WRITE_U8 m p DUK__SER_STRING
    let (bw_ctx, p) ← raw bw_ctx fun m => duk__dump_hstring cfg m p h_str
    duk__dump_func_consts cfg rest bw_ctx p
  | .number d :: rest, bw_ctx, p => do
    let (bw_ctx, p) ← DUK_BW_ENSURE cfg bw_ctx (1 + 8) p
    let (bw_ctx, p) ← raw bw_ctx fun m => DUK__WRITE_U8 m p DUK__SER_NUMBER
    let (bw_ctx, p) ← raw bw_ctx fun m => duk__write_double cfg m p d
    duk__dump_func_consts cfg rest bw_ctx p

/-- The object extra properties of `duk__dump_func` (lines 461-466). -/
def duk__dump_func_props (cfg : Config) (nargs : Nat) (func : duk_props)
    (bw_ctx : duk_bufwriter_ctx) (p : Nat) : Dump := do
  let (bw_ctx, p) ← duk__dump_uint32_prop cfg p bw_ctx func .LENGTH (nargs % 4294967296)
  let (bw_ctx, p) ← duk__dump_string_prop cfg p bw_ctx func .NAME
  let (bw_ctx, p) ← duk__dump_string_prop cfg p bw_ctx func .FILE_NAME
  let (bw_ctx, p) ← duk__dump_buffer_prop cfg p bw_ctx func .INT_PC2LINE
  let (bw_ctx, p) ← duk__dump_varmap cfg p bw_ctx func
  duk__dump_formals cfg p bw_ctx func

mutual

/-- `duk__dump_func` (lines 339-471). -/
def duk__dump_func (cfg : Config) : duk_hcompiledfunction → duk_bufwriter_ctx → Nat → Dump
  | .mk nregs nargs start_line end_line flags code consts funcs props, bw_ctx, p => do
    let count_instr := code.length % 4294967296
    let (bw_ctx, p) ←
      DUK_BW_ENSURE cfg bw_ctx ((3 * 4 + 2 * 2 + 3 * 4 + count_instr * 4) % 4294967296) p
    let (bw_ctx, p) ← raw bw_ctx fun m =>
      duk__dump_func_header cfg nregs nargs start_line end_line flags
        count_instr (consts.length % 4294967296) (funcs.length % 4294967296) m p
    DUK_ASSERT cfg (decide (code.length = count_instr))
    let (bw_ctx, p) ← raw bw_ctx fun m => duk__dump_func_instrs cfg code m p
    let (bw_ctx, p) ← duk__dump_func_consts cfg consts bw_ctx p
    let (bw_ctx, p) ← duk__dump_func_funcs cfg funcs bw_ctx p
    duk__dump_func_props cfg nargs props bw_ctx p

/-- The inner-function loop of `duk__dump_func` (lines 440-452). -/
def duk__dump_func_funcs (cfg : Config) :
    List duk_hcompiledfunction → duk_bufwriter_ctx → Nat → Dump
  | [], bw_ctx, p => pure (bw_ctx, p)
  | fn :: rest, bw_ctx, p => do
    let (bw_ctx, p) ← duk__dump_func cfg fn bw_ctx p
    duk__dump_func_funcs cfg rest bw_ctx p

end

/-- `duk_dump_function` (lines 740-778) with the initial size of the dynamic
buffer as a parameter; the result is the buffer left on the value stack. -/
def duk_dump_function_sized (cfg : Config) (initial : Nat) (func : duk_hcompiledfunction) :
    Except duk_fault (List Nat) := do
  let h_buf := duk_push_dynamic_buffer cfg initial
  let bw_ctx := duk_bw_init h_buf
  let p := duk_bw_getptr bw_ctx
  let (bw_ctx, p) ← raw bw_ctx fun m => DUK__WRITE_U8 m p DUK__SER_MARKER
  let (bw_ctx, p) ← raw bw_ctx fun m => DUK__WRITE_U8 m p DUK__SER_VERSION
  let (bw_ctx, p) ← duk__dump_func cfg func bw_ctx p
  let bw_ctx ← duk_bw_finish bw_ctx p
  let bw_ctx := duk_bw_compact cfg bw_ctx
  pure bw_ctx.buf.bytes

/-- `duk_dump_function` (lines 740-778): `duk_push_dynamic_buffer(ctx, 1024)`. -/
def duk_dump_function (cfg : Config) (func : duk_hcompiledfunction) :
    Except duk_fault (List Nat) :=
  duk_dump_function_sized cfg 1024 func

/-! ## Function codec: load (lines 156-175, 483-738, 780-819) -/

/-- `DUK__ASSERT_LEFT(n)` (lines 483-485):
`DUK_ASSERT((duk_size_t) (p_end - p) >= (duk_size_t) (n))`.  When `p` is past
`p_end` the difference converts to a huge `duk_size_t`, so the check passes. -/
def DUK__ASSERT_LEFT (cfg : Config) (p_end p n : Nat) : Except duk_fault Unit :=
  DUK_ASSERT cfg (decide (p_end < p ∨ n ≤ p_end - p))

/-- `duk__load_string` (lines 156-163): the string pushed and the cursor. -/
def duk__load_string (cfg : Config) (mem : List Nat) (p : Nat) : Except duk_fault (List Nat × Nat) := do
  let (len, p) ← duk__read_u32 cfg mem p
  match fetch mem p len with
  | some s => pure (s, p + len)
  | none => .error .out_of_bounds

/-- `duk__load_buffer` (lines 165-175): the buffer pushed and the cursor. -/
def duk__load_buffer (cfg : Config) (mem : List Nat) (p : Nat) : Except duk_fault (List Nat × Nat) := do
  let (len, p) ← duk__read_u32 cfg mem p
  match fetch mem p len with
  | some b => pure (b, p + len)
  | none => .error .out_of_bounds

/-- The `for (n = count_instr; n > 0; n--)` loop of lines 579-582. -/
def duk__load_func_instrs_loop (cfg : Config) (mem : List Nat) : Nat → Nat → Except duk_fault (List Nat × Nat)
  | 0, p => pure ([], p)
  | n + 1, p => do
    let (ins, p) ← duk__read_u32 cfg mem p
    let (rest, p) ← duk__load_func_instrs_loop cfg mem n p
    pure (ins :: rest, p)

/-- The words held by a block of memory filled with the given bytes, as the
host reads them (`duk_instr_t` is 4 bytes wide). -/
def words_of_bytes (cfg : Config) : Nat → List Nat → List Nat
  | 0, _ => []
  | n + 1, b => union_x32 cfg (b.take 4) :: words_of_bytes cfg n (b.drop 4)

/-- The bytecode instructions of `duk__load_func` (lines 568-583): the words
stored in the instruction part of the data buffer, and the cursor.  With
`DUK_USE_INTEGER_BE` this is a `DUK_MEMCPY` of
`sizeof(duk_instr_t) * count_instr` bytes. -/
def duk__load_func_instrs (cfg : Config) (mem : List Nat) (count_instr : Nat) (p : Nat) :
    Except duk_fault (List Nat × Nat) :=
  if cfg.integer_be then
    match fetch mem p (4 * count_instr) with
    | some b => .ok (words_of_bytes cfg count_instr b, p + 4 * count_instr)
    | none => .error .out_of_bounds
  else
    duk__load_func_instrs_loop cfg mem count_instr p

/-- The constants loop of `duk__load_func` (lines 585-605): the constants
pushed on the value stack, in order, and the cursor. -/
def duk__load_func_consts (cfg : Config) (mem : List Nat) (p_end : Nat) :
    Nat → Nat → Except duk_fault (List duk_const × Nat)
  | 0, p => pure ([], p)
  | n + 1, p => do
    DUK__ASSERT_LEFT cfg p_end p 1
    let (const_type, p) ← DUK__READ_U8 mem p
    if const_type = DUK__SER_STRING then
      let (s, p) ← duk__load_string cfg mem p
      let (rest, p) ← duk__load_func_consts cfg mem p_end n p
      pure (.string s :: rest, p)
    else if const_type = DUK__SER_NUMBER then
      DUK__ASSERT_LEFT cfg p_end p 8
      let (val, p) ← duk__read_double cfg mem p
      let (rest, p) ← duk__load_func_consts cfg mem p_end n p
      pure (.number val :: rest, p)
    else
      .error .format_error

/-- The inner-function loop of `duk__load_func` (lines 607-613) around the
recursive call `load`: the functions pushed on the value stack, in order, and
the cursor.  A `NULL` from the call is returned as `NULL`. -/
def duk__load_func_funcs (load : Nat → Except duk_fault (duk_hcompiledfunction × Nat)) :
    Nat → Nat → Except duk_fault (List duk_hcompiledfunction × Nat)
  | 0, p => pure ([], p)
  | n + 1, p => do
    let (fn, p) ← load p
    let (rest, p) ← duk__load_func_funcs load n p
    pure (fn :: rest, p)

/-- Modelled from the spec: `duk_put_prop` on the fresh `_Varmap` object
("each `(name, u32)` becomes a property on a fresh object"): the value of an
existing key is replaced, a new key is appended to the entry part. -/
def duk_put_prop (e_part : List (List Nat × duk_double_union)) (key : List Nat)
    (val : duk_double_union) : List (List Nat × duk_double_union) :=
  if e_part.any (fun kv => decide (kv.1 = key)) then
    e_part.map (fun kv => if kv.1 = key then (kv.1, val) else kv)
  else e_part ++ [(key, val)]

/-- The `_Varmap` loop of `duk__load_func` (lines 704-714), run for at most
the given number of iterations: the entry part of the object built, and the
cursor.  `duk_get_length(ctx, -1) == 0` holds exactly for the empty string. -/
def duk__load_func_varmap (cfg : Config) (mem : List Nat) :
    Nat → List (List Nat × duk_double_union) → Nat → Except duk_fault (List (List Nat × duk_double_union) × Nat)
  | 0, _, _ => .error .fuel
  | fuel + 1, e_part, p => do
    let (key, p) ← duk__load_string cfg mem p
    if key.length = 0 then
      pure (e_part, p)
    else
      let (tmp32, p) ← duk__read_u32 cfg mem p
      duk__load_func_varmap cfg mem fuel (duk_put_prop e_part key (cfg.u32_to_dbl tmp32)) p

/-- The `_Formals` loop of `duk__load_func` (lines 719-727), run for at most
the given number of iterations: the array part of the array built (index
`arr_idx` is the length of the part built so far), and the cursor. -/
def duk__load_func_formals (cfg : Config) (mem : List Nat) :
    Nat → List (Option (List Nat)) → Nat → Except duk_fault (List (Option (List Nat)) × Nat)
  | 0, _, _ => .error .fuel
  | fuel + 1, a_part, p => do
    let (varname, p) ← duk__load_string cfg mem p
    if varname.length = 0 then
      pure (a_part, p)
    else
      duk__load_func_formals cfg mem fuel (a_part ++ [some varname]) p

/-- `DUK_HOBJECT_HAS_NAMEBINDING` on the flags word. -/
def DUK_HOBJECT_HAS_NAMEBINDING (cfg : Config) (flags : Nat) : Bool :=
  Nat.land flags cfg.namebinding != 0

/-- The properties of `duk__load_func` (lines 662-729): the own properties
defined on the function, and the cursor.  Each of the two open-ended loops
reads at least four bytes per iteration, so `mem.length + 1` iterations are
never used up. -/
def duk__load_func_props (cfg : Config) (mem : List Nat) (flags : Nat) (p : Nat) :
    Except duk_fault (duk_props × Nat) := do
  let (tmp32, p) ← duk__read_u32 cfg mem p
  let (name, p) ← duk__load_string cfg mem p
  let (file_name, p) ← duk__load_string cfg mem p
  let (pc2line, p) ← duk__load_buffer cfg mem p
  let (e_part, p) ← duk__load_func_varmap cfg mem (mem.length + 1) [] p
  let (a_part, p) ← duk__load_func_formals cfg mem (mem.length + 1) [] p
  pure ({ length := some (.number (cfg.u32_to_dbl tmp32)),
          name := some (.string name),
          file_name := some (.string file_name),
          pc2line := some (.buffer pc2line),
          varmap := some (.object { e_part := e_part, a_part := [] }),
          formals := some (.object { e_part := [], a_part := a_part }),
          lexenv := if DUK_HOBJECT_HAS_NAMEBINDING cfg flags then some name else none,
          prototype := true }, p)

/-- The fixed header as `duk__load_func` reads it. -/
structure duk__func_header where
  count_instr : Nat
  count_const : Nat
  count_funcs : Nat
  nregs : Nat
  nargs : Nat
  start_line : Nat
  end_line : Nat
  flags : Nat
deriving DecidableEq, Repr

/-- The header reads of `duk__load_func` (lines 507-549).  Without debugger
support the function object has no line fields (kept as zero here) and the
cursor skips the eight bytes. -/
def duk__load_func_header (cfg : Config) (mem : List Nat) (p_end : Nat) (p : Nat) :
    Except duk_fault (duk__func_header × Nat) := do
  DUK__ASSERT_LEFT cfg p_end p (3 * 4)
  let (count_instr, p) ← duk__read_u32 cfg mem p
  let (count_const, p) ← duk__read_u32 cfg mem p
  let (count_funcs, p) ← duk__read_u32 cfg mem p
  let (nregs, p) ← duk__read_u16 cfg mem p
  let (nargs, p) ← duk__read_u16 cfg mem p
  let (start_line, p) ←
    if cfg.debugger_support then duk__read_u32 cfg mem p else pure (0, p)
  let (end_line, p) ←
    if cfg.debugger_support then duk__read_u32 cfg mem p else pure (0, p + 8)
  let (tmp32, p) ← duk__read_u32 cfg mem p
  pure ({ count_instr := count_instr, count_const := count_const, count_funcs := count_funcs,
          nregs := nregs, nargs := nargs, start_line := start_line, end_line := end_line,
          flags := tmp32 }, p)

/-- `duk__load_func` (lines 487-738) with a budget for the depth of the
recursion: the function left on the value stack and the returned cursor, or
the way the call ends otherwise (`format_error` is the `NULL` return). -/
def duk__load_func (cfg : Config) (mem : List Nat) (p_end : Nat) :
    Nat → Nat → Except duk_fault (duk_hcompiledfunction × Nat)
  | 0, _ => .error .fuel
  | fuel + 1, p => do
    let (hd, p) ← duk__load_func_header cfg mem p_end p
    DUK__ASSERT_LEFT cfg p_end p (hd.count_instr * 4)
    let (code, p) ← duk__load_func_instrs cfg mem hd.count_instr p
    let (consts, p) ← duk__load_func_consts cfg mem p_end hd.count_const p
    let (funcs, p) ←
      duk__load_func_funcs (duk__load_func cfg mem p_end fuel) hd.count_funcs p
    let (props, p) ← duk__load_func_props cfg mem hd.flags p
    pure (.mk hd.nregs hd.nargs hd.start_line hd.end_line hd.flags code consts funcs props, p)

/-- The end of `duk_load_function` (lines 809-818) given what the loader
returned: a `NULL` becomes the type error, otherwise the function stays on
the value stack. -/
def duk_load_function_finish :
    Except duk_fault (duk_hcompiledfunction × Nat) → Except duk_fault duk_hcompiledfunction
  | .ok (fn, _) => .ok fn
  | .error .format_error => .error .type_error
  | .error e => .error e

/-- `duk_load_function` (lines 780-819) around a function loader `load`
(called as `load mem p p_end`): `buf` is the input buffer, `beyond` the
memory that follows it.  The result is the function left on the value
stack. -/
def duk_load_function_with
    (load : List Nat → Nat → Nat → Except duk_fault (duk_hcompiledfunction × Nat))
    (buf beyond : List Nat) : Except duk_fault duk_hcompiledfunction :=
  let mem := buf ++ beyond
  let sz := buf.length
  if sz < 2 ∨ mem[0]? ≠ some DUK__SER_MARKER ∨ mem[1]? ≠ some DUK__SER_VERSION then
    .error .type_error
  else
    duk_load_function_finish (load mem 2 sz)

/-- `duk_load_function` (lines 780-819).  The depth of the recursion of
`duk__load_func` is bounded by the size of the memory read. -/
def duk_load_function (cfg : Config) (buf beyond : List Nat) :
    Except duk_fault duk_hcompiledfunction :=
  duk_load_function_with
    (fun mem p p_end => duk__load_func cfg mem p_end (mem.length + 1) p) buf beyond

/-! ## Reference serialisation (the binary grammar of the specification) -/

namespace Spec

/-- `u16`: two bytes, most significant first. -/
def u16 (v : Nat) : List Nat := [v / 256 % 256, v % 256]

/-- `u32`: four bytes, most significant first. -/
def u32 (v : Nat) : List Nat :=
  [v / 16777216 % 256, v / 65536 % 256, v / 256 % 256, v % 256]

/-- `Str := u32 len · len bytes`. -/
def Str (s : List Nat) : List Nat := u32 s.length ++ s

/-- `Buf := u32 len · len bytes`. -/
def Buf (b : List Nat) : List Nat := u32 b.length ++ b

/-- `Double := u32 hiHalf · u32 loHalf`. -/
def Double (d : duk_double_union) : List Nat := u32 d.ui0 ++ u32 d.ui1

/-- `Const := 0x00 Str | 0x01 Double`. -/
def Const : duk_const → List Nat
  | .string s => 0x00 :: Str s
  | .number d => 0x01 :: Double d

/-- `Consts := nConst × Const`. -/
def Consts (cs : List duk_const) : List Nat := cs.flatMap Const

/-- `Instrs := nInstr × u32`. -/
def Instrs (code : List Nat) : List Nat := code.flatMap u32

/-- `Header`; the two line numbers are zero when debugger support is absent. -/
def Header (cfg : Config) (n_instr n_const n_funcs nregs nargs start_line end_line flags : Nat) :
    List Nat :=
  u32 n_instr ++ u32 n_const ++ u32 n_funcs ++ u16 nregs ++ u16 nargs
    ++ u32 (if cfg.debugger_support then start_line else 0)
    ++ u32 (if cfg.debugger_support then end_line else 0)
    ++ u32 flags

/-- The `length` field: "taken from the `length` own-property if it is
numeric, else defaulting to `n_args`". -/
def length_field (cfg : Config) (nargs : Nat) (props : duk_props) : Nat :=
  match props.length with
  | some (.number d) => cfg.dbl_to_u32 d
  | _ => nargs

/-- A string property: "from the own-property if string, else empty". -/
def string_field : Option duk_tval → List Nat
  | some (.string s) => s
  | _ => []

/-- The `pc2line` field: "from the internal line-map property if a buffer,
else length-0". -/
def buffer_field : Option duk_tval → List Nat
  | some (.buffer b) => b
  | _ => []

/-- The entries of the variable map, in the order of the property table. -/
def varmap_entries : Option duk_tval → List (List Nat × duk_double_union)
  | some (.object h) => h.e_part
  | _ => []

/-- The formals: the array part without the slots that hold no string. -/
def formals_names : Option duk_tval → List (List Nat)
  | some (.object h) => h.a_part.filterMap id
  | _ => []

/-- `VarMap := { Str name · u32 value } · Str("")`. -/
def VarMap (cfg : Config) (entries : List (List Nat × duk_double_union)) : List Nat :=
  entries.flatMap (fun kv => Str kv.1 ++ u32 (cfg.dbl_to_u32 kv.2)) ++ Str []

/-- `Formals := { Str name } · Str("")`. -/
def Formals (names : List (List Nat)) : List Nat :=
  names.flatMap Str ++ Str []

/-- `Props := u32 length · Str name · Str fileName · Buf pc2line · VarMap · Formals`. -/
def Props (cfg : Config) (nargs : Nat) (props : duk_props) : List Nat :=
  u32 (length_field cfg nargs props) ++ Str (string_field props.name)
    ++ Str (string_field props.file_name) ++ Buf (buffer_field props.pc2line)
    ++ VarMap cfg (varmap_entries props.varmap) ++ Formals (formals_names props.formals)

mutual

/-- `Func := Header Instrs Consts Funcs Props`. -/
def Func (cfg : Config) : duk_hcompiledfunction → List Nat
  | .mk nregs nargs start_line end_line flags code consts funcs props =>
    Header cfg code.length consts.length funcs.length nregs nargs start_line end_line flags
      ++ Instrs code ++ Consts consts ++ Funcs cfg funcs ++ Props cfg nargs props

/-- `Funcs := nFuncs × Func`. -/
def Funcs (cfg : Config) : List duk_hcompiledfunction → List Nat
  | [] => []
  | fn :: rest => Func cfg fn ++ Funcs cfg rest

end

/-- `Blob := 0xFF 0x00 Func`. -/
def Blob (cfg : Config) (f : duk_hcompiledfunction) : List Nat :=
  0xFF :: 0x00 :: Func cfg f

end Spec

/-! ## Domain of the codec and the image of a function under dump-then-load -/

/-- The length of a constant fits the 32-bit length field. -/
def const_size_ok : duk_const → Bool
  | .string s => decide (s.length < 4294967296)
  | .number _ => true

/-- The lengths of the dumped properties fit their 32-bit length fields. -/
def props_sizes_ok (props : duk_props) : Bool :=
  decide ((Spec.string_field props.name).length < 4294967296)
    && decide ((Spec.string_field props.file_name).length < 4294967296)
    && decide ((Spec.buffer_field props.pc2line).length < 4294967296)
    && (Spec.varmap_entries props.varmap).all (fun kv => decide (kv.1.length < 4294967296))
    && (Spec.formals_names props.formals).all (fun s => decide (s.length < 4294967296))

/-- No variable-map key and no formal name is the empty string. -/
def props_names_ok (props : duk_props) : Bool :=
  (Spec.varmap_entries props.varmap).all (fun kv => decide (kv.1.length ≠ 0))
    && (Spec.formals_names props.formals).all (fun s => decide (s.length ≠ 0))

mutual

/-- Every count and every length of the function tree fits its 32-bit field
("sizes above 2^32 - 1 are out of domain"). -/
def sizes_ok : duk_hcompiledfunction → Bool
  | .mk _ _ _ _ _ code consts funcs props =>
    decide (code.length < 4294967296) && decide (consts.length < 4294967296)
      && decide (funcs.length < 4294967296) && consts.all const_size_ok
      && sizes_ok_list funcs && props_sizes_ok props

/-- `sizes_ok` for each function of a list. -/
def sizes_ok_list : List duk_hcompiledfunction → Bool
  | [] => true
  | fn :: rest => sizes_ok fn && sizes_ok_list rest

end

mutual

/-- No variable-map key and no formal name in the function tree is empty. -/
def names_ok : duk_hcompiledfunction → Bool
  | .mk _ _ _ _ _ _ _ funcs props => names_ok_list funcs && props_names_ok props

/-- `names_ok` for each function of a list. -/
def names_ok_list : List duk_hcompiledfunction → Bool
  | [] => true
  | fn :: rest => names_ok fn && names_ok_list rest

end

mutual

/-- The nesting depth of the function tree. -/
def depth : duk_hcompiledfunction → Nat
  | .mk _ _ _ _ _ _ _ funcs _ => depth_list funcs + 1

/-- The largest depth in a list of functions. -/
def depth_list : List duk_hcompiledfunction → Nat
  | [] => 0
  | fn :: rest => max (depth fn) (depth_list rest)

end

/-- A constant as it comes back from the wire. -/
def loaded_const : duk_const → duk_const
  | .string s => .string s
  | .number d => .number { ui0 := d.ui0 % 4294967296, ui1 := d.ui1 % 4294967296 }

/-- The entry part `duk__load_func` builds from the dumped variable map. -/
def loaded_varmap (cfg : Config) (entries : List (List Nat × duk_double_union)) :
    List (List Nat × duk_double_union) → List (List Nat × duk_double_union) :=
  fun acc => entries.foldl
    (fun e kv => duk_put_prop e kv.1 (cfg.u32_to_dbl (cfg.dbl_to_u32 kv.2 % 4294967296))) acc

/-- The own properties `duk__load_func` defines from the dumped ones. -/
def loaded_props (cfg : Config) (nargs flags : Nat) (props : duk_props) : duk_props :=
  { length := some (.number (cfg.u32_to_dbl (Spec.length_field cfg nargs props % 4294967296))),
    name := some (.string (Spec.string_field props.name)),
    file_name := some (.string (Spec.string_field props.file_name)),
    pc2line := some (.buffer (Spec.buffer_field props.pc2line)),
    varmap := some (.object
      { e_part := loaded_varmap cfg (Spec.varmap_entries props.varmap) [], a_part := [] }),
    formals := some (.object
      { e_part := [], a_part := (Spec.formals_names props.formals).map some }),
    lexenv := if DUK_HOBJECT_HAS_NAMEBINDING cfg (flags % 4294967296)
      then some (Spec.string_field props.name) else none,
    prototype := true }

mutual

/-- The function `duk__load_func` builds from the serialisation of a function:
every scalar reduced to the width of its field, the properties as the loader
defines them. -/
def loaded (cfg : Config) : duk_hcompiledfunction → duk_hcompiledfunction
  | .mk nregs nargs start_line end_line flags code consts funcs props =>
    .mk (nregs % 65536) (nargs % 65536)
      (if cfg.debugger_support then start_line % 4294967296 else 0)
      (if cfg.debugger_support then end_line % 4294967296 else 0)
      (flags % 4294967296) (code.map (fun w => w % 4294967296)) (consts.map loaded_const)
      (loaded_list cfg funcs) (loaded_props cfg nargs flags props)

/-- `loaded` for each function of a list. -/
def loaded_list (cfg : Config) : List duk_hcompiledfunction → List duk_hcompiledfunction
  | [] => []
  | fn :: rest => loaded cfg fn :: loaded_list cfg rest

end

deriving instance DecidableEq for Except

/-- The bytes `xs` occur in `mem` at index `p`. -/
def At (mem : List Nat) (p : Nat) (xs : List Nat) : Prop :=
  p + xs.length ≤ mem.length ∧ (mem.drop p).take xs.length = xs

instance (mem : List Nat) (p : Nat) (xs : List Nat) : Decidable (At mem p xs) := by
  unfold At
  infer_instance

/-- The fault a computation ended in, `none` when it returned. -/
def fault_of {α : Type} : Except duk_fault α → Option duk_fault
  | .ok _ => none
  | .error e => some e

/-- The cursor a loader call returned, `none` when it did not return one. -/
def cursor_of {α : Type} : Except duk_fault (α × Nat) → Option Nat
  | .ok (_, p) => some p
  | .error _ => none

/-- The run of `duk__load_func` (with recursion budget `fuel`, started at `p`)
comes upon a constant tag other than `DUK__SER_STRING` / `DUK__SER_NUMBER`:
either in the constants of the function at `p` itself (`here`: header and
instructions are read, `k` constants are read, then the tag byte `t` is read),
or in the run of the recursive call for one of its inner functions (`inner`:
header, instructions and all constants are read, `j` inner functions are
loaded, and the next recursive call comes upon such a tag). -/
inductive BadTag (cfg : Config) (mem : List Nat) (p_end : Nat) : Nat → Nat → Prop where
  | here (fuel p : Nat) (hd : duk__func_header) (p1 p2 p3 : Nat) (code : List Nat)
      (k : Nat) (cs : List duk_const) (t : Nat)
      (h_hdr : duk__load_func_header cfg mem p_end p = .ok (hd, p1))
      (h_left : DUK__ASSERT_LEFT cfg p_end p1 (hd.count_instr * 4) = .ok ())
      (h_ins : duk__load_func_instrs cfg mem hd.count_instr p1 = .ok (code, p2))
      (h_k : k < hd.count_const)
      (h_cs : duk__load_func_consts cfg mem p_end k p2 = .ok (cs, p3))
      (h_left1 : DUK__ASSERT_LEFT cfg p_end p3 1 = .ok ())
      (h_tag : DUK__READ_U8 mem p3 = .ok (t, p3 + 1))
      (h_bad : t ≠ DUK__SER_STRING ∧ t ≠ DUK__SER_NUMBER) :
      BadTag cfg mem p_end (fuel + 1) p
  | inner (fuel p : Nat) (hd : duk__func_header) (p1 p2 p3 p4 : Nat) (code : List Nat)
      (cs : List duk_const) (j : Nat) (fs : List duk_hcompiledfunction)
      (h_hdr : duk__load_func_header cfg mem p_end p = .ok (hd, p1))
      (h_left : DUK__ASSERT_LEFT cfg p_end p1 (hd.count_instr * 4) = .ok ())
      (h_ins : duk__load_func_instrs cfg mem hd.count_instr p1 = .ok (code, p2))
      (h_cs : duk__load_func_consts cfg mem p_end hd.count_const p2 = .ok (cs, p3))
      (h_j : j < hd.count_funcs)
      (h_fs : duk__load_func_funcs (duk__load_func cfg mem p_end fuel) j p3 = .ok (fs, p4))
      (h_rec : BadTag cfg mem p_end fuel p4) :
      BadTag cfg mem p_end (fuel + 1) p

/-- The cursor `p` points into the buffer `h` right after the bytes `out`,
which are the bytes of the buffer up to there. -/
def BInv (h : duk_hbuffer_dynamic) (p : Nat) (out : List Nat) : Prop :=
  p = h.data_ptr + out.length ∧ ∃ rest, h.bytes = out ++ rest

/-- The state of a dump in progress: the cursor `p` points into the writer's
buffer right after the bytes `out` emitted so far, and `limit` is the end of
the buffer. -/
def Inv (bw_ctx : duk_bufwriter_ctx) (p : Nat) (out : List Nat) : Prop :=
  BInv bw_ctx.buf p out ∧ bw_ctx.limit = bw_ctx.buf.data_ptr + bw_ctx.buf.bytes.length

/-- A raw writer that, given room, stores the bytes `xs` at the cursor and
advances the cursor past them, leaving the block where and as long as it is. -/
def WritesB (w : duk_hbuffer_dynamic → Nat → Wr) (xs : List Nat) : Prop :=
  ∀ h p out, BInv h p out → p + xs.length ≤ h.data_ptr + h.bytes.length →
    ∃ h', w h p = .ok (h', p + xs.length) ∧ BInv h' (p + xs.length) (out ++ xs)
      ∧ h'.data_ptr = h.data_ptr ∧ h'.bytes.length = h.bytes.length

/-- A dump step that emits the bytes `xs`. -/
def Dumps (d : duk_bufwriter_ctx → Nat → Dump) (xs : List Nat) : Prop :=
  ∀ bw_ctx p out, Inv bw_ctx p out →
    ∃ bw_ctx' p', d bw_ctx p = .ok (bw_ctx', p') ∧ Inv bw_ctx' p' (out ++ xs)

/-- The host allocator resizes every block in place. -/
def InPlace (cfg : Config) : Prop :=
  ∀ ptr old new, cfg.realloc ptr old new = ptr

/-- The function has no var-map entry and no formal name. -/
def props_var_free (props : duk_props) : Bool :=
  (Spec.varmap_entries props.varmap).isEmpty && (Spec.formals_names props.formals).isEmpty

mutual

/-- No function of the tree has a var-map entry or a formal name. -/
def var_free : duk_hcompiledfunction → Bool
  | .mk _ _ _ _ _ _ _ funcs props => var_free_list funcs && props_var_free props

/-- `var_free` for each function of a list. -/
def var_free_list : List duk_hcompiledfunction → Bool
  | [] => true
  | fn :: rest => var_free fn && var_free_list rest

end

mutual

/-- The byte count of header plus instructions, `28 + 4 * n_instr`, fits the
32-bit arithmetic in which `duk__dump_func` computes its first ensure request,
for every function of the tree. -/
def burst_ok : duk_hcompiledfunction → Bool
  | .mk _ _ _ _ _ code _ funcs _ =>
    decide (28 + 4 * code.length < 4294967296) && burst_ok_list funcs

/-- `burst_ok` for each function of a list. -/
def burst_ok_list : List duk_hcompiledfunction → Bool
  | [] => true
  | fn :: rest => burst_ok fn && burst_ok_list rest

end

/-- The conversions between a number and a 32-bit unsigned integer are exact
on `d`: `d` is what `duk_push_u32` pushes for `(duk_uint32_t) d`. -/
def u32_exact (cfg : Config) (d : duk_double_union) : Bool :=
  decide (cfg.u32_to_dbl (cfg.dbl_to_u32 d % 4294967296) = d)

/-- The two halves of a numeric constant are 32-bit values. -/
def const_value_ok : duk_const → Bool
  | .string _ => true
  | .number d => decide (d.ui0 < 4294967296) && decide (d.ui1 < 4294967296)

/-- The own properties have the shape the loader gives them: `length` is a
number that is a 32-bit unsigned integer, `name` and `fileName` are strings,
the line map is a buffer, the variable map is an object with distinct keys
whose values are 32-bit unsigned integers, the formals are an array whose
slots all hold strings. -/
def props_canonical (cfg : Config) (props : duk_props) : Bool :=
  (match props.length with
    | some (.number d) => u32_exact cfg d
    | _ => false)
  && (match props.name with
    | some (.string _) => true
    | _ => false)
  && (match props.file_name with
    | some (.string _) => true
    | _ => false)
  && (match props.pc2line with
    | some (.buffer _) => true
    | _ => false)
  && (match props.varmap with
    | some (.object h) =>
      h.a_part.isEmpty && decide ((h.e_part.map Prod.fst).Nodup)
        && h.e_part.all (fun kv => u32_exact cfg kv.2)
    | _ => false)
  && (match props.formals with
    | some (.object h) => h.e_part.isEmpty && h.a_part.all Option.isSome
    | _ => false)

mutual

/-- Every scalar of the function tree fits the field it is dumped into, and
the own properties of every function have the shape the loader gives them. -/
def canonical (cfg : Config) : duk_hcompiledfunction → Bool
  | .mk nregs nargs _ _ flags code consts funcs props =>
    decide (nregs < 65536) && decide (nargs < 65536) && decide (flags < 4294967296)
      && code.all (fun w => decide (w < 4294967296)) && consts.all const_value_ok
      && canonical_list cfg funcs && props_canonical cfg props

/-- `canonical` for each function of a list. -/
def canonical_list (cfg : Config) : List duk_hcompiledfunction → Bool
  | [] => true
  | fn :: rest => canonical cfg fn && canonical_list cfg rest

end

mutual

/-- The second function agrees with the first in what the round trip is to
preserve: `nregs`, `nargs`, the flags, the instruction words, the constants,
the inner functions (recursively), and the properties `length`, `name`,
`fileName`, the line map, the variable map and the formals. -/
def Agrees : duk_hcompiledfunction → duk_hcompiledfunction → Prop
  | .mk nregs nargs _ _ flags code consts funcs props,
    .mk nregs' nargs' _ _ flags' code' consts' funcs' props' =>
    nregs' = nregs ∧ nargs' = nargs ∧ flags' = flags ∧ code' = code ∧ consts' = consts
      ∧ AgreesList funcs funcs'
      ∧ props'.length = props.length ∧ props'.name = props.name
      ∧ props'.file_name = props.file_name ∧ props'.pc2line = props.pc2line
      ∧ props'.varmap = props.varmap ∧ props'.formals = props.formals

/-- `Agrees` for two lists of functions, position by position. -/
def AgreesList : List duk_hcompiledfunction → List duk_hcompiledfunction → Prop
  | [], [] => True
  | fn :: rest, fn' :: rest' => Agrees fn fn' ∧ AgreesList rest rest'
  | [], _ :: _ => False
  | _ :: _, [] => False

end

/-! ## Sample hosts and functions -/

/-- A little-endian host without debugger support and without assertions whose
allocator moves a block every time it is resized.  The number conversions
and the name-binding bit of the sample hosts are stand-ins: the 32-bit
integer `n` is the double with halves `(0, n)`. -/
def host_le : Config :=
  { integer_be := false, debugger_support := false, asserts := false,
    malloc := fun _ => 4096,
    realloc := fun ptr old _ => ptr + old + 4096,
    dbl_to_u32 := fun d => d.ui1,
    u32_to_dbl := fun n => { ui0 := 0, ui1 := n },
    namebinding := 0x4000 }

/-- A big-endian host, with debugger support and assertions. -/
def host_be : Config :=
  { host_le with integer_be := true, debugger_support := true, asserts := true }

/-- A little-endian host whose allocator resizes every block in place. -/
def host_inplace : Config :=
  { host_le with realloc := fun ptr _ _ => ptr, asserts := true }

/-- A host like `host_le` with assertions compiled in. -/
def host_le_asserts : Config :=
  { host_le with asserts := true }

/-- No own properties at all. -/
def no_props : duk_props :=
  { length := none, name := none, file_name := none, pc2line := none,
    varmap := none, formals := none, lexenv := none, prototype := false }

/-- The function of the first concrete scenario: `function f(){}`. -/
def func_empty : duk_hcompiledfunction :=
  .mk 0 0 0 0 0 [] [] []
    { no_props with length := some (.number { ui0 := 0, ui1 := 0 }), name := some (.string [0x66]) }

/-- Properties of the shape the loader gives them, for the sample hosts. -/
def sample_props : duk_props :=
  { length := some (.number { ui0 := 0, ui1 := 2 }),
    name := some (.string [0x66]),
    file_name := some (.string [0x61, 0x2E, 0x6A, 0x73]),
    pc2line := some (.buffer [1, 2, 3]),
    varmap := some (.object { e_part := [([0x78], { ui0 := 0, ui1 := 0 }),
                                         ([0x79], { ui0 := 0, ui1 := 1 })], a_part := [] }),
    formals := some (.object { e_part := [], a_part := [some [0x78], some [0x79]] }),
    lexenv := none,
    prototype := true }

/-- A function with instructions, both kinds of constants, an inner function,
a variable map and formals. -/
def func_sample : duk_hcompiledfunction :=
  .mk 3 2 1 9 0x4000 [0x01020304, 0xAABBCCDD]
    [.string [0x68, 0x69], .number { ui0 := 0x3FF80000, ui1 := 0 }]
    [.mk 1 1 2 3 0 [7] [] [] sample_props]
    sample_props

/-- A function that differs from `func_sample` only in that its first formal
name is the empty string. -/
def func_empty_formal : duk_hcompiledfunction :=
  .mk 3 2 1 9 0x4000 [0x01020304, 0xAABBCCDD]
    [.string [0x68, 0x69], .number { ui0 := 0x3FF80000, ui1 := 0 }]
    [.mk 1 1 2 3 0 [7] [] [] sample_props]
    { sample_props with
      formals := some (.object { e_part := [], a_part := [some [], some [0x79]] }) }

/-- A function with a single instruction. -/
def func_one_instr : duk_hcompiledfunction :=
  .mk 1 0 0 0 0 [0x01020304] [] [] no_props

/-- A function with a string constant of 970 bytes and one var-map entry: the
43 bytes before the constant's payload, the payload and the four properties
before the variable map fill 1021 of the 1024 bytes of the initial buffer. -/
def func_growth : duk_hcompiledfunction :=
  .mk 1 0 0 0 0 [] [.string (List.replicate 970 0x61)] []
    { no_props with
      varmap := some (.object { e_part := [([0x78], { ui0 := 0, ui1 := 1 })], a_part := [] }) }

/-- Like `func_growth`, with one formal name in place of the var-map entry (and
a constant one byte shorter, so that the end marker of the empty variable map
fills the initial buffer exactly). -/
def func_growth_formals : duk_hcompiledfunction :=
  .mk 1 1 0 0 0 [] [.string (List.replicate 969 0x61)] []
    { no_props with formals := some (.object { e_part := [], a_part := [some [0x78]] }) }

/-- The writer right after `duk_bw_init` on the 1024-byte buffer of
`duk_dump_function` on `host_le`. -/
def writer_1024 : duk_bufwriter_ctx :=
  duk_bw_init (duk_push_dynamic_buffer host_le 1024)

/-- The one-constant function of the scenarios, with the constant tag changed
to 0x7A, behind the signature. -/
def blob_bad_tag : List Nat :=
  [0xFF, 0x00,
   0, 0, 0, 0,  0, 0, 0, 1,  0, 0, 0, 0,  0, 1,  0, 0,  0, 0, 0, 0,  0, 0, 0, 0,  0, 0, 0, 0,
   0x7A, 0x3F, 0xF8, 0, 0, 0, 0, 0, 0,
   0, 0, 0, 0,  0, 0, 0, 0,  0, 0, 0, 0,  0, 0, 0, 0,  0, 0, 0, 0,  0, 0, 0, 0]

/-- A function with one inner function; the inner function has one constant
whose tag is 0x7A. -/
def blob_bad_tag_nested : List Nat :=
  [0xFF, 0x00,
   0, 0, 0, 0,  0, 0, 0, 0,  0, 0, 0, 1,  0, 1,  0, 0,  0, 0, 0, 0,  0, 0, 0, 0,  0, 0, 0, 0,
   0, 0, 0, 0,  0, 0, 0, 1,  0, 0, 0, 0,  0, 1,  0, 0,  0, 0, 0, 0,  0, 0, 0, 0,  0, 0, 0, 0,
   0x7A, 0x3F, 0xF8, 0, 0, 0, 0, 0, 0]

/-- The truncated header of the scenarios. -/
def blob_truncated : List Nat := [0xFF, 0x00, 0x00, 0x00, 0x00, 0x00]

/-- A writer over a five-byte buffer at 4096 into which three bytes have been
written. -/
def writer_small : duk_bufwriter_ctx :=
  { offset := 0, length := 5, limit := 4101, buf := { data_ptr := 4096, bytes := [1, 2, 3, 0, 0] } }

/-- The writer's `length` and `limit` describe its buffer: `length` is the
allocated size and `limit` is the base plus `length`. -/
def WriterOk (bw_ctx : duk_bufwriter_ctx) : Prop :=
  bw_ctx.length = bw_ctx.buf.bytes.length ∧ bw_ctx.limit = bw_ctx.buf.data_ptr + bw_ctx.length

instance (bw_ctx : duk_bufwriter_ctx) : Decidable (WriterOk bw_ctx) := by
  unfold WriterOk
  infer_instance

/-- The writer right after `duk_bw_init` on a fresh eight-byte buffer on
`host_le`; the buffer is at 4096, so the cursor 4104 is at its end. -/
def writer_8 : duk_bufwriter_ctx :=
  duk_bw_init (duk_push_dynamic_buffer host_le 8)

/-- Own properties with the name `x` and a variable map with the single entry
`x -> 1`. -/
def props_x : duk_props :=
  { no_props with
    name := some (.string [0x78]),
    varmap := some (.object { e_part := [([0x78], { ui0 := 0, ui1 := 1 })], a_part := [] }) }

namespace Emitted

/-- The bytes `duk__dump_func_instrs` stores for the instruction words: on a
little-endian build every word big-endian; with `DUK_USE_INTEGER_BE` as many
bytes of the memory image of the words as there are words. -/
def Instrs (cfg : Config) (code : List Nat) : List Nat :=
  if cfg.integer_be then (code.flatMap (union_b32 cfg)).take code.length
  else Spec.Instrs code

mutual

/-- The bytes `duk__dump_func` emits for a function: the reference
serialisation, except for the instruction bytes, which are `Emitted.Instrs`. -/
def Func (cfg : Config) : duk_hcompiledfunction → List Nat
  | .mk nregs nargs start_line end_line flags code consts funcs props =>
    Spec.Header cfg code.length consts.length funcs.length nregs nargs start_line end_line flags
      ++ Instrs cfg code ++ Spec.Consts consts ++ Funcs cfg funcs ++ Spec.Props cfg nargs props

/-- The bytes the inner-function loop emits. -/
def Funcs (cfg : Config) : List duk_hcompiledfunction → List Nat
  | [] => []
  | fn :: rest => Func cfg fn ++ Funcs cfg rest

end

end Emitted

/-- Own properties whose formals array has two slots that hold no string
around the names `x` and `yz`. -/
def props_formals : duk_props :=
  { no_props with
    formals := some (.object
      { e_part := [], a_part := [none, some [0x78], none, some [0x79, 0x7A]] }) }

/-- A function with one instruction, no var-map entry and a formals array
whose two slots hold no string. -/
def func_unused_formals : duk_hcompiledfunction :=
  .mk 1 0 0 0 0 [0x01020304] [] []
    { no_props with
      varmap := some (.number { ui0 := 0, ui1 := 0 }),
      formals := some (.object { e_part := [], a_part := [none, none] }) }

/-! ## Function codec: load, on the value stack (lines 156-175, 487-738, 780-819)

The loader once more, this time with the value stack of the context as
explicit state.  The stack is a list with the top at its end; an index is
a `duk_idx_t` (negative indices count from the top).  The calls of the host's
value-stack API are definitions marked `Modelled from the spec:` (the API is
not part of this fragment); their stack effects are the ones the comments of
`duk__load_func` and `duk_load_function` state. -/

/-- The property names `duk__load_func` defines: the six the dump looks up, and
`DUK_STRIDX_INT_LEXENV`, `DUK_STRIDX_PROTOTYPE`, `DUK_STRIDX_CONSTRUCTOR`. -/
inductive duk_stridx_def where
  | codec (s : duk_stridx)
  | INT_LEXENV
  | PROTOTYPE
  | CONSTRUCTOR
deriving DecidableEq, Repr

/-- A value on the value stack, as far as the loader handles it:

* `tval`: a number, a string, a plain fixed buffer, a plain object or array;
* `fun_data`: the fixed buffer that serves as the function's data region, of
  the given size, with the given instruction words stored in its instruction
  part;
* `decenv`: a declarative environment object; `some name` when it has the
  binding of `name` to the function being loaded;
* `proto`: a fresh object on its way to become the function's `prototype`;
  `true` when its `constructor` is defined (as the function being loaded);
* `compiledfunction`: a compiled function object. -/
inductive duk_stack_tval where
  | tval (v : duk_tval)
  | fun_data (size : Nat) (code : List Nat)
  | decenv (binding : Option (List Nat))
  | proto (constructor : Bool)
  | compiledfunction (h_fun : duk_hcompiledfunction)

/-- The value stack of a context, bottom first. -/
abbrev duk_context := List duk_stack_tval

/-- A heap object whose reference count the loader touches. -/
inductive duk_heapref where
  | data_buffer (size : Nat) (code : List Nat)
  | string (h : List Nat)
  | buffer (h : List Nat)
  | object (h : duk_hobject)
  | function (h_fun : duk_hcompiledfunction)

/-- A reference-count operation. -/
inductive duk_refop where
  | incref (h : duk_heapref)
  | decref (h : duk_heapref)

/-- Where the loader's pointer arithmetic puts the parts of the data region,
as byte offsets from `fun_data`, and the size it allocates. -/
structure duk__data_layout where
  data_size : Nat
  instr_offset : Nat
  consts_offset : Nat
  funcs_offset : Nat
  bytecode_offset : Nat
deriving DecidableEq, Repr

/-- The data-region arithmetic of `duk__load_func`.  `data_size` (lines
512-514) and the products in the address of the instruction part (lines 572
and 578) are computed in `duk_size_t`, `cfg.size_bits` wide; their operands
come from the input.  The constants are copied to `q = fun_data` (line 632);
`q` then advances by `sizeof(duk_tval)` per constant (line 636) to where the
function's `funcs` pointer is set (line 640), and by `sizeof(duk_hobject *)`
per inner function (line 651) to where its `bytecode` pointer is set (line
654). -/
def duk__load_func_layout (cfg : Config) (count_instr count_const count_funcs : Nat) :
    duk__data_layout :=
  { data_size :=
      (cfg.sizeof_tval * count_const + cfg.sizeof_hobject_ptr * count_funcs + 4 * count_instr)
        % 2 ^ cfg.size_bits,
    instr_offset :=
      cfg.sizeof_tval * count_const % 2 ^ cfg.size_bits
        + cfg.sizeof_hobject_ptr * count_funcs % 2 ^ cfg.size_bits,
    consts_offset := 0,
    funcs_offset := cfg.sizeof_tval * count_const,
    bytecode_offset := cfg.sizeof_tval * count_const + cfg.sizeof_hobject_ptr * count_funcs }

/-- The conversion of a `duk_uint32_t` value to the signed 32-bit `duk_idx_t`. -/
def duk_idx_t_of_uint32 (v : Nat) : Int :=
  if v % 4294967296 < 2147483648 then (v % 4294967296 : Nat) else (v % 4294967296 : Nat) - 4294967296

/-- The argument `2 + count_const + count_funcs` of `duk_require_stack` (line
524): computed in `duk_uint32_t`, the type of the two counts, and passed as a
`duk_idx_t`. -/
def duk__load_func_reserve (count_const count_funcs : Nat) : Int :=
  duk_idx_t_of_uint32 ((2 + count_const + count_funcs) % 4294967296)

namespace Stack

/-- Modelled from the spec: index resolution of the host's value-stack API;
a non-negative index counts from the bottom, a negative one from the top. -/
def duk_normalize_index (ctx : duk_context) (index : Int) : Option Nat :=
  if 0 ≤ index then
    if index.toNat < ctx.length then some index.toNat else none
  else
    if (-index).toNat ≤ ctx.length then some (ctx.length - (-index).toNat) else none

/-- Modelled from the spec: the value at a valid index, an API error for an
invalid one (`duk_require_tval`). -/
def duk_require_tval (ctx : duk_context) (index : Int) :
    Except duk_fault (Nat × duk_stack_tval) :=
  match duk_normalize_index ctx index with
  | some i =>
    match ctx[i]? with
    | some tv => .ok (i, tv)
    | none => .error .api_error
  | none => .error .api_error

/-- Modelled from the spec: `duk_get_top`, the number of values on the stack. -/
def duk_get_top (ctx : duk_context) : Nat := ctx.length

/-- Modelled from the spec: `duk_set_top`; values above the new top are
dropped ("the intermediate stack entries ... can be dropped in one
operation"), missing ones are `undefined`. -/
def duk_set_top (ctx : duk_context) (index : Nat) : duk_context :=
  ctx.take index ++ List.replicate (index - ctx.length) (.tval .undefined)

/-- Modelled from the spec: `duk_require_stack` ("reserve value-stack room
for ... slots"); the values on the stack stay as they are. -/
def duk_require_stack (ctx : duk_context) (_extra : Int) : duk_context := ctx

/-- Modelled from the spec: `duk_push_compiledfunction` ("push a fresh
compiled-function object"; "the object's data/funcs/bytecode fields remain
null for now"). -/
def duk_push_compiledfunction (ctx : duk_context) : duk_context :=
  ctx ++ [.compiledfunction (.mk 0 0 0 0 0 [] [] [] no_props)]

/-- Modelled from the spec: `duk_push_fixed_buffer`, a zeroed fixed buffer
of the given size on the stack. -/
def duk_push_fixed_buffer (ctx : duk_context) (size : Nat) : duk_context :=
  ctx ++ [.tval (.buffer (List.replicate size 0))]

/-- Modelled from the spec: `duk_push_lstring`. -/
def duk_push_lstring (ctx : duk_context) (s : List Nat) : duk_context :=
  ctx ++ [.tval (.string s)]

/-- Modelled from the spec: `duk_push_number`. -/
def duk_push_number (ctx : duk_context) (val : duk_double_union) : duk_context :=
  ctx ++ [.tval (.number val)]

/-- Modelled from the spec: `duk_push_u32`. -/
def duk_push_u32 (cfg : Config) (ctx : duk_context) (val : Nat) : duk_context :=
  ctx ++ [.tval (.number (cfg.u32_to_dbl val))]

/-- Modelled from the spec: `duk_push_object` and `duk_push_array`, a fresh
empty object on the stack. -/
def duk_push_object (ctx : duk_context) : duk_context :=
  ctx ++ [.tval (.object { e_part := [], a_part := [] })]

/-- Modelled from the spec: `duk_push_object_helper_proto` with the class of
declarative environments: a fresh environment without bindings. -/
def duk_push_object_helper_proto (ctx : duk_context) : duk_context :=
  ctx ++ [.decenv none]

/-- Modelled from the spec: `duk_dup`, a copy of the value at the index is
pushed. -/
def duk_dup (ctx : duk_context) (from_index : Int) : Except duk_fault duk_context := do
  let (_, tv) ← duk_require_tval ctx from_index
  pure (ctx ++ [tv])

/-- Modelled from the spec: `duk_pop`. -/
def duk_pop (ctx : duk_context) : Except duk_fault duk_context :=
  if ctx.length = 0 then .error .api_error else .ok ctx.dropLast

/-- Modelled from the spec: `duk_remove`, the value at the index is removed
and the values above it move down. -/
def duk_remove (ctx : duk_context) (index : Int) : Except duk_fault duk_context := do
  let (i, _) ← duk_require_tval ctx index
  pure (ctx.take i ++ ctx.drop (i + 1))

/-- Modelled from the spec: `duk_get_length`; for a string its length, which
is zero exactly for the empty string. -/
def duk_get_length (ctx : duk_context) (index : Int) : Nat :=
  match duk_require_tval ctx index with
  | .ok (_, .tval (.string s)) => s.length
  | _ => 0

/-- Modelled from the spec: `duk_compact`; the object keeps its properties. -/
def duk_compact (ctx : duk_context) (obj_index : Int) : Except duk_fault duk_context := do
  let _ ← duk_require_tval ctx obj_index
  pure ctx

/-- Modelled from the spec: `duk_require_buffer`; a value that is not a
buffer is a type error. -/
def duk_require_buffer (ctx : duk_context) (index : Int) : Except duk_fault (List Nat) :=
  match duk_require_tval ctx index with
  | .ok (_, .tval (.buffer b)) => .ok b
  | .ok _ => .error .type_error
  | .error e => .error e

/-- The value at the given position replaced. -/
def replace_at : duk_context → Nat → duk_stack_tval → duk_context
  | [], _, _ => []
  | _ :: rest, 0, tv => tv :: rest
  | e :: rest, i + 1, tv => e :: replace_at rest i tv

/-- An own property defined on the object `obj` with the value `val`: on a
compiled function one of the properties of `duk_props`; on a fresh object the
`constructor`. -/
def define_own (obj : duk_stack_tval) (key : duk_stridx_def) (val : duk_stack_tval) :
    Except duk_fault duk_stack_tval :=
  match obj, key, val with
  | .compiledfunction (.mk a b c d e code consts funcs props), .codec .LENGTH, .tval v =>
    .ok (.compiledfunction (.mk a b c d e code consts funcs { props with length := some v }))
  | .compiledfunction (.mk a b c d e code consts funcs props), .codec .NAME, .tval v =>
    .ok (.compiledfunction (.mk a b c d e code consts funcs { props with name := some v }))
  | .compiledfunction (.mk a b c d e code consts funcs props), .codec .FILE_NAME, .tval v =>
    .ok (.compiledfunction (.mk a b c d e code consts funcs { props with file_name := some v }))
  | .compiledfunction (.mk a b c d e code consts funcs props), .codec .INT_PC2LINE, .tval v =>
    .ok (.compiledfunction (.mk a b c d e code consts funcs { props with pc2line := some v }))
  | .compiledfunction (.mk a b c d e code consts funcs props), .codec .INT_VARMAP, .tval v =>
    .ok (.compiledfunction (.mk a b c d e code consts funcs { props with varmap := some v }))
  | .compiledfunction (.mk a b c d e code consts funcs props), .codec .INT_FORMALS, .tval v =>
    .ok (.compiledfunction (.mk a b c d e code consts funcs { props with formals := some v }))
  | .compiledfunction (.mk a b c d e code consts funcs props), .INT_LEXENV, .decenv binding =>
    .ok (.compiledfunction (.mk a b c d e code consts funcs { props with lexenv := binding }))
  | .compiledfunction (.mk a b c d e code consts funcs props), .PROTOTYPE, .proto true =>
    .ok (.compiledfunction (.mk a b c d e code consts funcs { props with prototype := true }))
  | .tval (.object { e_part := [], a_part := [] }), .CONSTRUCTOR, .compiledfunction _ =>
    .ok (.proto true)
  | _, _, _ => .error .api_error

/-- Modelled from the spec: `duk_xdef_prop_stridx` ("define as own-property"):
the value on the stack top is popped and defined on the object at the index
(resolved before the pop).  Property attributes are not modelled. -/
def duk_xdef_prop_stridx (ctx : duk_context) (obj_index : Int) (stridx : duk_stridx_def) :
    Except duk_fault duk_context := do
  let (i, obj) ← duk_require_tval ctx obj_index
  let (_, val) ← duk_require_tval ctx (-1)
  let obj ← define_own obj stridx val
  pure (replace_at ctx i obj).dropLast

/-- Modelled from the spec: `duk_xdef_prop`: key and value are popped and
the property is defined on the object at the index; here the binding of an
environment ("a single-binding declarative environment whose one entry maps
`name` to the function itself"). -/
def duk_xdef_prop (ctx : duk_context) (obj_index : Int) : Except duk_fault duk_context := do
  let (i, obj) ← duk_require_tval ctx obj_index
  let (_, key) ← duk_require_tval ctx (-2)
  let (_, val) ← duk_require_tval ctx (-1)
  match obj, key, val with
  | .decenv none, .tval (.string name), .compiledfunction _ =>
    pure (replace_at ctx i (.decenv (some name))).dropLast.dropLast
  | _, _, _ => .error .api_error

/-- Modelled from the spec: `duk_put_prop` on the stack: key and value are
popped and the property is put on the object at the index ("each
`(name, u32)` becomes a property on a fresh object"). -/
def duk_put_prop (ctx : duk_context) (obj_index : Int) : Except duk_fault duk_context := do
  let (i, obj) ← duk_require_tval ctx obj_index
  let (_, key) ← duk_require_tval ctx (-2)
  let (_, val) ← duk_require_tval ctx (-1)
  match obj, key, val with
  | .tval (.object h), .tval (.string name), .tval (.number d) =>
    pure (replace_at ctx i
      (.tval (.object { h with e_part := Duk.duk_put_prop h.e_part name d }))).dropLast.dropLast
  | _, _, _ => .error .api_error

/-- Modelled from the spec: `duk_put_prop_index`: the value is popped and
stored as the element `arr_idx` of the array at the index ("each becomes a
successive numeric-indexed element of a fresh array"); slots skipped are
unused. -/
def duk_put_prop_index (ctx : duk_context) (obj_index : Int) (arr_idx : Nat) :
    Except duk_fault duk_context := do
  let (i, obj) ← duk_require_tval ctx obj_index
  let (_, val) ← duk_require_tval ctx (-1)
  match obj, val with
  | .tval (.object h), .tval (.string s) =>
    pure (replace_at ctx i
      (.tval (.object { h with
        a_part := h.a_part.take arr_idx ++ List.replicate (arr_idx - h.a_part.length) none
          ++ [some s] ++ h.a_part.drop (arr_idx + 1) }))).dropLast
  | _, _ => .error .api_error

/-- A field of the function object `h_fun` points to (the compiled function at
stack index `idx`) is assigned. -/
def hfun_set (ctx : duk_context) (idx : Nat)
    (f : duk_hcompiledfunction → duk_hcompiledfunction) : duk_context :=
  match ctx[idx]? with
  | some (.compiledfunction h_fun) => replace_at ctx idx (.compiledfunction (f h_fun))
  | _ => ctx

/-- The assignment `h_fun->nregs = ...`. -/
def set_nregs (v : Nat) : duk_hcompiledfunction → duk_hcompiledfunction
  | .mk _ b c d e code consts funcs props => .mk v b c d e code consts funcs props

/-- The assignment `h_fun->nargs = ...`. -/
def set_nargs (v : Nat) : duk_hcompiledfunction → duk_hcompiledfunction
  | .mk a _ c d e code consts funcs props => .mk a v c d e code consts funcs props

/-- The assignment `h_fun->start_line = ...` (absent without debugger support,
where the value assigned here is the zero the embedding keeps). -/
def set_start_line (v : Nat) : duk_hcompiledfunction → duk_hcompiledfunction
  | .mk a b _ d e code consts funcs props => .mk a b v d e code consts funcs props

/-- The assignment `h_fun->end_line = ...` (see `set_start_line`). -/
def set_end_line (v : Nat) : duk_hcompiledfunction → duk_hcompiledfunction
  | .mk a b c _ e code consts funcs props => .mk a b c v e code consts funcs props

/-- `DUK_HEAPHDR_SET_FLAGS((duk_heaphdr *) h_fun, tmp32)`. -/
def set_flags (v : Nat) : duk_hcompiledfunction → duk_hcompiledfunction
  | .mk a b c d _ code consts funcs props => .mk a b c d v code consts funcs props

/-- `DUK_HCOMPILEDFUNCTION_SET_DATA`, `_SET_FUNCS` and `_SET_BYTECODE` (lines
627, 640, 654) with the constants and inner functions copied in between: the
function refers to the instruction words, the constants and the inner
functions of its data region. -/
def set_data (code : List Nat) (consts : List duk_const) (funcs : List duk_hcompiledfunction) :
    duk_hcompiledfunction → duk_hcompiledfunction
  | .mk a b c d e _ _ _ props => .mk a b c d e code consts funcs props

/-- `duk__load_string` (lines 156-163) on the stack. -/
def duk__load_string (cfg : Config) (mem : List Nat) (ctx : duk_context) (p : Nat) :
    Except duk_fault (duk_context × Nat) := do
  let (len, p) ← duk__read_u32 cfg mem p
  match fetch mem p len with
  | some s => pure (duk_push_lstring ctx s, p + len)
  | none => .error .out_of_bounds

/-- `duk__load_buffer` (lines 165-175) on the stack: the fixed buffer is
pushed and then filled. -/
def duk__load_buffer (cfg : Config) (mem : List Nat) (ctx : duk_context) (p : Nat) :
    Except duk_fault (duk_context × Nat) := do
  let (len, p) ← duk__read_u32 cfg mem p
  let ctx := duk_push_fixed_buffer ctx len
  match fetch mem p len with
  | some b => pure (replace_at ctx (ctx.length - 1) (.tval (.buffer b)), p + len)
  | none => .error .out_of_bounds

/-- The constants loop of `duk__load_func` (lines 585-605) on the stack. -/
def duk__load_func_consts (cfg : Config) (mem : List Nat) (p_end : Nat) :
    Nat → duk_context → Nat → Except duk_fault (duk_context × Nat)
  | 0, ctx, p => pure (ctx, p)
  | n + 1, ctx, p => do
    DUK__ASSERT_LEFT cfg p_end p 1
    let (const_type, p) ← DUK__READ_U8 mem p
    if const_type = DUK__SER_STRING then
      let (ctx, p) ← duk__load_string cfg mem ctx p
      duk__load_func_consts cfg mem p_end n ctx p
    else if const_type = DUK__SER_NUMBER then
      DUK__ASSERT_LEFT cfg p_end p 8
      let (val, p) ← duk__read_double cfg mem p
      let ctx := duk_push_number ctx val
      duk__load_func_consts cfg mem p_end n ctx p
    else
      .error .format_error

/-- The inner-function loop of `duk__load_func` (lines 607-613) on the stack,
around the recursive call `load`. -/
def duk__load_func_funcs (load : duk_context → Nat → Except duk_fault (duk_context × Nat)) :
    Nat → duk_context → Nat → Except duk_fault (duk_context × Nat)
  | 0, ctx, p => pure (ctx, p)
  | n + 1, ctx, p => do
    let (ctx, p) ← load ctx p
    duk__load_func_funcs load n ctx p

/-- What `duk__load_func` knows after its first part: the counts, the flags
word and where the function object is on the stack. -/
structure duk__load_state where
  idx_base : Nat
  count_instr : Nat
  count_const : Nat
  count_funcs : Nat
  flags : Nat

/-- The first part of `duk__load_func` (lines 507-613) on the stack: header,
function object, data buffer, instructions, constants, inner functions. -/
def duk__load_func_build (cfg : Config) (mem : List Nat) (p_end : Nat)
    (load : duk_context → Nat → Except duk_fault (duk_context × Nat))
    (ctx : duk_context) (p : Nat) : Except duk_fault (duk__load_state × duk_context × Nat) := do
  DUK__ASSERT_LEFT cfg p_end p (3 * 4)
  let (count_instr, p) ← duk__read_u32 cfg mem p
  let (count_const, p) ← duk__read_u32 cfg mem p
  let (count_funcs, p) ← duk__read_u32 cfg mem p
  let data_size := (duk__load_func_layout cfg count_instr count_const count_funcs).data_size
  let ctx := duk_require_stack ctx (duk__load_func_reserve count_const count_funcs)
  let idx_base := duk_get_top ctx
  let ctx := duk_push_compiledfunction ctx
  let (nregs, p) ← duk__read_u16 cfg mem p
  let ctx := hfun_set ctx idx_base (set_nregs nregs)
  let (nargs, p) ← duk__read_u16 cfg mem p
  let ctx := hfun_set ctx idx_base (set_nargs nargs)
  let (start_line, p) ←
    if cfg.debugger_support then duk__read_u32 cfg mem p else pure (0, p)
  let ctx := hfun_set ctx idx_base (set_start_line start_line)
  let (end_line, p) ←
    if cfg.debugger_support then duk__read_u32 cfg mem p else pure (0, p + 8)
  let ctx := hfun_set ctx idx_base (set_end_line end_line)
  let (tmp32, p) ← duk__read_u32 cfg mem p
  let ctx := hfun_set ctx idx_base (set_flags tmp32)
  let ctx := duk_push_fixed_buffer ctx data_size
  DUK__ASSERT_LEFT cfg p_end p (count_instr * 4)
  let (code, p) ← duk__load_func_instrs cfg mem count_instr p
  let ctx := replace_at ctx (idx_base + 1) (.fun_data data_size code)
  let (ctx, p) ← duk__load_func_consts cfg mem p_end count_const ctx p
  let (ctx, p) ← duk__load_func_funcs load count_funcs ctx p
  pure ({ idx_base := idx_base, count_instr := count_instr, count_const := count_const,
          count_funcs := count_funcs, flags := tmp32 }, ctx, p)

/-- Modelled from the spec: `DUK_TVAL_INCREF_FAST` ("incref each"): the
reference count of the heap object a tagged value refers to is incremented;
a number has none. -/
def DUK_TVAL_INCREF_FAST : duk_const → List duk_refop
  | .string h => [.incref (.string h)]
  | .number _ => []

/-- The constants the bulk copy of line 633 takes from the stack slots. -/
def stack_consts : List duk_stack_tval → Except duk_fault (List duk_const)
  | [] => pure []
  | .tval (.string h) :: rest => do
    let cs ← stack_consts rest
    pure (.string h :: cs)
  | .tval (.number d) :: rest => do
    let cs ← stack_consts rest
    pure (.number d :: cs)
  | _ :: _ => .error .assertion

/-- The inner functions the loop of lines 641-652 takes from the stack slots
(`DUK_ASSERT(DUK_TVAL_IS_OBJECT(tv))`). -/
def stack_funcs : List duk_stack_tval → Except duk_fault (List duk_hcompiledfunction)
  | [] => pure []
  | .compiledfunction f :: rest => do
    let fs ← stack_funcs rest
    pure (f :: fs)
  | _ :: _ => .error .assertion

/-- The commit step of `duk__load_func` (lines 624-654): the data buffer at
`idx_base + 1` is attached to the function, the `count_const` values from
`idx_base + 2` on are copied as its constants, the `count_funcs` values after
them as its inner functions, and the instruction part of the data buffer
becomes its bytecode.  The result is the stack and the reference-count
operations made, in order.  Stack slots that do not exist, or hold a value of
another kind than the loader put there, end the embedding. -/
def duk__load_func_commit (ctx : duk_context) (idx_base count_const count_funcs : Nat) :
    Except duk_fault (duk_context × List duk_refop) := do
  let (size, code) ←
    match ctx[idx_base + 1]? with
    | some (.fun_data size code) => pure (size, code)
    | _ => .error .assertion
  let ops := [duk_refop.incref (.data_buffer size code)]
  let tv := (ctx.drop (idx_base + 2)).take count_const
  if tv.length ≠ count_const then .error .out_of_bounds else
  let consts ← stack_consts tv
  let ops := ops ++ consts.flatMap DUK_TVAL_INCREF_FAST
  let tv := (ctx.drop (idx_base + 2 + count_const)).take count_funcs
  if tv.length ≠ count_funcs then .error .out_of_bounds else
  let funcs ← stack_funcs tv
  let ops := ops ++ funcs.map fun h_obj => duk_refop.incref (.function h_obj)
  let ctx := hfun_set ctx idx_base (set_data code consts funcs)
  pure (ctx, ops)

/-- The `_Varmap` loop of `duk__load_func` (lines 704-714) on the stack, run
for at most the given number of iterations. -/
def duk__load_func_varmap (cfg : Config) (mem : List Nat) :
    Nat → duk_context → Nat → Except duk_fault (duk_context × Nat)
  | 0, _, _ => .error .fuel
  | fuel + 1, ctx, p => do
    let (ctx, p) ← duk__load_string cfg mem ctx p
    if duk_get_length ctx (-1) = 0 then
      let ctx ← duk_pop ctx
      pure (ctx, p)
    else
      let (tmp32, p) ← duk__read_u32 cfg mem p
      let ctx := duk_push_u32 cfg ctx tmp32
      let ctx ← duk_put_prop ctx (-3)
      duk__load_func_varmap cfg mem fuel ctx p

/-- The `_Formals` loop of `duk__load_func` (lines 719-727) on the stack, run
for at most the given number of iterations. -/
def duk__load_func_formals (cfg : Config) (mem : List Nat) :
    Nat → Nat → duk_context → Nat → Except duk_fault (duk_context × Nat)
  | 0, _, _, _ => .error .fuel
  | fuel + 1, arr_idx, ctx, p => do
    let (ctx, p) ← duk__load_string cfg mem ctx p
    if duk_get_length ctx (-1) = 0 then
      let ctx ← duk_pop ctx
      pure (ctx, p)
    else
      let ctx ← duk_put_prop_index ctx (-2) arr_idx
      duk__load_func_formals cfg mem fuel (arr_idx + 1) ctx p

/-- The properties of `duk__load_func` (lines 662-733) on the stack. -/
def duk__load_func_props (cfg : Config) (mem : List Nat) (idx_base flags : Nat)
    (ctx : duk_context) (p : Nat) : Except duk_fault (duk_context × Nat) := do
  let (tmp32, p) ← duk__read_u32 cfg mem p
  let ctx := duk_push_u32 cfg ctx tmp32
  let ctx ← duk_xdef_prop_stridx ctx (-2) (.codec .LENGTH)
  let (ctx, p) ← duk__load_string cfg mem ctx p
  let ctx ←
    if DUK_HOBJECT_HAS_NAMEBINDING cfg flags then do
      let ctx := duk_push_object_helper_proto ctx
      let ctx ← duk_dup ctx (-2)
      let ctx ← duk_dup ctx idx_base
      let ctx ← duk_xdef_prop ctx (-3)
      duk_xdef_prop_stridx ctx idx_base .INT_LEXENV
    else pure ctx
  let ctx ← duk_xdef_prop_stridx ctx (-2) (.codec .NAME)
  let (ctx, p) ← duk__load_string cfg mem ctx p
  let ctx ← duk_xdef_prop_stridx ctx (-2) (.codec .FILE_NAME)
  let ctx := duk_push_object ctx
  let ctx ← duk_dup ctx (-2)
  let ctx ← duk_xdef_prop_stridx ctx (-2) .CONSTRUCTOR
  let ctx ← duk_compact ctx (-1)
  let ctx ← duk_xdef_prop_stridx ctx (-2) .PROTOTYPE
  let (ctx, p) ← duk__load_buffer cfg mem ctx p
  let ctx ← duk_xdef_prop_stridx ctx (-2) (.codec .INT_PC2LINE)
  let ctx := duk_push_object ctx
  let (ctx, p) ← duk__load_func_varmap cfg mem (mem.length + 1) ctx p
  let ctx ← duk_compact ctx (-1)
  let ctx ← duk_xdef_prop_stridx ctx (-2) (.codec .INT_VARMAP)
  let ctx := duk_push_object ctx
  let (ctx, p) ← duk__load_func_formals cfg mem (mem.length + 1) 0 ctx p
  let ctx ← duk_compact ctx (-1)
  let ctx ← duk_xdef_prop_stridx ctx (-2) (.codec .INT_FORMALS)
  DUK_ASSERT cfg (decide (duk_get_top ctx = idx_base + 1))
  pure (ctx, p)

/-- `duk__load_func` (lines 487-738) on the stack, with a budget for the
depth of the recursion: the stack and the cursor on return
(`format_error` is the `NULL` return). -/
def duk__load_func (cfg : Config) (mem : List Nat) (p_end : Nat) :
    Nat → duk_context → Nat → Except duk_fault (duk_context × Nat)
  | 0, _, _ => .error .fuel
  | fuel + 1, ctx, p => do
    let (st, ctx, p) ←
      duk__load_func_build cfg mem p_end (duk__load_func cfg mem p_end fuel) ctx p
    let (ctx, _) ← duk__load_func_commit ctx st.idx_base st.count_const st.count_funcs
    let ctx := duk_set_top ctx (st.idx_base + 1)
    duk__load_func_props cfg mem st.idx_base st.flags ctx p

/-- `duk_load_function` (lines 780-819) on the stack: the buffer on the stack
top is the input, `beyond` the memory that follows it. -/
def duk_load_function (cfg : Config) (ctx : duk_context) (beyond : List Nat) :
    Except duk_fault duk_context := do
  let buf ← duk_require_buffer ctx (-1)
  let mem := buf ++ beyond
  let sz := buf.length
  if sz < 2 ∨ mem[0]? ≠ some DUK__SER_MARKER ∨ mem[1]? ≠ some DUK__SER_VERSION then
    .error .type_error
  else
    match duk__load_func cfg mem sz (mem.length + 1) ctx 2 with
    | .ok (ctx, _) => duk_remove ctx (-2)
    | .error .format_error => .error .type_error
    | .error e => .error e

/-- A constant as a value on the stack. -/
def const_tval : duk_const → duk_stack_tval
  | .string h => .tval (.string h)
  | .number d => .tval (.number d)

/-- What a loader step leaves on the stack `ctx`, given what the step reads:
for the value `v` read the values `e v` are pushed; a step that ends otherwise
ends the same way. -/
def pushed {α : Type} (ctx : duk_context) (e : α → List duk_stack_tval) :
    Except duk_fault (α × Nat) → Except duk_fault (duk_context × Nat)
  | .ok (v, q) => .ok (ctx ++ e v, q)
  | .error x => .error x

end Stack

/-- A 32-bit host: `duk_size_t` has 32 bits, a tagged value eight bytes, a
pointer four. -/
def host_32 : Config :=
  { host_le with sizeof_tval := 8, sizeof_hobject_ptr := 4, size_bits := 32 }

/-- A value stack with two values on it. -/
def ctx_two : duk_context :=
  [.tval (.number { ui0 := 0, ui1 := 7 }), .tval (.string [0x61])]

/-- A header with the counts `FF FF FF FF` constants and no inner functions,
behind the signature. -/
def blob_many_consts : List Nat :=
  [0xFF, 0x00,
   0, 0, 0, 0,  0xFF, 0xFF, 0xFF, 0xFF,  0, 0, 0, 0,  0, 1,  0, 0,  0, 0, 0, 0,  0, 0, 0, 0,
   0, 0, 0, 0]

/-! ## Theorems -/

/-! ### Primitive codec -/

theorem bytes32_div (b0 b1 b2 b3 : Nat) (h1 : b1 < 256) (h2 : b2 < 256) (h3 : b3 < 256) :
    (b0 * 16777216 + b1 * 65536 + b2 * 256 + b3) % 256 = b3 ∧
    (b0 * 16777216 + b1 * 65536 + b2 * 256 + b3) / 256 % 256 = b2 ∧
    (b0 * 16777216 + b1 * 65536 + b2 * 256 + b3) / 65536 % 256 = b1 ∧
    (b0 * 16777216 + b1 * 65536 + b2 * 256 + b3) / 16777216 = b0 := by
  refine ⟨by omega, by omega, by omega, by omega⟩

theorem bytes16_div (b0 b1 : Nat) (h1 : b1 < 256) :
    (b0 * 256 + b1) % 256 = b1 ∧ (b0 * 256 + b1) / 256 = b0 := by
  refine ⟨by omega, by omega⟩

/-- The bytes stored for a 16-bit value are its big-endian image on either host. -/
theorem union_b16_hton (cfg : Config) (v : Nat) :
    union_b16 cfg (DUK__HTON16 cfg v) = Spec.u16 v := by
  unfold union_b16 DUK__HTON16 DUK_BSWAP16 Spec.u16
  cases cfg.integer_be
  · obtain ⟨h0, h1⟩ := bytes16_div (v % 256) (v / 256 % 256) (Nat.mod_lt _ (by norm_num))
    simp only [Bool.false_eq_true, if_false, h0, h1, Nat.mod_mod]
  · simp

/-- The bytes stored for a 32-bit value are its big-endian image on either host. -/
theorem union_b32_hton (cfg : Config) (v : Nat) :
    union_b32 cfg (DUK__HTON32 cfg v) = Spec.u32 v := by
  unfold union_b32 DUK__HTON32 DUK_BSWAP32 Spec.u32
  cases cfg.integer_be
  · obtain ⟨h0, h1, h2, h3⟩ := bytes32_div (v % 256) (v / 256 % 256) (v / 65536 % 256)
      (v / 16777216 % 256) (Nat.mod_lt _ (by norm_num)) (Nat.mod_lt _ (by norm_num))
      (Nat.mod_lt _ (by norm_num))
    simp only [Bool.false_eq_true, if_false, h0, h1, h2, h3, Nat.mod_mod]
  · simp

theorem u16_decomp (v : Nat) (hv : v < 65536) : v / 256 % 256 * 256 + v % 256 = v := by
  omega

theorem u32_decomp (v : Nat) (hv : v < 4294967296) :
    v / 16777216 % 256 * 16777216 + v / 65536 % 256 * 65536 + v / 256 % 256 * 256 + v % 256
      = v := by
  have h1 : v / 65536 = v / 256 / 256 := by rw [Nat.div_div_eq_div_mul]
  have h2 : v / 16777216 = v / 256 / 256 / 256 := by
    rw [Nat.div_div_eq_div_mul, Nat.div_div_eq_div_mul]
  rw [h1, h2]
  omega

/-- Reading two bytes gives the big-endian value on either host. -/
theorem ntoh16_bytes (cfg : Config) (b0 b1 : Nat) (h0 : b0 < 256) (h1 : b1 < 256) :
    DUK__NTOH16 cfg (union_x16 cfg [b0, b1]) = b0 * 256 + b1 := by
  unfold DUK__NTOH16 union_x16 DUK_BSWAP16
  cases cfg.integer_be
  · simp only [Bool.false_eq_true, if_false]
    have hx : b0 + b1 * 256 = b1 * 256 + b0 := by omega
    obtain ⟨e0, e1⟩ := bytes16_div b1 b0 h0
    rw [hx, e0, e1, Nat.mod_eq_of_lt h1]
  · simp only [if_true]

/-- Reading four bytes gives the big-endian value on either host. -/
theorem ntoh32_bytes (cfg : Config) (b0 b1 b2 b3 : Nat) (h0 : b0 < 256) (h1 : b1 < 256)
    (h2 : b2 < 256) (h3 : b3 < 256) :
    DUK__NTOH32 cfg (union_x32 cfg [b0, b1, b2, b3])
      = b0 * 16777216 + b1 * 65536 + b2 * 256 + b3 := by
  unfold DUK__NTOH32 union_x32 DUK_BSWAP32
  cases cfg.integer_be
  · simp only [Bool.false_eq_true, if_false]
    have hx : b0 + b1 * 256 + b2 * 65536 + b3 * 16777216
        = b3 * 16777216 + b2 * 65536 + b1 * 256 + b0 := by omega
    obtain ⟨e0, e1, e2, e3⟩ := bytes32_div b3 b2 b1 b0 h2 h1 h0
    rw [hx, e0, e1, e2, e3, Nat.mod_eq_of_lt h3]
  · simp only [if_true]

/-- Reading the big-endian image of a 16-bit value gives the value on either host. -/
theorem ntoh16_u16 (cfg : Config) (v : Nat) (hv : v < 65536) :
    DUK__NTOH16 cfg (union_x16 cfg (Spec.u16 v)) = v := by
  unfold Spec.u16
  rw [ntoh16_bytes cfg _ _ (Nat.mod_lt _ (by norm_num)) (Nat.mod_lt _ (by norm_num))]
  exact u16_decomp v hv

/-- Reading the big-endian image of a 32-bit value gives the value on either host. -/
theorem ntoh32_u32 (cfg : Config) (v : Nat) (hv : v < 4294967296) :
    DUK__NTOH32 cfg (union_x32 cfg (Spec.u32 v)) = v := by
  unfold Spec.u32
  rw [ntoh32_bytes cfg _ _ _ _ (Nat.mod_lt _ (by norm_num)) (Nat.mod_lt _ (by norm_num))
    (Nat.mod_lt _ (by norm_num)) (Nat.mod_lt _ (by norm_num))]
  exact u32_decomp v hv

theorem u16_shift (v : Nat) (hv : v < 65536) : Spec.u16 v = [v >>> 8, v &&& 0xFF] := by
  have h : v &&& 0xFF = v % 256 := Nat.and_pow_two_sub_one_eq_mod v 8
  have h8 : v >>> 8 = v / 256 := Nat.shiftRight_eq_div_pow v 8
  rw [h, h8]
  unfold Spec.u16
  congr 1
  omega

theorem u32_shift (v : Nat) (hv : v < 4294967296) :
    Spec.u32 v = [v >>> 24, (v >>> 16) &&& 0xFF, (v >>> 8) &&& 0xFF, v &&& 0xFF] := by
  have h : ∀ x : Nat, x &&& 0xFF = x % 256 := fun x => Nat.and_pow_two_sub_one_eq_mod x 8
  have h8 : v >>> 8 = v / 256 := Nat.shiftRight_eq_div_pow v 8
  have h16 : v >>> 16 = v / 65536 := Nat.shiftRight_eq_div_pow v 16
  have h24 : v >>> 24 = v / 16777216 := Nat.shiftRight_eq_div_pow v 24
  rw [h, h, h, h8, h16, h24]
  unfold Spec.u32
  congr 1
  omega

@[simp] theorem u16_length (v : Nat) : (Spec.u16 v).length = 2 := rfl

@[simp] theorem u32_length (v : Nat) : (Spec.u32 v).length = 4 := rfl

/-- A store inside the live block succeeds and replaces exactly the bytes
addressed. -/
theorem store_ok (h : duk_hbuffer_dynamic) (p : Nat) (src : List Nat)
    (hp : h.data_ptr ≤ p) (hq : p + src.length ≤ h.data_ptr + h.bytes.length) :
    store h p src = .ok { h with
      bytes := h.bytes.take (p - h.data_ptr) ++ src
        ++ h.bytes.drop (p - h.data_ptr + src.length) } := by
  unfold store
  rw [if_pos ⟨hp, hq⟩]

theorem At.fetch {mem : List Nat} {p : Nat} {xs : List Nat} (h : At mem p xs) :
    fetch mem p xs.length = some xs := by
  unfold Duk.fetch
  rw [if_pos h.1, h.2]

theorem at_append (mem : List Nat) (p : Nat) (xs ys : List Nat) :
    At mem p (xs ++ ys) ↔ At mem p xs ∧ At mem (p + xs.length) ys := by
  unfold At
  constructor
  · rintro ⟨h1, h2⟩
    rw [List.length_append] at h1 h2
    have hx : (List.drop p mem).take xs.length = xs := by
      have := congrArg (List.take xs.length) h2
      rw [List.take_take, List.take_left] at this
      rwa [Nat.min_eq_left (Nat.le_add_right _ _)] at this
    have hy : (List.drop (p + xs.length) mem).take ys.length = ys := by
      have := congrArg (List.drop xs.length) h2
      rw [List.drop_left, List.drop_take, Nat.add_sub_cancel_left, List.drop_drop] at this
      exact this
    exact ⟨⟨by omega, hx⟩, ⟨by omega, hy⟩⟩
  · rintro ⟨⟨h1, h2⟩, ⟨h3, h4⟩⟩
    refine ⟨by rw [List.length_append]; omega, ?_⟩
    rw [List.length_append, List.take_add, h2, List.drop_drop, h4]

theorem at_zero_append (xs rest : List Nat) : At (xs ++ rest) 0 xs := by
  unfold At
  simp

/-- Reading a 16-bit value where its big-endian image lies. -/
theorem read_u16_at (cfg : Config) (mem : List Nat) (p v : Nat) (hv : v < 65536)
    (h : At mem p (Spec.u16 v)) : duk__read_u16 cfg mem p = .ok (v, p + 2) := by
  have := h.fetch
  rw [u16_length] at this
  simp only [duk__read_u16, this, ntoh16_u16 cfg v hv]

/-- Reading a 32-bit value where its big-endian image lies. -/
theorem read_u32_at (cfg : Config) (mem : List Nat) (p v : Nat) (hv : v < 4294967296)
    (h : At mem p (Spec.u32 v)) : duk__read_u32 cfg mem p = .ok (v, p + 4) := by
  have := h.fetch
  rw [u32_length] at this
  simp only [duk__read_u32, this, ntoh32_u32 cfg v hv]

/-- C10. Big-endian integers: on either integer byte order, `duk__write_u16`
stores `[v >> 8, v & 0xFF]` and advances the cursor by 2, `duk__write_u32`
stores `[w >> 24, (w >> 16) & 0xFF, (w >> 8) & 0xFF, w & 0xFF]` and advances
the cursor by 4, and `duk__read_u16` / `duk__read_u32` applied to those bytes
return the value and advance the cursor by the same amount. -/
theorem big_endian_integers (cfg : Config) (h : duk_hbuffer_dynamic) (p : Nat)
    (mem : List Nat) (q : Nat) (v w : Nat) (hv : v < 65536) (hw : w < 4294967296)
    (hp : h.data_ptr ≤ p) (hq : p + 4 ≤ h.data_ptr + h.bytes.length)
    (h16 : At mem q [v >>> 8, v &&& 0xFF])
    (h32 : At mem q [w >>> 24, (w >>> 16) &&& 0xFF, (w >>> 8) &&& 0xFF, w &&& 0xFF]) :
    duk__write_u16 cfg h p v
        = .ok ({ h with bytes := h.bytes.take (p - h.data_ptr) ++ [v >>> 8, v &&& 0xFF]
                    ++ h.bytes.drop (p - h.data_ptr + 2) }, p + 2)
      ∧ duk__write_u32 cfg h p w
        = .ok ({ h with bytes := h.bytes.take (p - h.data_ptr)
                    ++ [w >>> 24, (w >>> 16) &&& 0xFF, (w >>> 8) &&& 0xFF, w &&& 0xFF]
                    ++ h.bytes.drop (p - h.data_ptr + 4) }, p + 4)
      ∧ duk__read_u16 cfg mem q = .ok (v, q + 2)
      ∧ duk__read_u32 cfg mem q = .ok (w, q + 4) := by
  refine ⟨?_, ?_, ?_, ?_⟩
  · unfold duk__write_u16
    rw [union_b16_hton, u16_shift v hv, store_ok h p _ hp (by simp; omega)]
    rfl
  · unfold duk__write_u32
    rw [union_b32_hton, u32_shift w hw, store_ok h p _ hp (by simp; omega)]
    rfl
  · rw [← u16_shift v hv] at h16
    exact read_u16_at cfg mem q v hv h16
  · rw [← u32_shift w hw] at h32
    exact read_u32_at cfg mem q w hw h32

/-- C10, at the values 0x1234 and 0x12345678 on a big-endian host. -/
theorem big_endian_integers_witness :
    duk__write_u16 host_be ⟨4096, [0, 0, 0, 0]⟩ 4096 0x1234
        = .ok (⟨4096, [0x12, 0x34, 0, 0]⟩, 4098)
      ∧ duk__write_u32 host_be ⟨4096, [0, 0, 0, 0]⟩ 4096 0x12345678
        = .ok (⟨4096, [0x12, 0x34, 0x56, 0x78]⟩, 4100)
      ∧ duk__read_u16 host_be [9, 0x12, 0x34, 0x56, 0x78] 1 = .ok (0x1234, 3)
      ∧ duk__read_u32 host_be [9, 0x12, 0x34, 0x56, 0x78] 1 = .ok (0x12345678, 5) :=
  big_endian_integers host_be ⟨4096, [0, 0, 0, 0]⟩ 4096 [9, 0x12, 0x34, 0x56, 0x78] 1
    0x1234 0x12345678 (by decide) (by decide) (by decide) (by decide) (by decide) (by decide)

/-! ### The signature gate -/

theorem gate_iff (buf beyond : List Nat) :
    (buf.length < 2 ∨ (buf ++ beyond)[0]? ≠ some DUK__SER_MARKER
        ∨ (buf ++ beyond)[1]? ≠ some DUK__SER_VERSION)
      ↔ buf.take 2 ≠ [0xFF, 0x00] := by
  match buf with
  | [] => simp
  | [a] => simp
  | a :: b :: rest =>
    simp only [List.length_cons, List.cons_append, List.getElem?_cons_zero,
      List.getElem?_cons_succ, List.take_succ_cons, List.take_zero, DUK__SER_MARKER,
      DUK__SER_VERSION]
    constructor
    · rintro (h | h | h)
      · omega
      · intro e; apply h; simp only [List.cons.injEq] at e; rw [e.1]
      · intro e; apply h; simp only [List.cons.injEq] at e; rw [e.2.1]
    · intro h
      by_cases ha : a = 255
      · by_cases hb : b = 0
        · subst ha; subst hb; exact absurd rfl h
        · right; right; intro e; apply hb; exact Option.some.inj e
      · right; left; intro e; apply ha; exact Option.some.inj e

/-- `duk_load_function` around any loader: the type error when the first two
bytes are not the signature, otherwise what the loader's outcome gives. -/
theorem load_function_with_eq
    (load : List Nat → Nat → Nat → Except duk_fault (duk_hcompiledfunction × Nat))
    (buf beyond : List Nat) :
    duk_load_function_with load buf beyond
      = (if buf.take 2 = [0xFF, 0x00] then
          duk_load_function_finish (load (buf ++ beyond) 2 buf.length)
        else .error .type_error) := by
  unfold duk_load_function_with
  by_cases h : buf.take 2 = [0xFF, 0x00]
  · rw [if_pos h, if_neg]
    rw [gate_iff]
    exact fun hn => hn h
  · rw [if_neg h, if_pos]
    rw [gate_iff]
    exact h

/-- `duk_load_function`: the type error when the first two bytes are not the
signature, otherwise what the outcome of `duk__load_func` at offset 2 gives. -/
theorem load_function_eq (cfg : Config) (buf beyond : List Nat) :
    duk_load_function cfg buf beyond
      = (if buf.take 2 = [0xFF, 0x00] then
          duk_load_function_finish
            (duk__load_func cfg (buf ++ beyond) buf.length ((buf ++ beyond).length + 1) 2)
        else .error .type_error) :=
  load_function_with_eq _ buf beyond

/-- C3. Signature gate: an input buffer that is shorter than 2 bytes or does
not begin with 0xFF 0x00 gets the "invalid format" type error whatever the
function loader is (the loader is not consulted); an input of at least 2
bytes beginning with 0xFF 0x00 is handed to `duk__load_func` at offset 2 with
the end of the buffer as `p_end`, and its outcome decides the result. -/
theorem signature_gate (cfg : Config)
    (load : List Nat → Nat → Nat → Except duk_fault (duk_hcompiledfunction × Nat))
    (buf beyond : List Nat) :
    duk_load_function_with load buf beyond
        = (if buf.take 2 = [0xFF, 0x00] then
            duk_load_function_finish (load (buf ++ beyond) 2 buf.length)
          else .error .type_error)
      ∧ duk_load_function cfg buf beyond
        = (if buf.take 2 = [0xFF, 0x00] then
            duk_load_function_finish
              (duk__load_func cfg (buf ++ beyond) buf.length ((buf ++ beyond).length + 1) 2)
          else .error .type_error) :=
  ⟨load_function_with_eq load buf beyond, load_function_eq cfg buf beyond⟩

/-! ### Loading what the reference serialisation holds -/

theorem At.cast {mem : List Nat} {p q : Nat} {xs : List Nat} (h : At mem p xs) (e : p = q) :
    At mem q xs := e ▸ h

theorem u16_mod (v : Nat) : Spec.u16 (v % 65536) = Spec.u16 v := by
  unfold Spec.u16
  congr 1
  · omega
  · congr 1; omega

theorem u32_mod (v : Nat) : Spec.u32 (v % 4294967296) = Spec.u32 v := by
  unfold Spec.u32
  have e1 : v % 4294967296 / 16777216 = v / 16777216 % 256 :=
    Nat.mod_mul_right_div_self v 16777216 256
  have e2 : v % 4294967296 / 65536 % 256 = v / 65536 % 256 := by
    have : v % 4294967296 / 65536 = v / 65536 % 65536 := Nat.mod_mul_right_div_self v 65536 65536
    rw [this]; omega
  have e3 : v % 4294967296 / 256 % 256 = v / 256 % 256 := by
    have : v % 4294967296 / 256 = v / 256 % 16777216 := Nat.mod_mul_right_div_self v 256 16777216
    rw [this]; omega
  have e4 : v % 4294967296 % 256 = v % 256 := by omega
  rw [e1, e2, e3, e4, Nat.mod_mod]

/-- Reading a 16-bit field gives the dumped value reduced to 16 bits. -/
theorem read_u16_mod (cfg : Config) (mem : List Nat) (p v : Nat)
    (h : At mem p (Spec.u16 v)) : duk__read_u16 cfg mem p = .ok (v % 65536, p + 2) := by
  rw [← u16_mod] at h
  exact read_u16_at cfg mem p _ (Nat.mod_lt _ (by norm_num)) h

/-- Reading a 32-bit field gives the dumped value reduced to 32 bits. -/
theorem read_u32_mod (cfg : Config) (mem : List Nat) (p v : Nat)
    (h : At mem p (Spec.u32 v)) : duk__read_u32 cfg mem p = .ok (v % 4294967296, p + 4) := by
  rw [← u32_mod] at h
  exact read_u32_at cfg mem p _ (Nat.mod_lt _ (by norm_num)) h

theorem read_u8_at (mem : List Nat) (p b : Nat) (h : At mem p [b]) :
    DUK__READ_U8 mem p = .ok (b % 256, p + 1) := by
  have := h.fetch
  simp only [List.length_singleton] at this
  simp only [DUK__READ_U8, this]

theorem read_double_at (cfg : Config) (mem : List Nat) (p : Nat) (d : duk_double_union)
    (h : At mem p (Spec.Double d)) :
    duk__read_double cfg mem p
      = .ok ({ ui0 := d.ui0 % 4294967296, ui1 := d.ui1 % 4294967296 }, p + 8) := by
  unfold Spec.Double at h
  rw [at_append] at h
  obtain ⟨h0, h1⟩ := h
  simp only [u32_length] at h1
  rw [← u32_mod] at h0
  rw [← u32_mod] at h1
  have f0 := h0.fetch
  have f1 := h1.fetch
  simp only [u32_length] at f0 f1
  simp only [duk__read_double, f0, f1,
    ntoh32_u32 cfg _ (Nat.mod_lt _ (show 0 < 4294967296 by norm_num))]

theorem load_string_at (cfg : Config) (mem : List Nat) (p : Nat) (s : List Nat)
    (hs : s.length < 4294967296) (h : At mem p (Spec.Str s)) :
    duk__load_string cfg mem p = .ok (s, p + 4 + s.length) := by
  unfold Spec.Str at h
  rw [at_append] at h
  obtain ⟨h0, h1⟩ := h
  simp only [u32_length] at h1
  have f1 := h1.fetch
  simp only [duk__load_string, read_u32_at cfg mem p _ hs h0, bind, Except.bind, f1, pure,
    Except.pure]

theorem load_buffer_at (cfg : Config) (mem : List Nat) (p : Nat) (s : List Nat)
    (hs : s.length < 4294967296) (h : At mem p (Spec.Buf s)) :
    duk__load_buffer cfg mem p = .ok (s, p + 4 + s.length) := by
  unfold Spec.Buf at h
  rw [at_append] at h
  obtain ⟨h0, h1⟩ := h
  simp only [u32_length] at h1
  have f1 := h1.fetch
  simp only [duk__load_buffer, read_u32_at cfg mem p _ hs h0, bind, Except.bind, f1, pure,
    Except.pure]

theorem assert_left_ok (cfg : Config) (p_end p n : Nat) (h : p + n ≤ p_end) :
    DUK__ASSERT_LEFT cfg p_end p n = .ok () := by
  unfold DUK__ASSERT_LEFT DUK_ASSERT
  have : decide (p_end < p ∨ n ≤ p_end - p) = true := by
    rw [decide_eq_true_eq]; right; omega
  rw [this]
  simp

@[simp] theorem Str_length (s : List Nat) : (Spec.Str s).length = 4 + s.length := by
  simp [Spec.Str]

@[simp] theorem Buf_length (s : List Nat) : (Spec.Buf s).length = 4 + s.length := by
  simp [Spec.Buf]

@[simp] theorem Double_length (d : duk_double_union) : (Spec.Double d).length = 8 := by
  simp [Spec.Double]

@[simp] theorem Instrs_nil : Spec.Instrs [] = [] := rfl

@[simp] theorem Instrs_cons (w : Nat) (code : List Nat) :
    Spec.Instrs (w :: code) = Spec.u32 w ++ Spec.Instrs code := by
  simp [Spec.Instrs]

@[simp] theorem Instrs_length (code : List Nat) : (Spec.Instrs code).length = 4 * code.length := by
  induction code with
  | nil => rfl
  | cons w code ih => simp [ih]; omega

@[simp] theorem Consts_nil : Spec.Consts [] = [] := rfl

@[simp] theorem Consts_cons (c : duk_const) (cs : List duk_const) :
    Spec.Consts (c :: cs) = Spec.Const c ++ Spec.Consts cs := by
  simp [Spec.Consts]

/-- The instruction loop of the little-endian build restores the dumped words. -/
theorem load_instrs_loop_at (cfg : Config) (mem : List Nat) (code : List Nat) :
    ∀ p, At mem p (Spec.Instrs code) →
      duk__load_func_instrs_loop cfg mem code.length p
        = .ok (code.map (fun w => w % 4294967296), p + 4 * code.length) := by
  induction code with
  | nil => intro p _; rfl
  | cons w code ih =>
    intro p h
    rw [Instrs_cons, at_append] at h
    obtain ⟨h0, h1⟩ := h
    simp only [u32_length] at h1
    simp only [List.length_cons, duk__load_func_instrs_loop, read_u32_mod cfg mem p w h0, bind,
      Except.bind, ih _ h1, pure, Except.pure, List.map_cons]
    congr 2
    omega

/-- The words the big-endian host sees in the dumped instruction bytes. -/
theorem words_of_bytes_instrs (cfg : Config) (hbe : cfg.integer_be = true) (code : List Nat) :
    words_of_bytes cfg code.length (Spec.Instrs code) = code.map (fun w => w % 4294967296) := by
  induction code with
  | nil => rfl
  | cons w code ih =>
    have hn : union_x32 cfg (Spec.u32 w) = w % 4294967296 := by
      have := ntoh32_u32 cfg (w % 4294967296) (Nat.mod_lt _ (by norm_num))
      rw [u32_mod] at this
      unfold DUK__NTOH32 at this
      rwa [if_pos hbe] at this
    simp only [List.length_cons, words_of_bytes, Instrs_cons, List.map_cons]
    rw [List.take_left' (u32_length w), List.drop_left' (u32_length w), hn, ih]

/-- Either build restores the dumped instruction words and advances the cursor
by four bytes per word. -/
theorem load_instrs_at (cfg : Config) (mem : List Nat) (code : List Nat) (p : Nat)
    (h : At mem p (Spec.Instrs code)) :
    duk__load_func_instrs cfg mem code.length p
      = .ok (code.map (fun w => w % 4294967296), p + 4 * code.length) := by
  unfold duk__load_func_instrs
  cases hbe : cfg.integer_be
  · simp only [Bool.false_eq_true, if_false]
    exact load_instrs_loop_at cfg mem code p h
  · simp only [if_true]
    have f := h.fetch
    rw [Instrs_length] at f
    simp only [f, words_of_bytes_instrs cfg hbe code]

theorem at_cons (mem : List Nat) (p b : Nat) (xs : List Nat) :
    At mem p (b :: xs) ↔ At mem p [b] ∧ At mem (p + 1) xs := by
  have := at_append mem p [b] xs
  simpa using this

/-- The constants loop restores the dumped constants and consumes exactly
their bytes. -/
theorem load_consts_at (cfg : Config) (mem : List Nat) (p_end : Nat) (cs : List duk_const) :
    ∀ p, At mem p (Spec.Consts cs) → cs.all const_size_ok = true →
      p + (Spec.Consts cs).length ≤ p_end →
      duk__load_func_consts cfg mem p_end cs.length p
        = .ok (cs.map loaded_const, p + (Spec.Consts cs).length) := by
  induction cs with
  | nil => intro p _ _ _; rfl
  | cons c cs ih =>
    intro p h hsz hend
    rw [Consts_cons, at_append] at h
    obtain ⟨h0, h1⟩ := h
    rw [List.all_cons, Bool.and_eq_true] at hsz
    rw [Consts_cons, List.length_append] at hend
    cases c with
    | string s =>
      change At mem p (0 :: Spec.Str s) at h0
      rw [at_cons] at h0
      obtain ⟨ht, hs⟩ := h0
      have hlen : s.length < 4294967296 := by simpa [const_size_ok] using hsz.1
      simp only [Spec.Const, List.length_cons, Str_length] at h1 hend
      have ih' := ih (p + 1 + 4 + s.length) (h1.cast (by omega)) hsz.2 (by omega)
      have e1 := assert_left_ok cfg p_end p 1 (by omega)
      have e2 := read_u8_at mem p _ ht
      have e3 := load_string_at cfg mem (p + 1) s hlen hs
      rw [List.length_cons, duk__load_func_consts]
      simp only [e1, e2, bind, Except.bind]
      rw [if_pos (by rfl)]
      simp only [e3, ih', pure, Except.pure, List.map_cons, loaded_const, List.length_append,
        List.length_cons, Str_length, Spec.Const, Consts_cons]
      congr 2
      omega
    | number d =>
      change At mem p (1 :: Spec.Double d) at h0
      rw [at_cons] at h0
      obtain ⟨ht, hs⟩ := h0
      simp only [Spec.Const, List.length_cons, Double_length] at h1 hend
      have ih' := ih (p + 1 + 8) (h1.cast (by omega)) hsz.2 (by omega)
      have e1 := assert_left_ok cfg p_end p 1 (by omega)
      have e2 := read_u8_at mem p _ ht
      have e3 := assert_left_ok cfg p_end (p + 1) 8 (by omega)
      have e4 := read_double_at cfg mem (p + 1) d hs
      rw [List.length_cons, duk__load_func_consts]
      simp only [e1, e2, bind, Except.bind]
      rw [if_neg (by decide), if_pos (by rfl)]
      simp only [e3, e4, ih', pure, Except.pure, List.map_cons, loaded_const,
        List.length_append, List.length_cons, Double_length, Spec.Const, Consts_cons]
      congr 2
      omega

@[simp] theorem VarMap_nil (cfg : Config) : Spec.VarMap cfg [] = Spec.u32 0 := by
  simp [Spec.VarMap, Spec.Str]

@[simp] theorem VarMap_cons (cfg : Config) (kv : List Nat × duk_double_union)
    (rest : List (List Nat × duk_double_union)) :
    Spec.VarMap cfg (kv :: rest)
      = Spec.Str kv.1 ++ (Spec.u32 (cfg.dbl_to_u32 kv.2) ++ Spec.VarMap cfg rest) := by
  simp [Spec.VarMap]

@[simp] theorem Formals_nil : Spec.Formals [] = Spec.u32 0 := by
  simp [Spec.Formals, Spec.Str]

@[simp] theorem Formals_cons (s : List Nat) (rest : List (List Nat)) :
    Spec.Formals (s :: rest) = Spec.Str s ++ Spec.Formals rest := by
  simp [Spec.Formals]

theorem load_string_empty (cfg : Config) (mem : List Nat) (p : Nat)
    (h : At mem p (Spec.u32 0)) : duk__load_string cfg mem p = .ok ([], p + 4) := by
  have := load_string_at cfg mem p [] (by simp) (by simpa [Spec.Str] using h)
  simpa using this

/-- The variable-map loop of the loader, on a dumped map without empty keys. -/
theorem load_varmap_at (cfg : Config) (mem : List Nat)
    (entries : List (List Nat × duk_double_union)) :
    ∀ fuel acc p, entries.length < fuel → At mem p (Spec.VarMap cfg entries) →
      entries.all (fun kv => decide (kv.1.length < 4294967296)) = true →
      entries.all (fun kv => decide (kv.1.length ≠ 0)) = true →
      duk__load_func_varmap cfg mem fuel acc p
        = .ok (loaded_varmap cfg entries acc, p + (Spec.VarMap cfg entries).length) := by
  induction entries with
  | nil =>
    intro fuel acc p hf h _ _
    obtain ⟨fuel, rfl⟩ : ∃ k, fuel = k + 1 := ⟨fuel - 1, by simp at hf; omega⟩
    rw [VarMap_nil] at h
    simp [duk__load_func_varmap, load_string_empty cfg mem p h, bind, Except.bind, pure,
      Except.pure, loaded_varmap]
  | cons kv rest ih =>
    intro fuel acc p hf h hsz hnm
    rw [List.length_cons] at hf
    obtain ⟨fuel, rfl⟩ : ∃ k, fuel = k + 1 := ⟨fuel - 1, by omega⟩
    rw [VarMap_cons, at_append, at_append] at h
    obtain ⟨hk, hv, hr⟩ := h
    simp only [List.all_cons, Bool.and_eq_true, decide_eq_true_eq] at hsz hnm
    simp only [Str_length, u32_length] at hv hr
    have ih' := ih fuel (duk_put_prop acc kv.1 (cfg.u32_to_dbl (cfg.dbl_to_u32 kv.2 % 4294967296)))
      (p + 4 + kv.1.length + 4) (by omega) (hr.cast (by omega)) hsz.2 hnm.2
    simp only [duk__load_func_varmap, load_string_at cfg mem p kv.1 hsz.1 hk, bind, Except.bind,
      hnm.1, if_false, read_u32_mod cfg mem (p + 4 + kv.1.length) _ (hv.cast (by omega)), ih', loaded_varmap,
      List.foldl_cons, VarMap_cons, List.length_append, Str_length, u32_length]
    congr 2
    omega

/-- The formals loop of the loader, on dumped formals without empty names. -/
theorem load_formals_at (cfg : Config) (mem : List Nat) (names : List (List Nat)) :
    ∀ fuel acc p, names.length < fuel → At mem p (Spec.Formals names) →
      names.all (fun s => decide (s.length < 4294967296)) = true →
      names.all (fun s => decide (s.length ≠ 0)) = true →
      duk__load_func_formals cfg mem fuel acc p
        = .ok (acc ++ names.map some, p + (Spec.Formals names).length) := by
  induction names with
  | nil =>
    intro fuel acc p hf h _ _
    obtain ⟨fuel, rfl⟩ : ∃ k, fuel = k + 1 := ⟨fuel - 1, by simp at hf; omega⟩
    rw [Formals_nil] at h
    simp [duk__load_func_formals, load_string_empty cfg mem p h, bind, Except.bind, pure,
      Except.pure]
  | cons s rest ih =>
    intro fuel acc p hf h hsz hnm
    rw [List.length_cons] at hf
    obtain ⟨fuel, rfl⟩ : ∃ k, fuel = k + 1 := ⟨fuel - 1, by omega⟩
    rw [Formals_cons, at_append] at h
    obtain ⟨hk, hr⟩ := h
    simp only [List.all_cons, Bool.and_eq_true, decide_eq_true_eq] at hsz hnm
    simp only [Str_length] at hr
    have ih' := ih fuel (acc ++ [some s]) (p + 4 + s.length) (by omega)
      (hr.cast (by omega)) hsz.2 hnm.2
    simp only [duk__load_func_formals, load_string_at cfg mem p s hsz.1 hk, bind, Except.bind,
      hnm.1, if_false, ih', Formals_cons, List.length_append, Str_length, List.map_cons,
      List.append_assoc, List.singleton_append]
    congr 2
    omega

theorem VarMap_length_ge (cfg : Config) (entries : List (List Nat × duk_double_union)) :
    entries.length < (Spec.VarMap cfg entries).length := by
  induction entries with
  | nil => simp
  | cons kv rest ih =>
    simp only [VarMap_cons, List.length_append, List.length_cons, Str_length, u32_length]
    omega

theorem Formals_length_ge (names : List (List Nat)) :
    names.length < (Spec.Formals names).length := by
  induction names with
  | nil => simp
  | cons s rest ih =>
    simp only [Formals_cons, List.length_append, List.length_cons, Str_length]
    omega

@[simp] theorem Header_length (cfg : Config) (a b c d e f g h : Nat) :
    (Spec.Header cfg a b c d e f g h).length = 28 := by
  simp [Spec.Header]

/-- The header reads restore the dumped header fields, each reduced to the
width of its field, and consume 28 bytes. -/
theorem load_header_at (cfg : Config) (mem : List Nat) (p_end p : Nat)
    (a b c d e f g h : Nat) (hat : At mem p (Spec.Header cfg a b c d e f g h))
    (hend : p + 12 ≤ p_end) :
    duk__load_func_header cfg mem p_end p
      = .ok ({ count_instr := a % 4294967296, count_const := b % 4294967296,
               count_funcs := c % 4294967296, nregs := d % 65536, nargs := e % 65536,
               start_line := if cfg.debugger_support then f % 4294967296 else 0,
               end_line := if cfg.debugger_support then g % 4294967296 else 0,
               flags := h % 4294967296 }, p + 28) := by
  simp only [Spec.Header, List.append_assoc, at_append, u32_length, u16_length] at hat
  obtain ⟨h1, h2, h3, h4, h5, h6, h7, h8⟩ := hat
  have e0 := assert_left_ok cfg p_end p (3 * 4) (by omega)
  have e1 := read_u32_mod cfg mem _ _ h1
  have e2 := read_u32_mod cfg mem _ _ h2
  have e3 := read_u32_mod cfg mem _ _ h3
  have e4 := read_u16_mod cfg mem _ _ h4
  have e5 := read_u16_mod cfg mem _ _ h5
  have e6 := read_u32_mod cfg mem _ _ h6
  have e7 := read_u32_mod cfg mem _ _ h7
  have e8 := read_u32_mod cfg mem _ _ h8
  unfold duk__load_func_header
  cases hd : cfg.debugger_support
  · rw [hd] at e6 e7
    simp only [e0, e1, e2, e3, e4, e5, e8, bind, Except.bind, pure, Except.pure,
      Bool.false_eq_true, if_false]
  · rw [hd] at e6 e7
    simp only [e0, e1, e2, e3, e4, e5, e6, e7, e8, bind, Except.bind, pure, Except.pure, if_true]

@[simp] theorem VarMap_length_pos (cfg : Config) (entries : List (List Nat × duk_double_union)) :
    0 < (Spec.VarMap cfg entries).length :=
  Nat.lt_of_le_of_lt (Nat.zero_le _) (VarMap_length_ge cfg entries)

/-- The property reads restore what the property block holds and consume
exactly its bytes. -/
theorem load_props_at (cfg : Config) (mem : List Nat) (p nargs flags : Nat) (props : duk_props)
    (hat : At mem p (Spec.Props cfg nargs props))
    (hsz : props_sizes_ok props = true) (hnm : props_names_ok props = true) :
    duk__load_func_props cfg mem (flags % 4294967296) p
      = .ok (loaded_props cfg nargs flags props, p + (Spec.Props cfg nargs props).length) := by
  have hmem : p + (Spec.Props cfg nargs props).length ≤ mem.length := hat.1
  simp only [Spec.Props, List.append_assoc, at_append, u32_length, Str_length, Buf_length] at hat
  obtain ⟨h1, h2, h3, h4, h5, h6⟩ := hat
  simp only [props_sizes_ok, props_names_ok, Bool.and_eq_true, decide_eq_true_eq] at hsz hnm
  obtain ⟨⟨⟨⟨s1, s2⟩, s3⟩, s4⟩, s5⟩ := hsz
  obtain ⟨n1, n2⟩ := hnm
  have e1 := read_u32_mod cfg mem _ _ h1
  have e2 := load_string_at cfg mem _ _ s1 h2
  have e3 := load_string_at cfg mem _ _ s2 h3
  have e4 := load_buffer_at cfg mem _ _ s3 h4
  have l5 := VarMap_length_ge cfg (Spec.varmap_entries props.varmap)
  have l6 := Formals_length_ge (Spec.formals_names props.formals)
  simp only [Spec.Props, List.length_append, u32_length, Str_length, Buf_length] at hmem
  have e5 := load_varmap_at cfg mem _ (mem.length + 1) [] _ (by omega) h5 s4 n1
  have e6 := load_formals_at cfg mem _ (mem.length + 1) [] _ (by omega) h6 s5 n2
  unfold duk__load_func_props
  simp only [Nat.add_assoc] at e1 e2 e3 e4 e5 e6
  simp only [e1, e2, e3, e4, e5, e6, bind, Except.bind, pure, Except.pure, loaded_props,
    List.nil_append, Spec.Props, List.length_append, u32_length, Str_length, Buf_length,
    Nat.add_assoc]

theorem funcs_loop_nil (load : Nat → Except duk_fault (duk_hcompiledfunction × Nat)) (p : Nat) :
    duk__load_func_funcs load 0 p = .ok ([], p) := rfl

theorem funcs_loop_cons (load : Nat → Except duk_fault (duk_hcompiledfunction × Nat))
    (n p q r : Nat) (fn : duk_hcompiledfunction) (rest : List duk_hcompiledfunction)
    (h1 : load p = .ok (fn, q)) (h2 : duk__load_func_funcs load n q = .ok (rest, r)) :
    duk__load_func_funcs load (n + 1) p = .ok (fn :: rest, r) := by
  simp only [duk__load_func_funcs, h1, h2, bind, Except.bind, pure, Except.pure]

mutual

/-- The loader, run on the reference serialisation of a function whose sizes
fit and whose names are non-empty, returns the image of the function and a
cursor advanced by exactly the length of the serialisation. -/
theorem load_func_at (cfg : Config) (mem : List Nat) (p_end : Nat) :
    ∀ (fn : duk_hcompiledfunction) (fuel p : Nat), depth fn ≤ fuel →
      At mem p (Spec.Func cfg fn) → sizes_ok fn = true → names_ok fn = true →
      p + (Spec.Func cfg fn).length ≤ p_end →
      duk__load_func cfg mem p_end fuel p
        = .ok (loaded cfg fn, p + (Spec.Func cfg fn).length)
  | .mk nregs nargs start_line end_line flags code consts funcs props, fuel, p, hd, hat, hsz,
      hnm, hend => by
    rw [depth] at hd
    obtain ⟨fuel, rfl⟩ : ∃ k, fuel = k + 1 := ⟨fuel - 1, by omega⟩
    rw [Spec.Func] at hat hend
    simp only [List.append_assoc, at_append, Header_length, Instrs_length] at hat
    obtain ⟨h1, h2, h3, h4, h5⟩ := hat
    simp only [List.length_append, Header_length, Instrs_length] at hend
    simp only [sizes_ok, names_ok, Bool.and_eq_true, decide_eq_true_eq] at hsz hnm
    obtain ⟨⟨⟨⟨⟨s1, s2⟩, s3⟩, s4⟩, s5⟩, s6⟩ := hsz
    obtain ⟨n1, n2⟩ := hnm
    have e1 := load_header_at cfg mem p_end p _ _ _ _ _ _ _ _ h1 (by omega)
    rw [Nat.mod_eq_of_lt s1, Nat.mod_eq_of_lt s2, Nat.mod_eq_of_lt s3] at e1
    have e2 := assert_left_ok cfg p_end (p + 28) (code.length * 4) (by omega)
    have e3 := load_instrs_at cfg mem code (p + 28) h2
    have e4 := load_consts_at cfg mem p_end consts _ h3 s4 (by omega)
    have e5 := load_funcs_at cfg mem p_end funcs fuel _ (by omega) h4 s5 n1 (by omega)
    have e6 := load_props_at cfg mem _ nargs flags props h5 s6 n2
    rw [duk__load_func]
    simp only [Nat.add_assoc] at e1 e2 e3 e4 e5 e6
    simp only [e1, e2, e3, e4, e5, e6, bind, Except.bind, pure, Except.pure, loaded, Spec.Func,
      List.length_append, Header_length, Instrs_length, Nat.add_assoc]

/-- The inner-function loop around the loader, on the serialisations of a list
of functions. -/
theorem load_funcs_at (cfg : Config) (mem : List Nat) (p_end : Nat) :
    ∀ (fs : List duk_hcompiledfunction) (fuel p : Nat), depth_list fs ≤ fuel →
      At mem p (Spec.Funcs cfg fs) → sizes_ok_list fs = true → names_ok_list fs = true →
      p + (Spec.Funcs cfg fs).length ≤ p_end →
      duk__load_func_funcs (duk__load_func cfg mem p_end fuel) fs.length p
        = .ok (loaded_list cfg fs, p + (Spec.Funcs cfg fs).length)
  | [], fuel, p, _, _, _, _, _ => by
    simp only [List.length_nil, funcs_loop_nil, loaded_list, Spec.Funcs, Nat.add_zero]
  | fn :: rest, fuel, p, hd, hat, hsz, hnm, hend => by
    rw [depth_list] at hd
    rw [Spec.Funcs] at hat hend
    rw [at_append] at hat
    rw [List.length_append] at hend
    simp only [sizes_ok_list, names_ok_list, Bool.and_eq_true] at hsz hnm
    have e1 := load_func_at cfg mem p_end fn fuel p (by omega) hat.1 hsz.1 hnm.1 (by omega)
    have e2 := load_funcs_at cfg mem p_end rest fuel _ (by omega) hat.2 hsz.2 hnm.2 (by omega)
    rw [List.length_cons, funcs_loop_cons _ _ _ _ _ _ _ e1 e2, loaded_list, Spec.Funcs,
      List.length_append, Nat.add_assoc]

end

/-! ### Exact consumption -/

/-- C6 as stated fails for a function with an empty formal name (all else as
in `func_sample`): on the serialisation (203 bytes) followed by one more byte
the loader succeeds and returns the cursor 194, nine bytes short of the end
of the serialisation. -/
theorem exact_consumption_fails_on_empty_name :
    (Spec.Func host_le func_empty_formal).length = 203
      ∧ cursor_of (duk__load_func host_le (Spec.Func host_le func_empty_formal ++ [0xAA])
          204 205 0) = some 194 := by
  decide!

/-- C6 (amended). Exact consumption: for every function whose counts and
lengths fit their 32-bit fields and whose var-map keys and formal names are
all non-empty, and every byte sequence `S`, `duk__load_func` started at the
first byte of `Func(F)` inside `Func(F) ++ S` (with any `p_end` not before
the end of `Func(F)` and any recursion budget not below the nesting depth)
succeeds and returns a cursor advanced by exactly the length of `Func(F)`. -/
theorem exact_consumption (cfg : Config) (fn : duk_hcompiledfunction) (S : List Nat)
    (p_end fuel : Nat) (hsz : sizes_ok fn = true) (hnm : names_ok fn = true)
    (hend : (Spec.Func cfg fn).length ≤ p_end) (hfuel : depth fn ≤ fuel) :
    duk__load_func cfg (Spec.Func cfg fn ++ S) p_end fuel 0
      = .ok (loaded cfg fn, (Spec.Func cfg fn).length) := by
  have h := load_func_at cfg (Spec.Func cfg fn ++ S) p_end fn fuel 0 hfuel
    (at_zero_append _ _) hsz hnm (by omega)
  rw [Nat.zero_add] at h
  exact h

/-- C6 (amended), at the empty function followed by three bytes. -/
theorem exact_consumption_witness :
    duk__load_func host_be (Spec.Func host_be func_empty ++ [1, 2, 3]) 56 1 0
      = .ok (loaded host_be func_empty, (Spec.Func host_be func_empty).length) :=
  exact_consumption host_be func_empty [1, 2, 3] 56 1 (by decide) (by decide) (by decide)
    (by decide)

/-! ### Unknown constant tag -/

/-- The constants loop returns `NULL` when, after `k` constants, the tag read
is neither the string tag nor the number tag. -/
theorem consts_bad_tag (cfg : Config) (mem : List Nat) (p_end : Nat) :
    ∀ (k n p p3 : Nat) (cs : List duk_const) (t : Nat), k < n →
      duk__load_func_consts cfg mem p_end k p = .ok (cs, p3) →
      DUK__ASSERT_LEFT cfg p_end p3 1 = .ok () →
      DUK__READ_U8 mem p3 = .ok (t, p3 + 1) →
      t ≠ DUK__SER_STRING ∧ t ≠ DUK__SER_NUMBER →
      duk__load_func_consts cfg mem p_end n p = .error .format_error := by
  intro k
  induction k with
  | zero =>
    intro n p p3 cs t hk hcs hl ht hb
    obtain ⟨n, rfl⟩ : ∃ m, n = m + 1 := ⟨n - 1, by omega⟩
    simp only [duk__load_func_consts, pure, Except.pure, Except.ok.injEq, Prod.mk.injEq] at hcs
    obtain ⟨-, rfl⟩ := hcs
    rw [duk__load_func_consts]
    simp only [hl, ht, bind, Except.bind]
    rw [if_neg hb.1, if_neg hb.2]
  | succ k ih =>
    intro n p p3 cs t hk hcs hl ht hb
    obtain ⟨n, rfl⟩ : ∃ m, n = m + 1 := ⟨n - 1, by omega⟩
    rw [duk__load_func_consts] at hcs ⊢
    cases h1 : DUK__ASSERT_LEFT cfg p_end p 1 with
    | error e => simp [h1, bind, Except.bind] at hcs
    | ok u =>
      cases h2 : DUK__READ_U8 mem p with
      | error e => simp [h1, h2, bind, Except.bind] at hcs
      | ok r =>
        obtain ⟨c, q⟩ := r
        simp only [h1, h2, bind, Except.bind] at hcs ⊢
        by_cases hc : c = DUK__SER_STRING
        · rw [if_pos hc] at hcs ⊢
          cases h3 : duk__load_string cfg mem q with
          | error e => simp [h3] at hcs
          | ok r3 =>
            obtain ⟨s, q3⟩ := r3
            simp only [h3] at hcs ⊢
            cases h4 : duk__load_func_consts cfg mem p_end k q3 with
            | error e => simp [h4] at hcs
            | ok r4 =>
              obtain ⟨cs4, q4⟩ := r4
              simp only [h4, pure, Except.pure, Except.ok.injEq, Prod.mk.injEq] at hcs
              obtain ⟨-, rfl⟩ := hcs
              rw [ih n q3 q4 cs4 t (by omega) h4 hl ht hb]
        · rw [if_neg hc] at hcs ⊢
          by_cases hn : c = DUK__SER_NUMBER
          · rw [if_pos hn] at hcs ⊢
            cases h5 : DUK__ASSERT_LEFT cfg p_end q 8 with
            | error e => simp [h5] at hcs
            | ok u5 =>
              simp only [h5] at hcs ⊢
              cases h3 : duk__read_double cfg mem q with
              | error e => simp [h3] at hcs
              | ok r3 =>
                obtain ⟨s, q3⟩ := r3
                simp only [h3] at hcs ⊢
                cases h4 : duk__load_func_consts cfg mem p_end k q3 with
                | error e => simp [h4] at hcs
                | ok r4 =>
                  obtain ⟨cs4, q4⟩ := r4
                  simp only [h4, pure, Except.pure, Except.ok.injEq, Prod.mk.injEq] at hcs
                  obtain ⟨-, rfl⟩ := hcs
                  rw [ih n q3 q4 cs4 t (by omega) h4 hl ht hb]
          · rw [if_neg hn]

/-- The inner-function loop returns `NULL` when, after `j` inner functions,
the recursive call returns `NULL`. -/
theorem funcs_null (load : Nat → Except duk_fault (duk_hcompiledfunction × Nat)) :
    ∀ (j n p p4 : Nat) (fs : List duk_hcompiledfunction), j < n →
      duk__load_func_funcs load j p = .ok (fs, p4) →
      load p4 = .error .format_error →
      duk__load_func_funcs load n p = .error .format_error := by
  intro j
  induction j with
  | zero =>
    intro n p p4 fs hj hfs hl
    obtain ⟨n, rfl⟩ : ∃ m, n = m + 1 := ⟨n - 1, by omega⟩
    simp only [duk__load_func_funcs, pure, Except.pure, Except.ok.injEq, Prod.mk.injEq] at hfs
    obtain ⟨-, rfl⟩ := hfs
    simp only [duk__load_func_funcs, hl, bind, Except.bind]
  | succ j ih =>
    intro n p p4 fs hj hfs hl
    obtain ⟨n, rfl⟩ : ∃ m, n = m + 1 := ⟨n - 1, by omega⟩
    rw [duk__load_func_funcs] at hfs ⊢
    cases h1 : load p with
    | error e => simp [h1, bind, Except.bind] at hfs
    | ok r =>
      obtain ⟨f1, q⟩ := r
      simp only [h1, bind, Except.bind] at hfs ⊢
      cases h2 : duk__load_func_funcs load j q with
      | error e => simp [h2] at hfs
      | ok r2 =>
        obtain ⟨fs2, q2⟩ := r2
        simp only [h2, pure, Except.pure, Except.ok.injEq, Prod.mk.injEq] at hfs
        obtain ⟨-, rfl⟩ := hfs
        rw [ih n q q2 fs2 (by omega) h2 hl]

/-- A run that comes upon an unknown constant tag, at whatever nesting depth,
makes `duk__load_func` return `NULL`: each enclosing call passes the `NULL` of
its recursive call on. -/
theorem bad_tag_null (cfg : Config) (mem : List Nat) (p_end : Nat) (fuel p : Nat)
    (h : BadTag cfg mem p_end fuel p) :
    duk__load_func cfg mem p_end fuel p = .error .format_error := by
  induction h with
  | here fuel p hd p1 p2 p3 code k cs t h_hdr h_left h_ins h_k h_cs h_left1 h_tag h_bad =>
    rw [duk__load_func]
    simp only [h_hdr, h_left, h_ins, bind, Except.bind,
      consts_bad_tag cfg mem p_end k hd.count_const p2 p3 cs t h_k h_cs h_left1 h_tag h_bad]
  | inner fuel p hd p1 p2 p3 p4 code cs j fs h_hdr h_left h_ins h_cs h_j h_fs _ ih =>
    rw [duk__load_func]
    simp only [h_hdr, h_left, h_ins, h_cs, bind, Except.bind,
      funcs_null _ j hd.count_funcs p3 p4 fs h_j h_fs ih]

/-- C4. Unknown constant tag: for every blob that passes the signature gate
and in which the loader, while reading a constant of the top-level function or
of an inner function at any nesting depth, finds a tag byte other than 0x00 or
0x01, `duk__load_func` returns the failure sentinel and `duk_load_function`
raises the "invalid format" type error; no function is returned. -/
theorem unknown_constant_tag (cfg : Config) (buf beyond : List Nat)
    (hsig : buf.take 2 = [0xFF, 0x00])
    (hbad : BadTag cfg (buf ++ beyond) buf.length ((buf ++ beyond).length + 1) 2) :
    duk__load_func cfg (buf ++ beyond) buf.length ((buf ++ beyond).length + 1) 2
        = .error .format_error
      ∧ duk_load_function cfg buf beyond = .error .type_error := by
  have h := bad_tag_null cfg _ _ _ _ hbad
  refine ⟨h, ?_⟩
  rw [load_function_eq cfg buf beyond, if_pos hsig, h]
  rfl

/-- C4, at the blob whose inner function has a constant with tag 0x7A (on a
host with assertions). -/
theorem unknown_constant_tag_witness :
    duk__load_func host_le_asserts (blob_bad_tag_nested ++ []) blob_bad_tag_nested.length
        ((blob_bad_tag_nested ++ []).length + 1) 2 = .error .format_error
      ∧ duk_load_function host_le_asserts blob_bad_tag_nested [] = .error .type_error :=
  unknown_constant_tag host_le_asserts blob_bad_tag_nested [] (by decide)
    (BadTag.inner 67 2
      { count_instr := 0, count_const := 0, count_funcs := 1, nregs := 1, nargs := 0,
        start_line := 0, end_line := 0, flags := 0 }
      30 30 30 30 [] [] 0 [] (by decide) (by decide) (by decide) (by decide) (by decide)
      rfl
      (BadTag.here 66 30
        { count_instr := 0, count_const := 1, count_funcs := 0, nregs := 1, nargs := 0,
          start_line := 0, end_line := 0, flags := 0 }
        58 58 58 [] 0 [] 0x7A (by decide) (by decide) (by decide) (by decide) (by decide)
        (by decide) (by decide) (by decide)))

/-- The fourth scenario: the one-constant function with the tag byte changed to
0x7A is rejected with the type error. -/
theorem bad_tag_scenario :
    fault_of (duk_load_function host_le blob_bad_tag []) = some .type_error := by
  decide

/-! ### Too-short input -/

/-- C5 as stated fails on the six-byte blob of the scenarios: when the 48
bytes that follow the buffer in memory are zero, a build without assertions
returns a function, and a build with assertions stops at an assertion instead
of raising the type error. -/
theorem truncated_input_not_rejected :
    fault_of (duk_load_function host_le blob_truncated (List.replicate 48 0)) = none
      ∧ fault_of (duk_load_function host_le_asserts blob_truncated (List.replicate 48 0))
          = some .assertion := by
  decide

theorem assert_left_off (cfg : Config) (h : cfg.asserts = false) (p_end p n : Nat) :
    DUK__ASSERT_LEFT cfg p_end p n = .ok () := by
  simp [DUK__ASSERT_LEFT, DUK_ASSERT, h]

/-- Without assertions the constants loop does not look at `p_end`. -/
theorem load_consts_p_end (cfg : Config) (h : cfg.asserts = false) (mem : List Nat)
    (p_end p_end' : Nat) :
    ∀ n p, duk__load_func_consts cfg mem p_end n p = duk__load_func_consts cfg mem p_end' n p := by
  intro n
  induction n with
  | zero => intro p; rfl
  | succ n ih =>
    intro p
    simp only [duk__load_func_consts, assert_left_off cfg h, ih]

/-- Without assertions the loader does not look at `p_end`. -/
theorem load_func_p_end (cfg : Config) (h : cfg.asserts = false) (mem : List Nat)
    (p_end p_end' : Nat) :
    ∀ fuel p, duk__load_func cfg mem p_end fuel p = duk__load_func cfg mem p_end' fuel p := by
  intro fuel
  induction fuel with
  | zero => intro p; rfl
  | succ fuel ih =>
    intro p
    have e : duk__load_func cfg mem p_end fuel = duk__load_func cfg mem p_end' fuel := funext ih
    simp only [duk__load_func, duk__load_func_header, assert_left_off cfg h, e,
      load_consts_p_end cfg h mem p_end p_end']

theorem take_two_length (buf : List Nat) (h : buf.take 2 = [0xFF, 0x00]) : 2 ≤ buf.length := by
  match buf, h with
  | _ :: _ :: _, _ => simp

/-- C5 (amended). Too-short input: an input shorter than 2 bytes fails with
the "invalid format" type error.  An input that begins with 0xFF 0x00 is not
checked for length: with assertions compiled in, one that holds fewer than
the 12 count bytes after the signature stops at the `DUK__ASSERT_LEFT(3 * 4)`
assertion, which is not the type error; with assertions compiled out, the
result does not depend on where the buffer ends, the loader reads on in the
memory that follows it. -/
theorem too_short_input (cfg : Config) (buf beyond : List Nat) (k : Nat) :
    (buf.length < 2 → duk_load_function cfg buf beyond = .error .type_error)
      ∧ (cfg.asserts = true → buf.take 2 = [0xFF, 0x00] → buf.length < 14 →
          duk_load_function cfg buf beyond = .error .assertion)
      ∧ (cfg.asserts = false → buf.take 2 = [0xFF, 0x00] →
          duk_load_function cfg buf beyond
            = duk_load_function cfg (buf ++ beyond.take k) (beyond.drop k)) := by
  refine ⟨?_, ?_, ?_⟩
  · intro h
    rw [load_function_eq cfg buf beyond, if_neg]
    intro e
    have := take_two_length buf e
    omega
  · intro ha hsig hlen
    have h2 := take_two_length buf hsig
    rw [load_function_eq cfg buf beyond, if_pos hsig]
    have hl : DUK__ASSERT_LEFT cfg buf.length 2 (3 * 4) = .error .assertion := by
      have : decide (buf.length < 2 ∨ 3 * 4 ≤ buf.length - 2) = false := by
        rw [decide_eq_false_iff_not]; omega
      simp [DUK__ASSERT_LEFT, DUK_ASSERT, ha, this]
    simp only [duk__load_func, duk__load_func_header, hl, bind, Except.bind]
    rfl
  · intro ha hsig
    have h2 := take_two_length buf hsig
    have hsig' : (buf ++ beyond.take k).take 2 = [0xFF, 0x00] := by
      rw [List.take_append_of_le_length h2]; exact hsig
    have hmem : buf ++ beyond.take k ++ beyond.drop k = buf ++ beyond := by
      rw [List.append_assoc, List.take_append_drop]
    rw [load_function_eq cfg buf beyond, if_pos hsig,
      load_function_eq cfg _ _, if_pos hsig', hmem,
      load_func_p_end cfg ha _ buf.length (buf ++ beyond.take k).length]

/-- C5 (amended), at the empty buffer, at the six-byte blob on a host with
assertions, and at the six-byte blob on a host without. -/
theorem too_short_input_witness :
    duk_load_function host_le [] [] = .error .type_error
      ∧ duk_load_function host_le_asserts blob_truncated [] = .error .assertion
      ∧ duk_load_function host_le blob_truncated (List.replicate 48 0)
          = duk_load_function host_le (blob_truncated ++ (List.replicate 48 0).take 48)
              ((List.replicate 48 0).drop 48) :=
  ⟨(too_short_input host_le [] [] 0).1 (by decide),
   (too_short_input host_le_asserts blob_truncated [] 0).2.1 (by decide) (by decide) (by decide),
   (too_short_input host_le blob_truncated (List.replicate 48 0) 48).2.2 (by decide)
     (by decide)⟩

/-! ### Dump: the cursor, the buffer and the bytes emitted -/

theorem BInv.cast_pos {h : duk_hbuffer_dynamic} {p q : Nat} {out : List Nat}
    (hi : BInv h p out) (e : p = q) : BInv h q out := e ▸ hi

theorem store_binv (h : duk_hbuffer_dynamic) (p : Nat) (out src : List Nat)
    (hi : BInv h p out) (hroom : p + src.length ≤ h.data_ptr + h.bytes.length) :
    ∃ h', store h p src = .ok h' ∧ BInv h' (p + src.length) (out ++ src)
      ∧ h'.data_ptr = h.data_ptr ∧ h'.bytes.length = h.bytes.length := by
  obtain ⟨hp, rest, hb⟩ := hi
  have hle : h.data_ptr ≤ p := by omega
  refine ⟨_, store_ok h p src hle hroom, ?_, rfl, ?_⟩
  · refine ⟨?_, rest.drop src.length, ?_⟩
    · simp only [List.length_append]; omega
    · have e : p - h.data_ptr = out.length := by omega
      simp only [e, hb, List.take_left', List.append_assoc, List.append_cancel_left_eq]
      rw [List.drop_append_eq_append_drop, List.drop_eq_nil_of_le (by omega)]
      simp
  · have e : p - h.data_ptr = out.length := by omega
    have hl : out.length + src.length ≤ h.bytes.length := by omega
    simp only [List.length_append, List.length_take, List.length_drop, e]
    omega

theorem writesB_store (src : List Nat) :
    WritesB (fun h p => do let h ← store h p src; pure (h, p + src.length)) src := by
  intro h p out hi hroom
  obtain ⟨h', e, hi', hd, hl⟩ := store_binv h p out src hi hroom
  exact ⟨h', by simp only [e, bind, Except.bind, pure, Except.pure], hi', hd, hl⟩

/-- Two raw writers one after the other store the concatenation. -/
theorem WritesB.wseq {w1 w2 : duk_hbuffer_dynamic → Nat → Wr} {xs ys : List Nat}
    (h1 : WritesB w1 xs) (h2 : WritesB w2 ys) :
    WritesB (fun h p => do let (h, p) ← w1 h p; w2 h p) (xs ++ ys) := by
  intro h p out hi hroom
  rw [List.length_append] at hroom
  obtain ⟨h', e1, hi1, hd1, hl1⟩ := h1 h p out hi (by omega)
  obtain ⟨h'', e2, hi2, hd2, hl2⟩ := h2 h' _ _ hi1 (by omega)
  refine ⟨h'', ?_, ?_, by omega, by omega⟩
  · simp only [e1, bind, Except.bind, e2, List.length_append, Nat.add_assoc]
  · rw [List.length_append, ← Nat.add_assoc, ← List.append_assoc]; exact hi2

theorem WritesB.wcongr {w w' : duk_hbuffer_dynamic → Nat → Wr} {xs xs' : List Nat}
    (h : WritesB w xs) (ew : ∀ m p, w' m p = w m p) (ex : xs' = xs) : WritesB w' xs' := by
  subst ex
  intro m p out hi hroom
  rw [ew]
  exact h m p out hi hroom

theorem writesB_u8 (v : Nat) : WritesB (fun h p => DUK__WRITE_U8 h p v) [v % 256] :=
  writesB_store [v % 256]

theorem writesB_u16 (cfg : Config) (v : Nat) :
    WritesB (fun h p => DUK__WRITE_U16 cfg h p v) (Spec.u16 v) :=
  (writesB_store (Spec.u16 v)).wcongr
    (fun m p => by
      simp only [DUK__WRITE_U16, duk__write_u16, union_b16_hton, u16_mod, u16_length]) rfl

theorem writesB_u32 (cfg : Config) (v : Nat) :
    WritesB (fun h p => DUK__WRITE_U32 cfg h p v) (Spec.u32 v) :=
  (writesB_store (Spec.u32 v)).wcongr
    (fun m p => by
      simp only [DUK__WRITE_U32, duk__write_u32, union_b32_hton, u32_mod, u32_length]) rfl

theorem writesB_double (cfg : Config) (d : duk_double_union) :
    WritesB (fun h p => duk__write_double cfg h p d) (Spec.Double d) :=
  ((writesB_store (Spec.u32 d.ui0)).wseq (writesB_store (Spec.u32 d.ui1))).wcongr
    (fun m p => by
      simp only [duk__write_double, union_b32_hton, u32_length, bind, Except.bind, pure,
        Except.pure]
      cases store m p (Spec.u32 d.ui0) with
      | error e => rfl
      | ok m1 => rfl) rfl

theorem assert_ok (cfg : Config) (c : Bool) (h : c = true) : DUK_ASSERT cfg c = .ok () := by
  simp [DUK_ASSERT, h]

theorem writesB_hstring (cfg : Config) (s : List Nat) (hs : s.length < 4294967296) :
    WritesB (fun h p => duk__dump_hstring cfg h p s) (Spec.Str s) :=
  ((writesB_u32 cfg s.length).wseq (writesB_store s)).wcongr
    (fun m p => by
      simp only [duk__dump_hstring,
        assert_ok cfg _ (decide_eq_true (show s.length ≤ 0xffffffff by omega)),
        bind, Except.bind, Nat.mod_eq_of_lt hs]) rfl

theorem writesB_hbuffer (cfg : Config) (s : List Nat) (hs : s.length < 4294967296) :
    WritesB (fun h p => duk__dump_hbuffer cfg h p s) (Spec.Buf s) :=
  ((writesB_u32 cfg s.length).wseq (writesB_store s)).wcongr
    (fun m p => by
      simp only [duk__dump_hbuffer,
        assert_ok cfg _ (decide_eq_true (show s.length ≤ 0xffffffff by omega)),
        bind, Except.bind, Nat.mod_eq_of_lt hs]) rfl

theorem writesB_header (cfg : Config) (nregs nargs start_line end_line flags a b c : Nat) :
    WritesB (fun h p => duk__dump_func_header cfg nregs nargs start_line end_line flags a b c h p)
      (Spec.Header cfg a b c nregs nargs start_line end_line flags) :=
  ((writesB_u32 cfg a).wseq ((writesB_u32 cfg b).wseq ((writesB_u32 cfg c).wseq
    ((writesB_u16 cfg nregs).wseq ((writesB_u16 cfg nargs).wseq
    ((writesB_u32 cfg (if cfg.debugger_support then start_line else 0)).wseq
    ((writesB_u32 cfg (if cfg.debugger_support then end_line else 0)).wseq
      (writesB_u32 cfg flags)))))))).wcongr
    (fun m p => by simp only [duk__dump_func_header, bind, Except.bind])
    (by simp only [Spec.Header, List.append_assoc])

theorem writesB_instrs_loop (cfg : Config) (code : List Nat) :
    WritesB (fun h p => duk__dump_func_instrs_loop cfg code h p) (Spec.Instrs code) := by
  induction code with
  | nil =>
    intro h p out hi _
    exact ⟨h, rfl, by simpa using hi, rfl, rfl⟩
  | cons w code ih =>
    exact ((writesB_u32 cfg w).wseq ih).wcongr
      (fun m p => by simp only [duk__dump_func_instrs_loop, bind, Except.bind])
      (Instrs_cons w code)

/-- The little-endian build stores the instruction words big-endian. -/
theorem writesB_instrs (cfg : Config) (hle : cfg.integer_be = false) (code : List Nat) :
    WritesB (fun h p => duk__dump_func_instrs cfg code h p) (Spec.Instrs code) :=
  (writesB_instrs_loop cfg code).wcongr
    (fun m p => by simp only [duk__dump_func_instrs, hle, Bool.false_eq_true, if_false]) rfl

theorem resize_inv (cfg : Config) (bw_ctx : duk_bufwriter_ctx) (sz p : Nat) (out : List Nat)
    (hi : Inv bw_ctx p out) :
    ∃ bw', duk_bw_resize cfg bw_ctx sz p
        = .ok (bw', cfg.realloc bw_ctx.buf.data_ptr bw_ctx.buf.bytes.length
            (out.length + sz + 1024) + out.length)
      ∧ Inv bw' (cfg.realloc bw_ctx.buf.data_ptr bw_ctx.buf.bytes.length
            (out.length + sz + 1024) + out.length) out
      ∧ cfg.realloc bw_ctx.buf.data_ptr bw_ctx.buf.bytes.length
            (out.length + sz + 1024) + out.length + sz ≤ bw'.limit := by
  obtain ⟨⟨hp, rest, hb⟩, hl⟩ := hi
  have hlen : bw_ctx.buf.bytes.length = out.length + rest.length := by
    rw [hb, List.length_append]
  have hoff : ptr_offset bw_ctx.buf p = .ok out.length := by
    unfold ptr_offset
    rw [if_pos ⟨by omega, by omega⟩]
    congr 1
    omega
  refine ⟨{ bw_ctx with
      buf := duk_hbuffer_resize cfg bw_ctx.buf (out.length + sz + 1024),
      length := out.length + sz + 1024,
      limit := (duk_hbuffer_resize cfg bw_ctx.buf (out.length + sz + 1024)).data_ptr
        + (out.length + sz + 1024) },
    by simp only [duk_bw_resize, hoff, bind, Except.bind, pure, Except.pure,
      duk_hbuffer_resize], ⟨⟨rfl, ?_⟩, ?_⟩, ?_⟩
  all_goals simp only [duk_hbuffer_resize]
  · refine ⟨List.take (sz + 1024) rest
      ++ List.replicate (out.length + sz + 1024 - bw_ctx.buf.bytes.length) 0, ?_⟩
    simp only [hb, List.take_append_eq_append_take, List.append_assoc]
    rw [List.take_of_length_le (by omega)]
    congr 2
    congr 1
    omega
  · simp only [List.length_append, List.length_take, List.length_replicate]
    omega
  · omega

/-- After `DUK_BW_ENSURE` the refreshed cursor is at the same offset and has
the requested room below the limit. -/
theorem ensure_inv (cfg : Config) (bw_ctx : duk_bufwriter_ctx) (sz p : Nat) (out : List Nat)
    (hi : Inv bw_ctx p out) :
    ∃ bw' p', DUK_BW_ENSURE cfg bw_ctx sz p = .ok (bw', p') ∧ Inv bw' p' out
      ∧ p' + sz ≤ bw'.limit := by
  unfold DUK_BW_ENSURE
  by_cases h : p + sz ≤ bw_ctx.limit
  · rw [if_pos h]
    exact ⟨bw_ctx, p, rfl, hi, h⟩
  · rw [if_neg h]
    obtain ⟨bw', e, hi', hr⟩ := resize_inv cfg bw_ctx sz p out hi
    exact ⟨bw', _, e, hi', hr⟩

/-- When the allocator resizes in place, the cursor held before
`DUK_BW_ENSURE` is still the right one after it. -/
theorem ensure_inplace (cfg : Config) (hip : InPlace cfg) (bw_ctx : duk_bufwriter_ctx)
    (sz p : Nat) (out : List Nat) (hi : Inv bw_ctx p out) :
    ∃ bw' p', DUK_BW_ENSURE cfg bw_ctx sz p = .ok (bw', p') ∧ Inv bw' p out
      ∧ p + sz ≤ bw'.limit := by
  unfold DUK_BW_ENSURE
  by_cases h : p + sz ≤ bw_ctx.limit
  · rw [if_pos h]
    exact ⟨bw_ctx, p, rfl, hi, h⟩
  · rw [if_neg h]
    obtain ⟨bw', e, hi', hr⟩ := resize_inv cfg bw_ctx sz p out hi
    rw [hip] at e hi' hr
    rw [← hi.1.1] at e hi' hr
    exact ⟨bw', _, e, hi', hr⟩

/-- A raw writer run on the writer's buffer with room below the limit. -/
theorem raw_writes {w : duk_hbuffer_dynamic → Nat → Wr} {xs : List Nat} (hw : WritesB w xs)
    (bw_ctx : duk_bufwriter_ctx) (p : Nat) (out : List Nat) (hi : Inv bw_ctx p out)
    (hroom : p + xs.length ≤ bw_ctx.limit) :
    ∃ bw', raw bw_ctx (fun m => w m p) = .ok (bw', p + xs.length)
      ∧ Inv bw' (p + xs.length) (out ++ xs) ∧ bw'.limit = bw_ctx.limit := by
  obtain ⟨hb, hl⟩ := hi
  obtain ⟨h', e, hi', hd, hlen⟩ := hw bw_ctx.buf p out hb (by omega)
  refine ⟨{ bw_ctx with buf := h' }, ?_, ⟨hi', ?_⟩, rfl⟩
  · simp only [raw, e, bind, Except.bind, pure, Except.pure]
  · simp only [hl, hd, hlen]

theorem Dumps.dcongr {d d' : duk_bufwriter_ctx → Nat → Dump} {xs xs' : List Nat}
    (h : Dumps d xs) (ed : ∀ bw p, d' bw p = d bw p) (ex : xs' = xs) : Dumps d' xs' := by
  subst ex
  intro bw p out hi
  rw [ed]
  exact h bw p out hi

/-- Two dump steps one after the other emit the concatenation. -/
theorem Dumps.dseq {d1 d2 : duk_bufwriter_ctx → Nat → Dump} {xs ys : List Nat}
    (h1 : Dumps d1 xs) (h2 : Dumps d2 ys) :
    Dumps (fun bw p => do let (bw, p) ← d1 bw p; d2 bw p) (xs ++ ys) := by
  intro bw p out hi
  obtain ⟨bw1, p1, e1, hi1⟩ := h1 bw p out hi
  obtain ⟨bw2, p2, e2, hi2⟩ := h2 bw1 p1 _ hi1
  refine ⟨bw2, p2, ?_, ?_⟩
  · simp only [e1, bind, Except.bind, e2]
  · rw [← List.append_assoc]; exact hi2

theorem dumps_nil : Dumps (fun bw p => pure (bw, p)) [] := by
  intro bw p out hi
  exact ⟨bw, p, rfl, by simpa using hi⟩

/-- An ensure of at least the bytes stored, then one raw writer. -/
theorem dumps_ensure_raw (cfg : Config) {w : duk_hbuffer_dynamic → Nat → Wr} {xs : List Nat}
    (hw : WritesB w xs) (sz : Nat) (hsz : xs.length ≤ sz) :
    Dumps (fun bw p => do
      let (bw, p) ← DUK_BW_ENSURE cfg bw sz p
      raw bw fun m => w m p) xs := by
  intro bw p out hi
  obtain ⟨bw1, p1, e1, hi1, hr1⟩ := ensure_inv cfg bw sz p out hi
  obtain ⟨bw2, e2, hi2, -⟩ := raw_writes hw bw1 p1 out hi1 (by omega)
  exact ⟨bw2, p1 + xs.length, by simp only [e1, bind, Except.bind, e2], hi2⟩

/-- An ensure of at least the bytes stored, then two raw writers. -/
theorem dumps_ensure_raw2 (cfg : Config) {w1 w2 : duk_hbuffer_dynamic → Nat → Wr}
    {xs ys : List Nat} (hw1 : WritesB w1 xs) (hw2 : WritesB w2 ys) (sz : Nat)
    (hsz : xs.length + ys.length ≤ sz) :
    Dumps (fun bw p => do
      let (bw, p) ← DUK_BW_ENSURE cfg bw sz p
      let (bw, p) ← raw bw fun m => w1 m p
      raw bw fun m => w2 m p) (xs ++ ys) := by
  intro bw p out hi
  obtain ⟨bw1, p1, e1, hi1, hr1⟩ := ensure_inv cfg bw sz p out hi
  obtain ⟨bw2, e2, hi2, hl2⟩ := raw_writes hw1 bw1 p1 out hi1 (by omega)
  obtain ⟨bw3, e3, hi3, -⟩ := raw_writes hw2 bw2 _ _ hi2 (by omega)
  refine ⟨bw3, p1 + xs.length + ys.length, by simp only [e1, bind, Except.bind, e2, e3], ?_⟩
  rw [← List.append_assoc]; exact hi3

/-- An ensure whose value is dropped, then two raw writers through the cursor
held before, on a host that resizes in place. -/
theorem dumps_stale_raw2 (cfg : Config) (hip : InPlace cfg)
    {w1 w2 : duk_hbuffer_dynamic → Nat → Wr}
    {xs ys : List Nat} (hw1 : WritesB w1 xs) (hw2 : WritesB w2 ys) (sz : Nat)
    (hsz : xs.length + ys.length ≤ sz) :
    Dumps (fun bw p => do
      let (bw, _) ← DUK_BW_ENSURE cfg bw sz p
      let (bw, p) ← raw bw fun m => w1 m p
      raw bw fun m => w2 m p) (xs ++ ys) := by
  intro bw p out hi
  obtain ⟨bw1, p1, e1, hi1, hr1⟩ := ensure_inplace cfg hip bw sz p out hi
  obtain ⟨bw2, e2, hi2, hl2⟩ := raw_writes hw1 bw1 p out hi1 (by omega)
  obtain ⟨bw3, e3, hi3, -⟩ := raw_writes hw2 bw2 _ _ hi2 (by omega)
  refine ⟨bw3, p + xs.length + ys.length, by simp only [e1, bind, Except.bind, e2, e3], ?_⟩
  rw [← List.append_assoc]; exact hi3

/-- An ensure whose value is dropped, then one raw writer through the cursor
held before, on a host that resizes in place. -/
theorem dumps_stale_raw (cfg : Config) (hip : InPlace cfg)
    {w : duk_hbuffer_dynamic → Nat → Wr} {xs : List Nat} (hw : WritesB w xs) (sz : Nat)
    (hsz : xs.length ≤ sz) :
    Dumps (fun bw p => do
      let (bw, _) ← DUK_BW_ENSURE cfg bw sz p
      raw bw fun m => w m p) xs := by
  intro bw p out hi
  obtain ⟨bw1, p1, e1, hi1, hr1⟩ := ensure_inplace cfg hip bw sz p out hi
  obtain ⟨bw2, e2, hi2, -⟩ := raw_writes hw bw1 p out hi1 (by omega)
  exact ⟨bw2, p + xs.length, by simp only [e1, bind, Except.bind, e2], hi2⟩

theorem dumps_uint32_prop (cfg : Config) (nargs : Nat) (props : duk_props) :
    Dumps (fun bw p => duk__dump_uint32_prop cfg p bw props .LENGTH (nargs % 4294967296))
      (Spec.u32 (Spec.length_field cfg nargs props)) := by
  cases hl : props.length with
  | none =>
    exact (dumps_ensure_raw cfg (writesB_u32 cfg (nargs % 4294967296)) 4 (by simp)).dcongr
      (fun bw p => by
        simp only [duk__dump_uint32_prop, duk_hobject_find_existing_entry_tval_ptr, hl])
      (by simp only [Spec.length_field, hl, u32_mod])
  | some tv =>
    cases tv with
    | number d =>
      exact (dumps_ensure_raw cfg (writesB_u32 cfg (cfg.dbl_to_u32 d % 4294967296)) 4
        (by simp)).dcongr
        (fun bw p => by
          simp only [duk__dump_uint32_prop, duk_hobject_find_existing_entry_tval_ptr, hl])
        (by simp only [Spec.length_field, hl, u32_mod])
    | undefined | string _ | buffer _ | object _ =>
      exact (dumps_ensure_raw cfg (writesB_u32 cfg (nargs % 4294967296)) 4 (by simp)).dcongr
        (fun bw p => by
          simp only [duk__dump_uint32_prop, duk_hobject_find_existing_entry_tval_ptr, hl])
        (by simp only [Spec.length_field, hl, u32_mod])

theorem string_prop_eq (cfg : Config) (p : Nat) (bw : duk_bufwriter_ctx) (props : duk_props)
    (stridx : duk_stridx) :
    duk__dump_string_prop cfg p bw props stridx
      = (do
        let (bw, p) ← DUK_BW_ENSURE cfg bw
          (4 + (Spec.string_field
            (duk_hobject_find_existing_entry_tval_ptr props stridx)).length) p
        raw bw fun m => duk__dump_hstring cfg m p
          (Spec.string_field (duk_hobject_find_existing_entry_tval_ptr props stridx))) := by
  unfold duk__dump_string_prop
  cases duk_hobject_find_existing_entry_tval_ptr props stridx with
  | none => rfl
  | some tv => cases tv <;> rfl

theorem dumps_string_prop (cfg : Config) (props : duk_props) (stridx : duk_stridx)
    (hs : (Spec.string_field (duk_hobject_find_existing_entry_tval_ptr props stridx)).length
      < 4294967296) :
    Dumps (fun bw p => duk__dump_string_prop cfg p bw props stridx)
      (Spec.Str (Spec.string_field (duk_hobject_find_existing_entry_tval_ptr props stridx))) :=
  (dumps_ensure_raw cfg (writesB_hstring cfg _ hs) _ (by simp)).dcongr
    (fun bw p => string_prop_eq cfg p bw props stridx) rfl

theorem dumps_buffer_prop (cfg : Config) (props : duk_props)
    (hs : (Spec.buffer_field props.pc2line).length < 4294967296) :
    Dumps (fun bw p => duk__dump_buffer_prop cfg p bw props .INT_PC2LINE)
      (Spec.Buf (Spec.buffer_field props.pc2line)) := by
  cases hl : props.pc2line with
  | none =>
    exact (dumps_ensure_raw cfg (writesB_u32 cfg 0) 4 (by simp)).dcongr
      (fun bw p => by
        simp only [duk__dump_buffer_prop, duk_hobject_find_existing_entry_tval_ptr, hl])
      (by simp [Spec.buffer_field, Spec.Buf])
  | some tv =>
    cases tv with
    | buffer b =>
      rw [hl] at hs
      exact (dumps_ensure_raw cfg (writesB_hbuffer cfg b hs) (4 + b.length) (by simp)).dcongr
        (fun bw p => by
          simp only [duk__dump_buffer_prop, duk_hobject_find_existing_entry_tval_ptr, hl])
        (by simp only [Spec.buffer_field])
    | undefined | string _ | number _ | object _ =>
      exact (dumps_ensure_raw cfg (writesB_u32 cfg 0) 4 (by simp)).dcongr
        (fun bw p => by
          simp only [duk__dump_buffer_prop, duk_hobject_find_existing_entry_tval_ptr, hl])
        (by simp [Spec.buffer_field, Spec.Buf])

/-- The var-map loop, on a host that resizes in place (or over no entries). -/
theorem dumps_varmap_loop (cfg : Config) (entries : List (List Nat × duk_double_union))
    (hloc : InPlace cfg ∨ entries = [])
    (hsz : entries.all (fun kv => decide (kv.1.length < 4294967296)) = true) :
    Dumps (duk__dump_varmap_loop cfg entries)
      (entries.flatMap fun kv => Spec.Str kv.1 ++ Spec.u32 (cfg.dbl_to_u32 kv.2)) := by
  induction entries with
  | nil => exact dumps_nil
  | cons kv rest ih =>
    obtain hip | hnil := hloc
    · simp only [List.all_cons, Bool.and_eq_true, decide_eq_true_eq] at hsz
      obtain ⟨key, tv⟩ := kv
      exact ((dumps_stale_raw2 cfg hip (writesB_hstring cfg key hsz.1)
        (writesB_u32 cfg (cfg.dbl_to_u32 tv % 4294967296)) (4 + key.length + 4)
        (by simp)).dseq (ih (Or.inl hip) hsz.2)).dcongr
        (fun bw p => by
          simp only [duk__dump_varmap_loop, bind, Except.bind]
          cases DUK_BW_ENSURE cfg bw (4 + key.length + 4) p with
          | error e => rfl
          | ok r =>
            simp only
            cases raw r.1 (fun m => duk__dump_hstring cfg m p key) with
            | error e => rfl
            | ok r2 => rfl)
        (by simp only [List.flatMap_cons, u32_mod, List.append_assoc])
    · exact absurd hnil (List.cons_ne_nil _ _)

theorem dumps_varmap (cfg : Config) (props : duk_props)
    (hloc : InPlace cfg ∨ Spec.varmap_entries props.varmap = [])
    (hsz : (Spec.varmap_entries props.varmap).all
      (fun kv => decide (kv.1.length < 4294967296)) = true) :
    Dumps (fun bw p => duk__dump_varmap cfg p bw props)
      (Spec.VarMap cfg (Spec.varmap_entries props.varmap)) := by
  have h := (dumps_varmap_loop cfg _ hloc hsz).dseq
    (dumps_ensure_raw cfg (writesB_u32 cfg 0) 4 (by simp))
  refine h.dcongr (fun bw p => ?_) (by simp [Spec.VarMap, Spec.Str])
  unfold duk__dump_varmap
  simp only [duk_hobject_find_existing_entry_tval_ptr]
  cases props.varmap with
  | none => rfl
  | some tv => cases tv <;> rfl

/-- The formals loop, on a host that resizes in place (or over slots none of
which holds a string). -/
theorem dumps_formals_loop (cfg : Config) (a_part : List (Option (List Nat)))
    (hloc : InPlace cfg ∨ a_part.filterMap id = [])
    (hsz : (a_part.filterMap id).all (fun s => decide (s.length < 4294967296)) = true) :
    Dumps (duk__dump_formals_loop cfg a_part) ((a_part.filterMap id).flatMap Spec.Str) := by
  induction a_part with
  | nil => exact dumps_nil
  | cons slot rest ih =>
    cases slot with
    | none =>
      exact (ih (by simpa using hloc) (by simpa using hsz)).dcongr
        (fun bw p => by simp only [duk__dump_formals_loop]) (by simp)
    | some varname =>
      obtain hip | hnil := hloc
      · have hsz' : varname.length < 4294967296 ∧
            ((rest.filterMap id).all fun s => decide (s.length < 4294967296)) = true := by
          simpa using hsz
        replace hsz := hsz'
        exact ((dumps_stale_raw cfg hip (writesB_hstring cfg varname hsz.1)
          (4 + varname.length) (by simp)).dseq (ih (Or.inl hip) hsz.2)).dcongr
          (fun bw p => by
            simp only [duk__dump_formals_loop, bind, Except.bind]
            cases DUK_BW_ENSURE cfg bw (4 + varname.length) p with
            | error e => rfl
            | ok r => rfl)
          (by simp)
      · simp at hnil

theorem dumps_formals (cfg : Config) (props : duk_props)
    (hloc : InPlace cfg ∨ Spec.formals_names props.formals = [])
    (hsz : (Spec.formals_names props.formals).all
      (fun s => decide (s.length < 4294967296)) = true) :
    Dumps (fun bw p => duk__dump_formals cfg p bw props)
      (Spec.Formals (Spec.formals_names props.formals)) := by
  cases hf : props.formals with
  | none =>
    exact (dumps_ensure_raw cfg (writesB_u32 cfg 0) 4 (by simp)).dcongr
      (fun bw p => by
        simp only [duk__dump_formals, duk_hobject_find_existing_entry_tval_ptr, hf, bind,
          Except.bind, pure, Except.pure])
      (by simp [Spec.formals_names])
  | some tv =>
    cases tv with
    | object h =>
      rw [hf] at hloc hsz
      simp only [Spec.formals_names] at hloc hsz
      exact ((dumps_formals_loop cfg h.a_part hloc hsz).dseq
        (dumps_ensure_raw cfg (writesB_u32 cfg 0) 4 (by simp))).dcongr
        (fun bw p => by
          simp only [duk__dump_formals, duk_hobject_find_existing_entry_tval_ptr, hf])
        (by simp [Spec.formals_names, Spec.Formals, Spec.Str])
    | undefined | string _ | number _ | buffer _ =>
      exact (dumps_ensure_raw cfg (writesB_u32 cfg 0) 4 (by simp)).dcongr
        (fun bw p => by
          simp only [duk__dump_formals, duk_hobject_find_existing_entry_tval_ptr, hf, bind,
            Except.bind, pure, Except.pure])
        (by simp [Spec.formals_names])

theorem dumps_consts (cfg : Config) (cs : List duk_const)
    (hsz : cs.all const_size_ok = true) :
    Dumps (duk__dump_func_consts cfg cs) (Spec.Consts cs) := by
  induction cs with
  | nil => exact dumps_nil
  | cons c rest ih =>
    rw [List.all_cons, Bool.and_eq_true] at hsz
    cases c with
    | string s =>
      have hs : s.length < 4294967296 := by simpa [const_size_ok] using hsz.1
      exact ((dumps_ensure_raw2 cfg (writesB_u8 DUK__SER_STRING) (writesB_hstring cfg s hs)
        (1 + 4 + s.length) (by simp; omega)).dseq (ih hsz.2)).dcongr
        (fun bw p => by
          simp only [duk__dump_func_consts, bind, Except.bind]
          cases DUK_BW_ENSURE cfg bw (1 + 4 + s.length) p with
          | error e => rfl
          | ok r =>
            simp only
            cases raw r.1 (fun m => DUK__WRITE_U8 m r.2 DUK__SER_STRING) with
            | error e => rfl
            | ok r2 => rfl)
        (by simp [Spec.Const, DUK__SER_STRING])
    | number d =>
      exact ((dumps_ensure_raw2 cfg (writesB_u8 DUK__SER_NUMBER) (writesB_double cfg d)
        (1 + 8) (by simp)).dseq (ih hsz.2)).dcongr
        (fun bw p => by
          simp only [duk__dump_func_consts, bind, Except.bind]
          cases DUK_BW_ENSURE cfg bw (1 + 8) p with
          | error e => rfl
          | ok r =>
            simp only
            cases raw r.1 (fun m => DUK__WRITE_U8 m r.2 DUK__SER_NUMBER) with
            | error e => rfl
            | ok r2 => rfl)
        (by simp [Spec.Const, DUK__SER_NUMBER])

theorem dumps_props (cfg : Config) (nargs : Nat) (props : duk_props)
    (hloc : InPlace cfg ∨ props_var_free props = true)
    (hsz : props_sizes_ok props = true) :
    Dumps (duk__dump_func_props cfg nargs props) (Spec.Props cfg nargs props) := by
  simp only [props_sizes_ok, Bool.and_eq_true, decide_eq_true_eq] at hsz
  obtain ⟨⟨⟨⟨s1, s2⟩, s3⟩, s4⟩, s5⟩ := hsz
  have hv : InPlace cfg ∨ Spec.varmap_entries props.varmap = [] := by
    obtain h | h := hloc
    · exact Or.inl h
    · simp only [props_var_free, Bool.and_eq_true, List.isEmpty_iff] at h
      exact Or.inr h.1
  have hf : InPlace cfg ∨ Spec.formals_names props.formals = [] := by
    obtain h | h := hloc
    · exact Or.inl h
    · simp only [props_var_free, Bool.and_eq_true, List.isEmpty_iff] at h
      exact Or.inr h.2
  exact ((dumps_uint32_prop cfg nargs props).dseq ((dumps_string_prop cfg props .NAME s1).dseq
    ((dumps_string_prop cfg props .FILE_NAME s2).dseq ((dumps_buffer_prop cfg props s3).dseq
    ((dumps_varmap cfg props hv s4).dseq (dumps_formals cfg props hf s5)))))).dcongr
    (fun bw p => by simp only [duk__dump_func_props, bind, Except.bind])
    (by simp only [Spec.Props, List.append_assoc, duk_hobject_find_existing_entry_tval_ptr])

mutual

/-- On a little-endian build, `duk__dump_func` emits the reference
serialisation of the function (the host resizing in place, or the function
tree having no var-map entry and no formal name). -/
theorem dumps_func (cfg : Config) (hle : cfg.integer_be = false) :
    ∀ fn : duk_hcompiledfunction, (InPlace cfg ∨ var_free fn = true) → sizes_ok fn = true →
      burst_ok fn = true → Dumps (duk__dump_func cfg fn) (Spec.Func cfg fn)
  | .mk nregs nargs start_line end_line flags code consts funcs props, hloc, hsz, hb => by
    simp only [sizes_ok, burst_ok, Bool.and_eq_true, decide_eq_true_eq] at hsz hb
    obtain ⟨⟨⟨⟨⟨s1, s2⟩, s3⟩, s4⟩, s5⟩, s6⟩ := hsz
    have hl1 : InPlace cfg ∨ var_free_list funcs = true := by
      obtain h | h := hloc
      · exact Or.inl h
      · simp only [var_free, Bool.and_eq_true] at h; exact Or.inr h.1
    have hl2 : InPlace cfg ∨ props_var_free props = true := by
      obtain h | h := hloc
      · exact Or.inl h
      · simp only [var_free, Bool.and_eq_true] at h; exact Or.inr h.2
    have hreq : (3 * 4 + 2 * 2 + 3 * 4 + code.length * 4) % 4294967296
        = 28 + 4 * code.length := by omega
    have hrest := (dumps_consts cfg consts s4).dseq ((dumps_funcs cfg hle funcs hl1 s5 hb.2).dseq
      (dumps_props cfg nargs props hl2 s6))
    intro bw p out hi
    obtain ⟨bw1, p1, e1, hi1, hr1⟩ := ensure_inv cfg bw (28 + 4 * code.length) p out hi
    obtain ⟨bw2, e2, hi2, hlim2⟩ := raw_writes
      (writesB_header cfg nregs nargs start_line end_line flags code.length consts.length
        funcs.length) bw1 p1 out hi1 (by simp only [Header_length]; omega)
    obtain ⟨bw3, e3, hi3, -⟩ := raw_writes (writesB_instrs cfg hle code) bw2 _ _ hi2
      (by simp only [Header_length, Instrs_length]; omega)
    obtain ⟨bw4, p4, e4, hi4⟩ := hrest bw3 _ _ hi3
    have ea : DUK_ASSERT cfg (decide True) = .ok () := assert_ok cfg _ (by simp)
    refine ⟨bw4, p4, ?_, ?_⟩
    · rw [duk__dump_func]
      simp only [Nat.mod_eq_of_lt s1, Nat.mod_eq_of_lt s2, Nat.mod_eq_of_lt s3, hreq, e1, bind,
        Except.bind, e2, ea, e3]
      simpa only [bind, Except.bind] using e4
    · simpa only [Spec.Func, List.append_assoc] using hi4

/-- The inner-function loop of `duk__dump_func` emits the serialisations of
the inner functions in order. -/
theorem dumps_funcs (cfg : Config) (hle : cfg.integer_be = false) :
    ∀ fs : List duk_hcompiledfunction, (InPlace cfg ∨ var_free_list fs = true) →
      sizes_ok_list fs = true → burst_ok_list fs = true →
      Dumps (duk__dump_func_funcs cfg fs) (Spec.Funcs cfg fs)
  | [], _, _, _ => dumps_nil.dcongr (fun bw p => by simp only [duk__dump_func_funcs])
      (by simp only [Spec.Funcs])
  | fn :: rest, hloc, hsz, hb => by
    simp only [sizes_ok_list, burst_ok_list, Bool.and_eq_true] at hsz hb
    have hl1 : InPlace cfg ∨ var_free fn = true := by
      obtain h | h := hloc
      · exact Or.inl h
      · simp only [var_free_list, Bool.and_eq_true] at h; exact Or.inr h.1
    have hl2 : InPlace cfg ∨ var_free_list rest = true := by
      obtain h | h := hloc
      · exact Or.inl h
      · simp only [var_free_list, Bool.and_eq_true] at h; exact Or.inr h.2
    exact ((dumps_func cfg hle fn hl1 hsz.1 hb.1).dseq
      (dumps_funcs cfg hle rest hl2 hsz.2 hb.2)).dcongr
      (fun bw p => by simp only [duk__dump_func_funcs, bind, Except.bind])
      (by simp only [Spec.Funcs])

end

theorem finish_compact (cfg : Config) (bw_ctx : duk_bufwriter_ctx) (p : Nat) (out : List Nat)
    (hi : Inv bw_ctx p out) :
    ∃ bw', duk_bw_finish bw_ctx p = .ok bw' ∧ (duk_bw_compact cfg bw').buf.bytes = out := by
  obtain ⟨⟨hp, rest, hb⟩, hl⟩ := hi
  have hoff : ptr_offset bw_ctx.buf p = .ok out.length := by
    unfold ptr_offset
    rw [if_pos ⟨by omega, by rw [hb, List.length_append]; omega⟩]
    congr 1
    omega
  refine ⟨{ bw_ctx with offset := out.length }, ?_, ?_⟩
  · simp only [duk_bw_finish, hoff, bind, Except.bind, pure, Except.pure]
  · simp only [duk_bw_compact, duk_hbuffer_resize, hb, List.take_left', List.length_append]
    rw [Nat.sub_eq_zero_of_le (by omega)]
    simp

/-- On a little-endian build `duk_dump_function` (started with a buffer of at
least the two signature bytes) returns the reference blob, provided the host
resizes in place or the function tree has no var-map entry and no formal. -/
theorem dump_function_spec (cfg : Config) (hle : cfg.integer_be = false) (initial : Nat)
    (h2 : 2 ≤ initial) (fn : duk_hcompiledfunction)
    (hloc : InPlace cfg ∨ var_free fn = true) (hsz : sizes_ok fn = true)
    (hb : burst_ok fn = true) :
    duk_dump_function_sized cfg initial fn = .ok (Spec.Blob cfg fn) := by
  have hi0 : Inv (duk_bw_init (duk_push_dynamic_buffer cfg initial))
      (duk_bw_getptr (duk_bw_init (duk_push_dynamic_buffer cfg initial))) [] :=
    ⟨⟨rfl, _, rfl⟩, rfl⟩
  have hlim : (duk_bw_init (duk_push_dynamic_buffer cfg initial)).limit
      = duk_bw_getptr (duk_bw_init (duk_push_dynamic_buffer cfg initial)) + initial := by
    simp [duk_bw_init, duk_push_dynamic_buffer, duk_bw_getptr]
  obtain ⟨bw1, e1, hi1, hl1⟩ := raw_writes (writesB_u8 DUK__SER_MARKER) _ _ _ hi0
    (by rw [hlim]; simp only [List.length_singleton]; omega)
  obtain ⟨bw2, e2, hi2, hl2⟩ := raw_writes (writesB_u8 DUK__SER_VERSION) _ _ _ hi1
    (by rw [hl1, hlim]; simp only [List.length_singleton]; omega)
  obtain ⟨bw3, p3, e3, hi3⟩ := dumps_func cfg hle fn hloc hsz hb _ _ _ hi2
  obtain ⟨bw4, e4, hc⟩ := finish_compact cfg bw3 p3 _ hi3
  simp only [List.length_singleton] at e1 e2 e3
  simp only [duk_dump_function_sized, e1, e2, e3, e4, bind, Except.bind, pure, Except.pure, hc]
  rfl

mutual

theorem depth_le_length (cfg : Config) :
    ∀ fn : duk_hcompiledfunction, depth fn ≤ (Spec.Func cfg fn).length
  | .mk nregs nargs start_line end_line flags code consts funcs props => by
    have := depth_list_le_length cfg funcs
    simp only [depth, Spec.Func, List.length_append, Header_length]
    omega

theorem depth_list_le_length (cfg : Config) :
    ∀ fs : List duk_hcompiledfunction, depth_list fs ≤ (Spec.Funcs cfg fs).length
  | [] => by simp [depth_list]
  | fn :: rest => by
    have h1 := depth_le_length cfg fn
    have h2 := depth_list_le_length cfg rest
    simp only [depth_list, Spec.Funcs, List.length_append]
    omega

end

/-- `duk_load_function` on the reference blob of a function whose sizes fit
and whose names are non-empty returns the image of the function. -/
theorem load_function_blob (cfg : Config) (fn : duk_hcompiledfunction) (beyond : List Nat)
    (hsz : sizes_ok fn = true) (hnm : names_ok fn = true) :
    duk_load_function cfg (Spec.Blob cfg fn) beyond = .ok (loaded cfg fn) := by
  have hat : At (Spec.Blob cfg fn ++ beyond) 2 (Spec.Func cfg fn) := by
    have := at_append ([0xFF, 0x00] ++ Spec.Func cfg fn ++ beyond) 0 ([0xFF, 0x00])
      (Spec.Func cfg fn)
    have h0 := at_zero_append ([0xFF, 0x00] ++ Spec.Func cfg fn) beyond
    exact (this.1 h0).2
  have hd := depth_le_length cfg fn
  have hlen : (Spec.Blob cfg fn).length = 2 + (Spec.Func cfg fn).length := by
    simp [Spec.Blob]; omega
  have e := load_func_at cfg (Spec.Blob cfg fn ++ beyond) (Spec.Blob cfg fn).length fn
    ((Spec.Blob cfg fn ++ beyond).length + 1) 2
    (by rw [List.length_append, hlen]; omega) hat hsz hnm (by omega)
  rw [load_function_eq cfg _ beyond, if_pos (by rfl), e]
  rfl

/-! ### Round trip -/

theorem put_prop_new (e : List (List Nat × duk_double_union)) (key : List Nat)
    (val : duk_double_union) (h : key ∉ e.map Prod.fst) :
    duk_put_prop e key val = e ++ [(key, val)] := by
  unfold duk_put_prop
  rw [if_neg]
  simp only [List.any_eq_true, decide_eq_true_eq, not_exists, not_and]
  intro kv hkv hk
  exact h (List.mem_map.2 ⟨kv, hkv, hk⟩)

/-- Distinct keys with exact values come back from the wire as they were. -/
theorem loaded_varmap_eq (cfg : Config) (entries : List (List Nat × duk_double_union)) :
    ∀ acc, ((acc ++ entries).map Prod.fst).Nodup →
      entries.all (fun kv => u32_exact cfg kv.2) = true →
      loaded_varmap cfg entries acc = acc ++ entries := by
  induction entries with
  | nil => intro acc _ _; simp [loaded_varmap]
  | cons kv rest ih =>
    intro acc hnd hex
    simp only [List.all_cons, Bool.and_eq_true, u32_exact, decide_eq_true_eq] at hex
    have hnew : kv.1 ∉ acc.map Prod.fst := by
      intro hmem
      rw [List.map_append, List.map_cons] at hnd
      have := (List.nodup_append.1 hnd).2.2
      exact this hmem (List.mem_cons_self _ _)
    have hnd' : ((acc ++ [(kv.1, kv.2)] ++ rest).map Prod.fst).Nodup := by
      simpa using hnd
    have := ih (acc ++ [(kv.1, kv.2)]) hnd' (by simpa [u32_exact] using hex.2)
    simp only [loaded_varmap, List.foldl_cons] at this ⊢
    rw [hex.1, put_prop_new acc kv.1 kv.2 hnew, this]
    simp

theorem filterMap_id_map_some (a : List (Option (List Nat))) (h : a.all Option.isSome = true) :
    (a.filterMap id).map some = a := by
  induction a with
  | nil => rfl
  | cons x rest ih =>
    rw [List.all_cons, Bool.and_eq_true] at h
    cases x with
    | none => simp at h
    | some s => simp [ih h.2]

/-- The loader gives properties of canonical shape back as they were. -/
theorem loaded_props_eq (cfg : Config) (nargs flags : Nat) (props : duk_props)
    (h : props_canonical cfg props = true) :
    (loaded_props cfg nargs flags props).length = props.length
      ∧ (loaded_props cfg nargs flags props).name = props.name
      ∧ (loaded_props cfg nargs flags props).file_name = props.file_name
      ∧ (loaded_props cfg nargs flags props).pc2line = props.pc2line
      ∧ (loaded_props cfg nargs flags props).varmap = props.varmap
      ∧ (loaded_props cfg nargs flags props).formals = props.formals := by
  obtain ⟨length, name, file_name, pc2line, varmap, formals, lexenv, prototype⟩ := props
  simp only [props_canonical, Bool.and_eq_true] at h
  obtain ⟨⟨⟨⟨⟨h1, h2⟩, h3⟩, h4⟩, h5⟩, h6⟩ := h
  refine ⟨?_, ?_, ?_, ?_, ?_, ?_⟩
  · match length, h1 with
    | some (.number d), h1 =>
      simp only [u32_exact, decide_eq_true_eq] at h1
      simp only [loaded_props, Spec.length_field, h1]
  · match name, h2 with
    | some (.string s), _ => rfl
  · match file_name, h3 with
    | some (.string s), _ => rfl
  · match pc2line, h4 with
    | some (.buffer s), _ => rfl
  · match varmap, h5 with
    | some (.object ⟨e, a⟩), h5 =>
      simp only [Bool.and_eq_true, List.isEmpty_iff, decide_eq_true_eq] at h5
      obtain ⟨⟨ha, hn⟩, hx⟩ := h5
      subst ha
      simp only [loaded_props, Spec.varmap_entries]
      rw [loaded_varmap_eq cfg e [] (by simpa using hn) hx]
      rfl
  · match formals, h6 with
    | some (.object ⟨e, a⟩), h6 =>
      simp only [Bool.and_eq_true, List.isEmpty_iff] at h6
      obtain ⟨he, ha⟩ := h6
      subst he
      simp only [loaded_props, Spec.formals_names]
      rw [filterMap_id_map_some a ha]

theorem map_mod_eq (code : List Nat) (h : code.all (fun w => decide (w < 4294967296)) = true) :
    code.map (fun w => w % 4294967296) = code := by
  induction code with
  | nil => rfl
  | cons w rest ih =>
    simp only [List.all_cons, Bool.and_eq_true, decide_eq_true_eq] at h
    rw [List.map_cons, Nat.mod_eq_of_lt h.1, ih h.2]

theorem map_loaded_const_eq (cs : List duk_const) (h : cs.all const_value_ok = true) :
    cs.map loaded_const = cs := by
  induction cs with
  | nil => rfl
  | cons c rest ih =>
    rw [List.all_cons, Bool.and_eq_true] at h
    rw [List.map_cons, ih h.2]
    cases c with
    | string s => rfl
    | number d =>
      simp only [const_value_ok, Bool.and_eq_true, decide_eq_true_eq] at h
      simp only [loaded_const, Nat.mod_eq_of_lt h.1.1, Nat.mod_eq_of_lt h.1.2]

mutual

/-- The image of a canonical function agrees with the function. -/
theorem agrees_loaded (cfg : Config) :
    ∀ fn : duk_hcompiledfunction, canonical cfg fn = true → Agrees fn (loaded cfg fn)
  | .mk nregs nargs start_line end_line flags code consts funcs props, h => by
    simp only [canonical, Bool.and_eq_true, decide_eq_true_eq] at h
    obtain ⟨⟨⟨⟨⟨⟨h1, h2⟩, h3⟩, h4⟩, h5⟩, h6⟩, h7⟩ := h
    obtain ⟨p1, p2, p3, p4, p5, p6⟩ := loaded_props_eq cfg nargs flags props h7
    simp only [loaded, Agrees]
    exact ⟨Nat.mod_eq_of_lt h1, Nat.mod_eq_of_lt h2, Nat.mod_eq_of_lt h3, map_mod_eq code h4,
      map_loaded_const_eq consts h5, agrees_loaded_list cfg funcs h6, p1, p2, p3, p4, p5, p6⟩

theorem agrees_loaded_list (cfg : Config) :
    ∀ fs : List duk_hcompiledfunction, canonical_list cfg fs = true →
      AgreesList fs (loaded_list cfg fs)
  | [], _ => by simp only [loaded_list, AgreesList]
  | fn :: rest, h => by
    simp only [canonical_list, Bool.and_eq_true] at h
    simp only [loaded_list, AgreesList]
    exact ⟨agrees_loaded cfg fn h.1, agrees_loaded_list cfg rest h.2⟩

end

/-- C1 as stated fails for a function with an empty formal name (all else as
in `func_sample`, for which the round trip holds): the dump is the reference
blob, the load succeeds, and the loaded function has no formals at all. -/
theorem round_trip_fails_on_empty_name :
    duk_dump_function host_le func_empty_formal = .ok (Spec.Blob host_le func_empty_formal)
      ∧ (duk_load_function host_le (Spec.Blob host_le func_empty_formal) []).toOption.map
          (fun fn => fn.props.formals) = some (some (.object { e_part := [], a_part := [] }))
      ∧ func_empty_formal.props.formals
          = some (.object { e_part := [], a_part := [some [], some [0x79]] }) := by
  decide!

/-- C1 (amended). Round trip: on a little-endian build, when the host grows
the dynamic buffer in place or the function tree has no var-map entry and no
formal, for every compiled function F whose counts, lengths and scalars fit
their fields, whose var-map keys and formal names are non-empty, and whose
properties have the shape the loader gives them, `duk_load_function` applied
to the blob produced by `duk_dump_function` succeeds and yields F' with the
same `nregs`, `nargs`, flags, instruction sequence, constant pool, recursively
agreeing inner functions, and equal `length`, `name`, `fileName`, line map,
variable map and formals. -/
theorem round_trip (cfg : Config) (fn : duk_hcompiledfunction) (beyond : List Nat)
    (hle : cfg.integer_be = false) (hloc : InPlace cfg ∨ var_free fn = true)
    (hsz : sizes_ok fn = true) (hb : burst_ok fn = true) (hnm : names_ok fn = true)
    (hcan : canonical cfg fn = true) :
    ∃ blob fn', duk_dump_function cfg fn = .ok blob
      ∧ duk_load_function cfg blob beyond = .ok fn' ∧ Agrees fn fn' :=
  ⟨Spec.Blob cfg fn, loaded cfg fn,
    dump_function_spec cfg hle 1024 (by norm_num) fn hloc hsz hb,
    load_function_blob cfg fn beyond hsz hnm, agrees_loaded cfg fn hcan⟩

/-- C1 (amended), at `func_sample` on a host that resizes in place. -/
theorem round_trip_witness :
    ∃ blob fn', duk_dump_function host_inplace func_sample = .ok blob
      ∧ duk_load_function host_inplace blob [1, 2, 3] = .ok fn' ∧ Agrees func_sample fn' :=
  round_trip host_inplace func_sample [1, 2, 3] rfl (Or.inl fun _ _ _ => rfl) (by decide)
    (by decide) (by decide) (by decide)

/-! ### Defects: the big-endian instruction copy and the dropped cursor -/

/-- C2, at the failing input: on a big-endian build `duk_dump_function` of a
function with the single instruction 0x01020304 returns a blob with one
instruction byte where the reference serialisation has four. -/
theorem dump_be_short_instructions :
    duk_dump_function host_be func_one_instr
        = .ok ([0xFF, 0x00,
                0, 0, 0, 1,  0, 0, 0, 0,  0, 0, 0, 0,  0, 1,  0, 0,  0, 0, 0, 0,  0, 0, 0, 0,
                0, 0, 0, 0,
                1,
                0, 0, 0, 0,  0, 0, 0, 0,  0, 0, 0, 0,  0, 0, 0, 0,  0, 0, 0, 0,  0, 0, 0, 0])
      ∧ Spec.Blob host_be func_one_instr
        = [0xFF, 0x00,
           0, 0, 0, 1,  0, 0, 0, 0,  0, 0, 0, 0,  0, 1,  0, 0,  0, 0, 0, 0,  0, 0, 0, 0,
           0, 0, 0, 0,
           1, 2, 3, 4,
           0, 0, 0, 0,  0, 0, 0, 0,  0, 0, 0, 0,  0, 0, 0, 0,  0, 0, 0, 0,  0, 0, 0, 0] := by
  decide!

/-- C7, at the failing input: for the one-word instruction array
`[0x01020304]` the big-endian build of the dump stores one byte and advances
the cursor by one, the little-endian build stores the four bytes and advances
by four, and the big-endian build of the loader takes four bytes per word. -/
theorem instrs_be_copies_count_bytes :
    duk__dump_func_instrs host_be [0x01020304] ⟨4096, [0, 0, 0, 0]⟩ 4096
        = .ok (⟨4096, [1, 0, 0, 0]⟩, 4097)
      ∧ duk__dump_func_instrs host_le [0x01020304] ⟨4096, [0, 0, 0, 0]⟩ 4096
        = .ok (⟨4096, [1, 2, 3, 4]⟩, 4100)
      ∧ duk__load_func_instrs host_be [1, 2, 3, 4] 1 0 = .ok ([0x01020304], 4)
      ∧ duk__load_func_instrs host_le [1, 2, 3, 4] 1 0 = .ok ([0x01020304], 4) := by
  decide

/-- C8, at the failing input: the serialisation of `func_growth` is 1038 bytes
long; with a 4096-byte buffer `duk_dump_function` returns the reference blob,
with its 1024-byte buffer on a host whose allocator moves the block the run
ends in a store outside the buffer and no blob is returned. -/
theorem growth_with_relocation_faults :
    (Spec.Blob host_le func_growth).length = 1038
      ∧ duk_dump_function_sized host_le 4096 func_growth = .ok (Spec.Blob host_le func_growth)
      ∧ duk_dump_function host_le func_growth = .error .out_of_bounds := by
  decide!

/-- C9, at the failing input: when the formals loop is entered with the cursor
at the end of the 1024-byte buffer, `DUK_BW_ENSURE` for the five bytes of the
entry moves the buffer to 9216 and evaluates to the cursor 10240, but the
loop stores through the cursor 5120 it held before, outside the buffer; so
the dump of `func_growth_formals` ends in a store outside the buffer. -/
theorem store_outside_ensured_space :
    (DUK_BW_ENSURE host_le writer_1024 5 5120).toOption.map
        (fun r => (r.1.buf.data_ptr, r.1.limit, r.2)) = some (9216, 11269, 10240)
      ∧ duk__dump_formals_loop host_le [some [0x78]] writer_1024 5120 = .error .out_of_bounds
      ∧ duk_dump_function host_le func_growth_formals = .error .out_of_bounds := by
  decide!


/-! ### Double encoding -/

/-- C11. Double encoding is bit-exact.  For every double pattern `du` (two
32-bit halves), buffer and cursor `p` with eight bytes of room,
`duk__write_double` returns the cursor `p + 8`; the buffer, which keeps its
place, its length and the bytes before the cursor, then holds at the cursor's
offset the big-endian encoding of `ui0` followed by that of `ui1`; and
`duk__read_double` on any memory holding these eight bytes at an index `q`
(the written buffer at the cursor's offset among them) returns `du` itself and
the cursor `q + 8`. -/
theorem double_bit_exact (cfg : Config) (h : duk_hbuffer_dynamic) (p : Nat)
    (du : duk_double_union) (hbase : h.data_ptr ≤ p)
    (hroom : p + 8 ≤ h.data_ptr + h.bytes.length)
    (h0 : du.ui0 < 4294967296) (h1 : du.ui1 < 4294967296) :
    ∃ h', duk__write_double cfg h p du = .ok (h', p + 8)
      ∧ h'.data_ptr = h.data_ptr ∧ h'.bytes.length = h.bytes.length
      ∧ h'.bytes.take (p - h.data_ptr) = h.bytes.take (p - h.data_ptr)
      ∧ At h'.bytes (p - h.data_ptr) (Spec.u32 du.ui0 ++ Spec.u32 du.ui1)
      ∧ duk__read_double cfg h'.bytes (p - h.data_ptr) = .ok (du, p - h.data_ptr + 8)
      ∧ ∀ (mem : List Nat) (q : Nat), At mem q (Spec.u32 du.ui0 ++ Spec.u32 du.ui1) →
          duk__read_double cfg mem q = .ok (du, q + 8) := by
  have hrd : ∀ (mem : List Nat) (q : Nat), At mem q (Spec.u32 du.ui0 ++ Spec.u32 du.ui1) →
      duk__read_double cfg mem q = .ok (du, q + 8) := by
    intro mem q hq
    have e := read_double_at cfg mem q du hq
    rw [Nat.mod_eq_of_lt h0, Nat.mod_eq_of_lt h1] at e
    exact e
  have hlen : (h.bytes.take (p - h.data_ptr)).length = p - h.data_ptr := by
    rw [List.length_take]; omega
  have hi : BInv h p (h.bytes.take (p - h.data_ptr)) :=
    ⟨by rw [hlen]; omega, h.bytes.drop (p - h.data_ptr), (List.take_append_drop _ _).symm⟩
  obtain ⟨h', e, ⟨_, rest, hb⟩, hd, hl⟩ := writesB_double cfg du h p _ hi
    (by simp only [Spec.Double, List.length_append, u32_length]; omega)
  have hat : At h'.bytes (p - h.data_ptr) (Spec.u32 du.ui0 ++ Spec.u32 du.ui1) := by
    have h2 := ((at_append h'.bytes 0 (h.bytes.take (p - h.data_ptr)) (Spec.Double du)).1
      (hb ▸ at_zero_append _ rest)).2
    rw [hlen, Nat.zero_add] at h2
    exact h2
  refine ⟨h', ?_, hd, hl, ?_, hat, hrd _ _ hat, hrd⟩
  · simpa only [Spec.Double, List.length_append, u32_length] using e
  · rw [hb, List.append_assoc, List.take_append_eq_append_take, hlen, Nat.sub_self]
    simp [hlen]

/-- C11, at the pattern `3FF80000 00000001` written at offset 1 of a ten-byte buffer. -/
theorem double_bit_exact_witness :
    ∃ h', duk__write_double host_le ⟨4096, [9, 0, 0, 0, 0, 0, 0, 0, 0, 7]⟩ 4097
          { ui0 := 0x3FF80000, ui1 := 0x00000001 } = .ok (h', 4097 + 8)
      ∧ h'.data_ptr = 4096 ∧ h'.bytes.length = 10
      ∧ h'.bytes.take (4097 - 4096) = [9]
      ∧ At h'.bytes (4097 - 4096) (Spec.u32 0x3FF80000 ++ Spec.u32 0x00000001)
      ∧ duk__read_double host_le h'.bytes (4097 - 4096)
          = .ok ({ ui0 := 0x3FF80000, ui1 := 0x00000001 }, 4097 - 4096 + 8)
      ∧ ∀ (mem : List Nat) (q : Nat),
          At mem q (Spec.u32 0x3FF80000 ++ Spec.u32 0x00000001) →
          duk__read_double host_le mem q
            = .ok ({ ui0 := 0x3FF80000, ui1 := 0x00000001 }, q + 8) :=
  double_bit_exact host_le ⟨4096, [9, 0, 0, 0, 0, 0, 0, 0, 0, 7]⟩ 4097
    { ui0 := 0x3FF80000, ui1 := 0x00000001 } (by decide) (by decide) (by decide) (by decide)


/-! ### The buffer writer -/

theorem ptr_offset_ok (h : duk_hbuffer_dynamic) (p : Nat) (hbase : h.data_ptr ≤ p)
    (hp : p ≤ h.data_ptr + h.bytes.length) : ptr_offset h p = .ok (p - h.data_ptr) := by
  unfold ptr_offset
  rw [if_pos ⟨hbase, hp⟩]

/-- C16. Ensure slow path.  For every writer whose `length` and `limit`
describe its buffer, cursor `p` in the buffer at logical offset
`o = p - base` and request `n` for which the fast-path test `p + n ≤ limit`
fails, `DUK_BW_ENSURE` is `duk_bw_resize`, which resizes the buffer to exactly
`o + n + 1024` bytes (at the address the allocator gives, keeping the bytes
before the cursor), sets `length` to that size and `limit` to the new base
plus `length`, leaves `offset` alone and returns the new base plus `o`; from
the returned cursor exactly `n + 1024` bytes are writable, and the new length
is strictly larger than the old one. -/
theorem ensure_slow_path (cfg : Config) (bw_ctx : duk_bufwriter_ctx) (n p : Nat)
    (hbase : bw_ctx.buf.data_ptr ≤ p) (hp : p ≤ bw_ctx.buf.data_ptr + bw_ctx.buf.bytes.length)
    (hlen : bw_ctx.length = bw_ctx.buf.bytes.length)
    (hlim : bw_ctx.limit = bw_ctx.buf.data_ptr + bw_ctx.length)
    (hslow : ¬ p + n ≤ bw_ctx.limit) :
    ∃ bw' p', DUK_BW_ENSURE cfg bw_ctx n p = .ok (bw', p')
      ∧ duk_bw_resize cfg bw_ctx n p = .ok (bw', p')
      ∧ bw'.buf.bytes.length = (p - bw_ctx.buf.data_ptr) + n + 1024
      ∧ bw'.buf.data_ptr = cfg.realloc bw_ctx.buf.data_ptr bw_ctx.buf.bytes.length
          ((p - bw_ctx.buf.data_ptr) + n + 1024)
      ∧ bw'.length = (p - bw_ctx.buf.data_ptr) + n + 1024
      ∧ bw'.limit = bw'.buf.data_ptr + bw'.length
      ∧ bw'.offset = bw_ctx.offset
      ∧ p' = bw'.buf.data_ptr + (p - bw_ctx.buf.data_ptr)
      ∧ p' + (n + 1024) = bw'.limit
      ∧ bw'.buf.bytes.take (p - bw_ctx.buf.data_ptr)
          = bw_ctx.buf.bytes.take (p - bw_ctx.buf.data_ptr)
      ∧ bw_ctx.length < bw'.length := by
  have hsz : (duk_hbuffer_resize cfg bw_ctx.buf ((p - bw_ctx.buf.data_ptr) + n + 1024)).bytes.length
      = (p - bw_ctx.buf.data_ptr) + n + 1024 := by
    simp only [duk_hbuffer_resize, List.length_append, List.length_take, List.length_replicate]
    omega
  refine ⟨{ bw_ctx with
      buf := duk_hbuffer_resize cfg bw_ctx.buf ((p - bw_ctx.buf.data_ptr) + n + 1024),
      length := (p - bw_ctx.buf.data_ptr) + n + 1024,
      limit := (duk_hbuffer_resize cfg bw_ctx.buf ((p - bw_ctx.buf.data_ptr) + n + 1024)).data_ptr
        + ((p - bw_ctx.buf.data_ptr) + n + 1024) },
    (duk_hbuffer_resize cfg bw_ctx.buf ((p - bw_ctx.buf.data_ptr) + n + 1024)).data_ptr
      + (p - bw_ctx.buf.data_ptr), ?_, ?_, hsz, rfl, rfl, rfl, rfl, rfl, ?_, ?_, ?_⟩
  · rw [DUK_BW_ENSURE, if_neg hslow, duk_bw_resize, ptr_offset_ok _ _ hbase hp]
    rfl
  · rw [duk_bw_resize, ptr_offset_ok _ _ hbase hp]
    rfl
  · simp only []
    omega
  · simp only [duk_hbuffer_resize]
    rw [List.take_append_of_le_length (by rw [List.length_take]; omega), List.take_take]
    congr 1
    omega
  · simp only []
    omega

/-- C16, at a five-byte buffer, the cursor behind its third byte and a request of 9. -/
theorem ensure_slow_path_witness :
    ∃ bw' p', DUK_BW_ENSURE host_le writer_small 9 4099 = .ok (bw', p')
      ∧ duk_bw_resize host_le writer_small 9 4099 = .ok (bw', p')
      ∧ bw'.buf.bytes.length = (4099 - writer_small.buf.data_ptr) + 9 + 1024
      ∧ bw'.buf.data_ptr = host_le.realloc writer_small.buf.data_ptr
          writer_small.buf.bytes.length ((4099 - writer_small.buf.data_ptr) + 9 + 1024)
      ∧ bw'.length = (4099 - writer_small.buf.data_ptr) + 9 + 1024
      ∧ bw'.limit = bw'.buf.data_ptr + bw'.length
      ∧ bw'.offset = writer_small.offset
      ∧ p' = bw'.buf.data_ptr + (4099 - writer_small.buf.data_ptr)
      ∧ p' + (9 + 1024) = bw'.limit
      ∧ bw'.buf.bytes.take (4099 - writer_small.buf.data_ptr)
          = writer_small.buf.bytes.take (4099 - writer_small.buf.data_ptr)
      ∧ writer_small.length < bw'.length :=
  ensure_slow_path host_le writer_small 9 4099 (by decide) (by decide) (by decide) (by decide)
    (by decide)

/-- C17. Finish and compact.  For every writer whose `length` and `limit`
describe its buffer and every cursor `p` with `base ≤ p ≤ limit`,
`duk_bw_finish` sets `offset` to `p - base` and changes nothing else, so
`offset ≤ length`; `duk_bw_compact` then resizes the buffer to exactly
`offset` bytes, which are the bytes of the buffer before `p`.  When the bytes
before `p` are the bytes `out` emitted so far, the compacted buffer is `out`;
so in `duk_dump_function`, once the signature and `duk__dump_func` have left
the writer and the cursor in such a state, the buffer returned is exactly the
bytes emitted. -/
theorem finish_then_compact (cfg : Config) (bw_ctx : duk_bufwriter_ctx) (p : Nat)
    (hbase : bw_ctx.buf.data_ptr ≤ p) (hp : p ≤ bw_ctx.limit)
    (hlen : bw_ctx.length = bw_ctx.buf.bytes.length)
    (hlim : bw_ctx.limit = bw_ctx.buf.data_ptr + bw_ctx.length) :
    duk_bw_finish bw_ctx p = .ok { bw_ctx with offset := p - bw_ctx.buf.data_ptr }
      ∧ p - bw_ctx.buf.data_ptr ≤ bw_ctx.length
      ∧ (duk_bw_compact cfg { bw_ctx with offset := p - bw_ctx.buf.data_ptr }).buf.bytes
          = bw_ctx.buf.bytes.take (p - bw_ctx.buf.data_ptr)
      ∧ (duk_bw_compact cfg { bw_ctx with offset := p - bw_ctx.buf.data_ptr }).buf.bytes.length
          = p - bw_ctx.buf.data_ptr
      ∧ (∀ out : List Nat, Inv bw_ctx p out →
          (duk_bw_compact cfg { bw_ctx with offset := p - bw_ctx.buf.data_ptr }).buf.bytes = out)
      ∧ (∀ (initial : Nat) (func : duk_hcompiledfunction) (out : List Nat),
          (do
            let (b, q) ← raw (duk_bw_init (duk_push_dynamic_buffer cfg initial)) fun m =>
              DUK__WRITE_U8 m (duk_bw_getptr (duk_bw_init (duk_push_dynamic_buffer cfg initial)))
                DUK__SER_MARKER
            let (b, q) ← raw b fun m => DUK__WRITE_U8 m q DUK__SER_VERSION
            duk__dump_func cfg func b q) = .ok (bw_ctx, p) →
          Inv bw_ctx p out →
          duk_dump_function_sized cfg initial func = .ok out) := by
  have hoff : ptr_offset bw_ctx.buf p = .ok (p - bw_ctx.buf.data_ptr) :=
    ptr_offset_ok _ _ hbase (by omega)
  have hfin : duk_bw_finish bw_ctx p = .ok { bw_ctx with offset := p - bw_ctx.buf.data_ptr } := by
    simp only [duk_bw_finish, hoff, bind, Except.bind, pure, Except.pure]
  have hcomp : (duk_bw_compact cfg { bw_ctx with offset := p - bw_ctx.buf.data_ptr }).buf.bytes
      = bw_ctx.buf.bytes.take (p - bw_ctx.buf.data_ptr) := by
    have hle : p - bw_ctx.buf.data_ptr ≤ bw_ctx.buf.bytes.length := by omega
    simp only [duk_bw_compact, duk_hbuffer_resize]
    rw [Nat.sub_eq_zero_of_le hle]
    simp
  have hout : ∀ out : List Nat, Inv bw_ctx p out →
      (duk_bw_compact cfg { bw_ctx with offset := p - bw_ctx.buf.data_ptr }).buf.bytes = out := by
    intro out hi
    obtain ⟨⟨hq, rest, hb⟩, _⟩ := hi
    rw [hcomp, hb]
    have e : p - bw_ctx.buf.data_ptr = out.length := by omega
    rw [e, List.take_left']
    rfl
  refine ⟨hfin, by omega, hcomp, ?_, hout, ?_⟩
  · rw [hcomp, List.length_take]
    omega
  · intro initial func out hrun hi
    have e := hout out hi
    simp only [bind, Except.bind, pure, Except.pure] at hrun
    simp only [duk_dump_function_sized, bind, Except.bind, pure, Except.pure]
    revert hrun
    cases raw (duk_bw_init (duk_push_dynamic_buffer cfg initial)) (fun m =>
        DUK__WRITE_U8 m (duk_bw_getptr (duk_bw_init (duk_push_dynamic_buffer cfg initial)))
          DUK__SER_MARKER) with
    | error x => intro hrun; cases hrun
    | ok r1 =>
      obtain ⟨b1, q1⟩ := r1
      simp only []
      cases raw b1 (fun m => DUK__WRITE_U8 m q1 DUK__SER_VERSION) with
      | error x => intro hrun; cases hrun
      | ok r2 =>
        obtain ⟨b2, q2⟩ := r2
        simp only []
        intro hrun
        rw [hrun]
        simp only [hfin, e]

/-- C17, at a five-byte buffer and the cursor behind its third byte. -/
theorem finish_then_compact_witness :
    duk_bw_finish writer_small 4099
        = .ok { writer_small with offset := 4099 - writer_small.buf.data_ptr }
      ∧ 4099 - writer_small.buf.data_ptr ≤ writer_small.length
      ∧ (duk_bw_compact host_le
            { writer_small with offset := 4099 - writer_small.buf.data_ptr }).buf.bytes
          = writer_small.buf.bytes.take (4099 - writer_small.buf.data_ptr)
      ∧ (duk_bw_compact host_le
            { writer_small with offset := 4099 - writer_small.buf.data_ptr }).buf.bytes.length
          = 4099 - writer_small.buf.data_ptr :=
  have h := finish_then_compact host_le writer_small 4099
    (by decide) (by decide) (by decide) (by decide)
  ⟨h.1, h.2.1, h.2.2.1, h.2.2.2.1⟩


theorem writer_ok_init (h_buf : duk_hbuffer_dynamic) : WriterOk (duk_bw_init h_buf) :=
  ⟨rfl, rfl⟩

theorem writer_ok_resize (cfg : Config) (bw_ctx : duk_bufwriter_ctx) (sz ptr : Nat)
    (bw' : duk_bufwriter_ctx) (p' : Nat)
    (h : duk_bw_resize cfg bw_ctx sz ptr = .ok (bw', p')) : WriterOk bw' := by
  unfold duk_bw_resize at h
  cases ho : ptr_offset bw_ctx.buf ptr with
  | error e => rw [ho] at h; cases h
  | ok o =>
    rw [ho] at h
    simp only [bind, Except.bind, pure, Except.pure, Except.ok.injEq, Prod.mk.injEq] at h
    obtain ⟨rfl, _⟩ := h
    refine ⟨?_, rfl⟩
    simp only [duk_hbuffer_resize, List.length_append, List.length_take, List.length_replicate]
    omega

theorem writer_ok_finish (bw_ctx : duk_bufwriter_ctx) (ptr : Nat) (bw' : duk_bufwriter_ctx)
    (hok : WriterOk bw_ctx) (h : duk_bw_finish bw_ctx ptr = .ok bw') : WriterOk bw' := by
  unfold duk_bw_finish at h
  cases ho : ptr_offset bw_ctx.buf ptr with
  | error e => rw [ho] at h; cases h
  | ok o =>
    rw [ho] at h
    simp only [bind, Except.bind, pure, Except.pure, Except.ok.injEq] at h
    subst h
    exact hok

/-- C20, evaluated.  On `host_le`, a writer initialised on an eight-byte
buffer satisfies the invariant (`length` is the allocated size, `limit` is
base plus `length`), and so it does after the resize slow path and after
`duk_bw_finish`.  After `duk_bw_compact` (two bytes committed) the buffer has
two bytes and has moved to 13331, while `length` is still 1035 and `limit`
still 9235: the invariant does not hold.  It does not hold on a host that
resizes in place either (`length` 1035, allocated size 2). -/
theorem compact_leaves_length_and_limit :
    WriterOk writer_8
      ∧ (duk_bw_resize host_le writer_8 9 4098).toOption.map (fun r => decide (WriterOk r.1))
          = some true
      ∧ ((duk_bw_resize host_le writer_8 9 4098).toOption.bind fun r =>
          (duk_bw_finish r.1 r.2).toOption.map fun b => decide (WriterOk b)) = some true
      ∧ ((duk_bw_resize host_le writer_8 9 4098).toOption.bind fun r =>
          (duk_bw_finish r.1 r.2).toOption.map fun b =>
            ((duk_bw_compact host_le b).buf.data_ptr, (duk_bw_compact host_le b).buf.bytes.length,
              (duk_bw_compact host_le b).length, (duk_bw_compact host_le b).limit,
              decide (WriterOk (duk_bw_compact host_le b))))
          = some (13331, 2, 1035, 9235, false)
      ∧ ((duk_bw_resize host_inplace writer_8 9 4098).toOption.bind fun r =>
          (duk_bw_finish r.1 r.2).toOption.map fun b =>
            ((duk_bw_compact host_inplace b).buf.data_ptr,
              (duk_bw_compact host_inplace b).buf.bytes.length,
              (duk_bw_compact host_inplace b).length, (duk_bw_compact host_inplace b).limit,
              decide (WriterOk (duk_bw_compact host_inplace b))))
          = some (4096, 2, 1035, 5131, false) := by
  refine ⟨by decide, ?_, ?_, ?_, ?_⟩ <;> decide!


/-! ### The length field -/

/-- C14. Length field rule.  From every state of a dump in progress,
`duk__dump_uint32_prop` for `length` with default `n_args` (the first step of
the properties block of `duk__dump_func`) emits exactly four bytes: the
big-endian `u32` of the function's `length` property converted to `u32` when
that property exists and is a number, and of `n_args` when the property is
absent or is not a number. -/
theorem length_field_rule (cfg : Config) (nargs : Nat) (props : duk_props)
    (bw_ctx : duk_bufwriter_ctx) (p : Nat) (out : List Nat) (hi : Inv bw_ctx p out) :
    ∃ bw' p' xs,
      duk__dump_uint32_prop cfg p bw_ctx props .LENGTH (nargs % 4294967296) = .ok (bw', p')
      ∧ Inv bw' p' (out ++ xs) ∧ xs.length = 4
      ∧ (∀ d, props.length = some (.number d) → xs = Spec.u32 (cfg.dbl_to_u32 d % 4294967296))
      ∧ (props.length = none → xs = Spec.u32 nargs)
      ∧ ((∀ d, props.length ≠ some (.number d)) → xs = Spec.u32 nargs)
      ∧ duk__dump_func_props cfg nargs props bw_ctx p
          = (do
            let (b, q) ← duk__dump_string_prop cfg p' bw' props .NAME
            let (b, q) ← duk__dump_string_prop cfg q b props .FILE_NAME
            let (b, q) ← duk__dump_buffer_prop cfg q b props .INT_PC2LINE
            let (b, q) ← duk__dump_varmap cfg q b props
            duk__dump_formals cfg q b props) := by
  obtain ⟨bw', p', e, hi'⟩ := dumps_uint32_prop cfg nargs props bw_ctx p out hi
  have hother : (∀ d, props.length ≠ some (.number d)) →
      Spec.u32 (Spec.length_field cfg nargs props) = Spec.u32 nargs := by
    intro hn
    unfold Spec.length_field
    split
    · rename_i d hd
      exact absurd hd (hn d)
    · rfl
  refine ⟨bw', p', Spec.u32 (Spec.length_field cfg nargs props), e, hi', u32_length _, ?_,
    ?_, hother, ?_⟩
  · intro d hd
    simp only [Spec.length_field, hd, u32_mod]
  · intro hn
    exact hother (fun d hd => by rw [hn] at hd; cases hd)
  · simp only [duk__dump_func_props, e, bind, Except.bind]

/-- C14, at properties whose `length` is the number 2, on a big-endian build. -/
theorem length_field_rule_witness :
    ∃ bw' p' xs,
      duk__dump_uint32_prop host_be 4099 writer_small sample_props .LENGTH (7 % 4294967296)
        = .ok (bw', p')
      ∧ Inv bw' p' ([1, 2, 3] ++ xs) ∧ xs.length = 4
      ∧ (∀ d, sample_props.length = some (.number d) →
          xs = Spec.u32 (host_be.dbl_to_u32 d % 4294967296))
      ∧ (sample_props.length = none → xs = Spec.u32 7)
      ∧ ((∀ d, sample_props.length ≠ some (.number d)) → xs = Spec.u32 7)
      ∧ duk__dump_func_props host_be 7 sample_props writer_small 4099
          = (do
            let (b, q) ← duk__dump_string_prop host_be p' bw' sample_props .NAME
            let (b, q) ← duk__dump_string_prop host_be q b sample_props .FILE_NAME
            let (b, q) ← duk__dump_buffer_prop host_be q b sample_props .INT_PC2LINE
            let (b, q) ← duk__dump_varmap host_be q b sample_props
            duk__dump_formals host_be q b sample_props) :=
  length_field_rule host_be 7 sample_props writer_small 4099 [1, 2, 3]
    ⟨⟨rfl, [0, 0], rfl⟩, rfl⟩

/-! ### The cursor across an ensure -/

/-- C19, evaluated.  On `host_le` (the allocator moves a block when it is
resized), with the cursor 4104 at the end of the eight-byte buffer at 4096:
the ensure of the var-map loop (line 291) moves the buffer to 8200 and returns
the cursor 8208, but the loop goes on with the cursor 4104 and its first store
is outside the writer's buffer; the same holds for `duk__dump_varmap` as a
whole.  `duk__dump_string_prop`, which assigns the value of the ensure to the
cursor, writes the same string from the same state and returns the cursor
8213.  Where the block is resized in place the loop returns 4113. -/
theorem varmap_loop_keeps_stale_cursor :
    (DUK_BW_ENSURE host_le writer_8 9 4104).toOption.map
        (fun r => (r.1.buf.data_ptr, r.1.limit, r.2)) = some (8200, 9241, 8208)
      ∧ duk__dump_varmap_loop host_le [([0x78], { ui0 := 0, ui1 := 1 })] writer_8 4104
          = .error .out_of_bounds
      ∧ duk__dump_varmap host_le 4104 writer_8 props_x = .error .out_of_bounds
      ∧ cursor_of (duk__dump_string_prop host_le 4104 writer_8 props_x .NAME) = some 8213
      ∧ cursor_of (duk__dump_varmap_loop host_inplace [([0x78], { ui0 := 0, ui1 := 1 })]
          writer_8 4104) = some 4113 := by
  refine ⟨?_, ?_, ?_, ?_, ?_⟩ <;> decide!


/-! ### What the dump emits on either byte order -/

theorem emitted_instrs_length (cfg : Config) (code : List Nat) :
    (Emitted.Instrs cfg code).length ≤ 4 * code.length := by
  unfold Emitted.Instrs
  split
  · rw [List.length_take]
    omega
  · rw [Instrs_length]

theorem flatMap_b32_length (cfg : Config) (code : List Nat) :
    (code.flatMap (union_b32 cfg)).length = 4 * code.length := by
  induction code with
  | nil => rfl
  | cons w code ih =>
    rw [List.flatMap_cons, List.length_append, ih, List.length_cons]
    have : (union_b32 cfg w).length = 4 := by
      unfold union_b32
      split <;> rfl
    omega

theorem writesB_instrs_emitted (cfg : Config) (code : List Nat) :
    WritesB (fun h p => duk__dump_func_instrs cfg code h p) (Emitted.Instrs cfg code) := by
  cases hbe : cfg.integer_be with
  | false =>
    exact (writesB_instrs cfg hbe code).wcongr (fun m p => rfl)
      (by simp only [Emitted.Instrs, hbe, Bool.false_eq_true, if_false])
  | true =>
    have hlen : ((code.flatMap (union_b32 cfg)).take code.length).length = code.length := by
      rw [List.length_take, flatMap_b32_length]
      omega
    exact (writesB_store ((code.flatMap (union_b32 cfg)).take code.length)).wcongr
      (fun m p => by simp only [duk__dump_func_instrs, hbe, if_true, hlen])
      (by simp only [Emitted.Instrs, hbe, if_true])

mutual

/-- On either byte order `duk__dump_func` emits `Emitted.Func` (the host
resizing in place, or the function tree having no var-map entry and no formal
name). -/
theorem emits_func (cfg : Config) :
    ∀ fn : duk_hcompiledfunction, (InPlace cfg ∨ var_free fn = true) → sizes_ok fn = true →
      burst_ok fn = true → Dumps (duk__dump_func cfg fn) (Emitted.Func cfg fn)
  | .mk nregs nargs start_line end_line flags code consts funcs props, hloc, hsz, hb => by
    simp only [sizes_ok, burst_ok, Bool.and_eq_true, decide_eq_true_eq] at hsz hb
    obtain ⟨⟨⟨⟨⟨s1, s2⟩, s3⟩, s4⟩, s5⟩, s6⟩ := hsz
    have hl1 : InPlace cfg ∨ var_free_list funcs = true := by
      obtain h | h := hloc
      · exact Or.inl h
      · simp only [var_free, Bool.and_eq_true] at h; exact Or.inr h.1
    have hl2 : InPlace cfg ∨ props_var_free props = true := by
      obtain h | h := hloc
      · exact Or.inl h
      · simp only [var_free, Bool.and_eq_true] at h; exact Or.inr h.2
    have hreq : (3 * 4 + 2 * 2 + 3 * 4 + code.length * 4) % 4294967296
        = 28 + 4 * code.length := by omega
    have hrest := (dumps_consts cfg consts s4).dseq ((emits_funcs cfg funcs hl1 s5 hb.2).dseq
      (dumps_props cfg nargs props hl2 s6))
    have hil := emitted_instrs_length cfg code
    intro bw p out hi
    obtain ⟨bw1, p1, e1, hi1, hr1⟩ := ensure_inv cfg bw (28 + 4 * code.length) p out hi
    obtain ⟨bw2, e2, hi2, hlim2⟩ := raw_writes
      (writesB_header cfg nregs nargs start_line end_line flags code.length consts.length
        funcs.length) bw1 p1 out hi1 (by simp only [Header_length]; omega)
    obtain ⟨bw3, e3, hi3, -⟩ := raw_writes (writesB_instrs_emitted cfg code) bw2 _ _ hi2
      (by simp only [Header_length]; omega)
    obtain ⟨bw4, p4, e4, hi4⟩ := hrest bw3 _ _ hi3
    have ea : DUK_ASSERT cfg (decide True) = .ok () := assert_ok cfg _ (by simp)
    refine ⟨bw4, p4, ?_, ?_⟩
    · rw [duk__dump_func]
      simp only [Nat.mod_eq_of_lt s1, Nat.mod_eq_of_lt s2, Nat.mod_eq_of_lt s3, hreq, e1, bind,
        Except.bind, e2, ea, e3]
      simpa only [bind, Except.bind] using e4
    · simpa only [Emitted.Func, List.append_assoc] using hi4

/-- The inner-function loop emits `Emitted.Funcs`. -/
theorem emits_funcs (cfg : Config) :
    ∀ fs : List duk_hcompiledfunction, (InPlace cfg ∨ var_free_list fs = true) →
      sizes_ok_list fs = true → burst_ok_list fs = true →
      Dumps (duk__dump_func_funcs cfg fs) (Emitted.Funcs cfg fs)
  | [], _, _, _ => dumps_nil.dcongr (fun bw p => by simp only [duk__dump_func_funcs])
      (by simp only [Emitted.Funcs])
  | fn :: rest, hloc, hsz, hb => by
    simp only [sizes_ok_list, burst_ok_list, Bool.and_eq_true] at hsz hb
    have hl1 : InPlace cfg ∨ var_free fn = true := by
      obtain h | h := hloc
      · exact Or.inl h
      · simp only [var_free_list, Bool.and_eq_true] at h; exact Or.inr h.1
    have hl2 : InPlace cfg ∨ var_free_list rest = true := by
      obtain h | h := hloc
      · exact Or.inl h
      · simp only [var_free_list, Bool.and_eq_true] at h; exact Or.inr h.2
    exact ((emits_func cfg fn hl1 hsz.1 hb.1).dseq
      (emits_funcs cfg rest hl2 hsz.2 hb.2)).dcongr
      (fun bw p => by simp only [duk__dump_func_funcs, bind, Except.bind])
      (by simp only [Emitted.Funcs])

end

/-- On either byte order `duk_dump_function` (started with a buffer of at
least the two signature bytes) returns the signature followed by
`Emitted.Func`. -/
theorem dump_function_emitted (cfg : Config) (initial : Nat)
    (h2 : 2 ≤ initial) (fn : duk_hcompiledfunction)
    (hloc : InPlace cfg ∨ var_free fn = true) (hsz : sizes_ok fn = true)
    (hb : burst_ok fn = true) :
    duk_dump_function_sized cfg initial fn = .ok (0xFF :: 0x00 :: Emitted.Func cfg fn) := by
  have hi0 : Inv (duk_bw_init (duk_push_dynamic_buffer cfg initial))
      (duk_bw_getptr (duk_bw_init (duk_push_dynamic_buffer cfg initial))) [] :=
    ⟨⟨rfl, _, rfl⟩, rfl⟩
  have hlim : (duk_bw_init (duk_push_dynamic_buffer cfg initial)).limit
      = duk_bw_getptr (duk_bw_init (duk_push_dynamic_buffer cfg initial)) + initial := by
    simp [duk_bw_init, duk_push_dynamic_buffer, duk_bw_getptr]
  obtain ⟨bw1, e1, hi1, hl1⟩ := raw_writes (writesB_u8 DUK__SER_MARKER) _ _ _ hi0
    (by rw [hlim]; simp only [List.length_singleton]; omega)
  obtain ⟨bw2, e2, hi2, hl2⟩ := raw_writes (writesB_u8 DUK__SER_VERSION) _ _ _ hi1
    (by rw [hl1, hlim]; simp only [List.length_singleton]; omega)
  obtain ⟨bw3, p3, e3, hi3⟩ := emits_func cfg fn hloc hsz hb _ _ _ hi2
  obtain ⟨bw4, e4, hc⟩ := finish_compact cfg bw3 p3 _ hi3
  simp only [List.length_singleton] at e1 e2 e3
  simp only [duk_dump_function_sized, e1, e2, e3, e4, bind, Except.bind, pure, Except.pure, hc]
  rfl


/-! ### The terminators and the empty function -/

/-- C12. Terminator handling.  For every compiled function with no var-map
entry and no string in its formals array (the property absent, not an object,
or an object without such entries), `duk__dump_varmap` followed by
`duk__dump_formals` emits, from every state of a dump in progress, exactly
eight zero bytes; and what `duk__dump_func` emits for the function (sizes in
domain; the inner functions without var-map entries and formals, or the host
resizing in place) is the header, the instruction bytes, the constants, the
inner functions, the length field, the name, the file name and the line-map
buffer followed by these eight zero bytes and nothing after them. -/
theorem terminators_end_function (cfg : Config) (nregs nargs start_line end_line flags : Nat)
    (code : List Nat) (consts : List duk_const) (funcs : List duk_hcompiledfunction)
    (props : duk_props)
    (hv : Spec.varmap_entries props.varmap = [])
    (hf : Spec.formals_names props.formals = [])
    (hloc : InPlace cfg ∨ var_free_list funcs = true)
    (hsz : sizes_ok (.mk nregs nargs start_line end_line flags code consts funcs props) = true)
    (hb : burst_ok (.mk nregs nargs start_line end_line flags code consts funcs props) = true) :
    Dumps (fun bw p => do
        let (b, q) ← duk__dump_varmap cfg p bw props
        duk__dump_formals cfg q b props) [0, 0, 0, 0, 0, 0, 0, 0]
      ∧ Dumps (duk__dump_func cfg
          (.mk nregs nargs start_line end_line flags code consts funcs props))
        (Spec.Header cfg code.length consts.length funcs.length nregs nargs start_line end_line
            flags
          ++ Emitted.Instrs cfg code ++ Spec.Consts consts ++ Emitted.Funcs cfg funcs
          ++ Spec.u32 (Spec.length_field cfg nargs props)
          ++ Spec.Str (Spec.string_field props.name)
          ++ Spec.Str (Spec.string_field props.file_name)
          ++ Spec.Buf (Spec.buffer_field props.pc2line)
          ++ [0, 0, 0, 0, 0, 0, 0, 0]) := by
  constructor
  · have h1 := dumps_varmap cfg props (Or.inr hv) (by rw [hv]; rfl)
    have h2 := dumps_formals cfg props (Or.inr hf) (by rw [hf]; rfl)
    exact (h1.dseq h2).dcongr (fun bw p => rfl) (by rw [hv, hf]; rfl)
  · have hvf : InPlace cfg
        ∨ var_free (.mk nregs nargs start_line end_line flags code consts funcs props) = true := by
      obtain h | h := hloc
      · exact Or.inl h
      · refine Or.inr ?_
        simp only [var_free, props_var_free, h, hv, hf, List.isEmpty_nil, Bool.and_self]
    have h := emits_func cfg _ hvf hsz hb
    refine h.dcongr (fun bw p => rfl) ?_
    simp only [Emitted.Func, Spec.Props, hv, hf, List.append_assoc]
    rfl

/-- C12, at a function whose formals array has two unused slots and whose
var-map property is not an object, on a big-endian build. -/
theorem terminators_end_function_witness :
    Dumps (fun bw p => do
        let (b, q) ← duk__dump_varmap host_be p bw func_unused_formals.props
        duk__dump_formals host_be q b func_unused_formals.props) [0, 0, 0, 0, 0, 0, 0, 0]
      ∧ Dumps (duk__dump_func host_be
          (.mk 1 0 0 0 0 [0x01020304] [] [] func_unused_formals.props))
        (Spec.Header host_be [0x01020304].length ([] : List duk_const).length
            ([] : List duk_hcompiledfunction).length 1 0 0 0 0
          ++ Emitted.Instrs host_be [0x01020304] ++ Spec.Consts []
          ++ Emitted.Funcs host_be []
          ++ Spec.u32 (Spec.length_field host_be 0 func_unused_formals.props)
          ++ Spec.Str (Spec.string_field func_unused_formals.props.name)
          ++ Spec.Str (Spec.string_field func_unused_formals.props.file_name)
          ++ Spec.Buf (Spec.buffer_field func_unused_formals.props.pc2line)
          ++ [0, 0, 0, 0, 0, 0, 0, 0]) :=
  terminators_end_function host_be 1 0 0 0 0 [0x01020304] [] [] func_unused_formals.props
    (by decide) (by decide) (Or.inr (by decide)) (by decide) (by decide)

/-- C13. Empty-function scenario.  For the function with no instructions, no
constants, no inner functions, `n_args = 0`, the name `f`, the length 0, no
file name, no line map, no var-map entry and no formal, on every host
`duk_dump_function` returns `FF 00`, the 28-byte header (three zero counts,
`n_regs`, the zero `n_args`, the two line fields, the flags), no
instruction, constant or inner-function bytes, `00 00 00 00` (length),
`00 00 00 01 66` (name), `00 00 00 00` (file name), `00 00 00 00` (line map)
and eight zero bytes (the two terminators): 55 bytes. -/
theorem empty_function_scenario (cfg : Config) (nregs start_line end_line flags : Nat)
    (d : duk_double_union) (props : duk_props)
    (hlen : props.length = some (.number d)) (hd : cfg.dbl_to_u32 d % 4294967296 = 0)
    (hname : props.name = some (.string [0x66])) (hfile : props.file_name = none)
    (hpc : props.pc2line = none)
    (hv : Spec.varmap_entries props.varmap = [])
    (hf : Spec.formals_names props.formals = []) :
    ∃ blob, duk_dump_function cfg (.mk nregs 0 start_line end_line flags [] [] [] props)
        = .ok blob
      ∧ blob = [0xFF, 0x00]
          ++ ([0, 0, 0, 0] ++ [0, 0, 0, 0] ++ [0, 0, 0, 0] ++ Spec.u16 nregs ++ [0, 0]
            ++ Spec.u32 (if cfg.debugger_support then start_line else 0)
            ++ Spec.u32 (if cfg.debugger_support then end_line else 0)
            ++ Spec.u32 flags)
          ++ [0, 0, 0, 0] ++ [0, 0, 0, 1, 0x66] ++ [0, 0, 0, 0] ++ [0, 0, 0, 0]
          ++ [0, 0, 0, 0, 0, 0, 0, 0]
      ∧ blob.length = 2 + 28 + 4 + 5 + 4 + 4 + 8 ∧ blob.length = 55 := by
  have hvf : var_free (.mk nregs 0 start_line end_line flags [] [] [] props) = true := by
    simp only [var_free, var_free_list, props_var_free, hv, hf, List.isEmpty_nil, Bool.and_self]
  have hsz : sizes_ok (.mk nregs 0 start_line end_line flags [] [] [] props) = true := by
    simp [sizes_ok, sizes_ok_list, props_sizes_ok, hname, hfile, hpc, hv, hf,
      Spec.string_field, Spec.buffer_field]
  have hb : burst_ok (.mk nregs 0 start_line end_line flags [] [] [] props) = true := by
    simp [burst_ok, burst_ok_list]
  have e := dump_function_emitted cfg 1024 (by omega) _ (Or.inr hvf) hsz hb
  have hl0 : Spec.u32 (cfg.dbl_to_u32 d) = [0, 0, 0, 0] := by
    rw [← u32_mod, hd]
    rfl
  refine ⟨_, e, ?_, ?_, ?_⟩
  · simp only [Emitted.Func, Emitted.Funcs, Emitted.Instrs, Spec.Instrs, Spec.Consts, Spec.Props,
      Spec.Header, Spec.length_field, hlen, hname, hfile, hpc, hv, hf, hl0, Spec.string_field,
      Spec.buffer_field, List.flatMap_nil, List.length_nil, List.take_nil, ite_self,
      List.append_nil, List.append_assoc]
    rfl
  · simp only [Emitted.Func, Emitted.Funcs, Emitted.Instrs, Spec.Instrs, Spec.Consts, Spec.Props,
      Spec.length_field, hlen, hname, hfile, hpc, hv, hf, hl0, Spec.string_field,
      Spec.buffer_field, List.flatMap_nil, List.length_nil, List.take_nil, ite_self,
      List.append_nil, List.length_cons, List.length_append, Header_length]
    rfl
  · simp only [Emitted.Func, Emitted.Funcs, Emitted.Instrs, Spec.Instrs, Spec.Consts, Spec.Props,
      Spec.length_field, hlen, hname, hfile, hpc, hv, hf, hl0, Spec.string_field,
      Spec.buffer_field, List.flatMap_nil, List.length_nil, List.take_nil, ite_self,
      List.append_nil, List.length_cons, List.length_append, Header_length]
    rfl

/-- C13, at `function f(){}` on a big-endian build with debugger support. -/
theorem empty_function_scenario_witness :
    ∃ blob, duk_dump_function host_be (.mk 0 0 0 0 0 [] [] [] func_empty.props) = .ok blob
      ∧ blob = [0xFF, 0x00]
          ++ ([0, 0, 0, 0] ++ [0, 0, 0, 0] ++ [0, 0, 0, 0] ++ Spec.u16 0 ++ [0, 0]
            ++ Spec.u32 (if host_be.debugger_support then 0 else 0)
            ++ Spec.u32 (if host_be.debugger_support then 0 else 0)
            ++ Spec.u32 0)
          ++ [0, 0, 0, 0] ++ [0, 0, 0, 1, 0x66] ++ [0, 0, 0, 0] ++ [0, 0, 0, 0]
          ++ [0, 0, 0, 0, 0, 0, 0, 0]
      ∧ blob.length = 2 + 28 + 4 + 5 + 4 + 4 + 8 ∧ blob.length = 55 :=
  empty_function_scenario host_be 0 0 0 0 { ui0 := 0, ui1 := 0 } func_empty.props
    rfl (by decide) rfl rfl rfl rfl rfl

/-! ### The formals -/

/-- C15, evaluated.  The formals array holds, in this order, an unused slot,
`x`, an unused slot and `yz`; the cursor 4104 is at the end of the writer's
eight-byte buffer.  Where the block is resized in place `duk__dump_formals`
emits the string `x`, the string `yz` and the zero-length string, in this
order, and nothing for the unused slots (15 bytes).  On `host_le`, where the
allocator moves the block, the ensure of the loop (line 329) moves the buffer
and the string `x` is stored through the old cursor, outside the buffer. -/
theorem formals_dump_skips_unused_slots :
    (duk__dump_formals host_inplace 4104 writer_8 props_formals).toOption.map
        (fun r => ((r.1.buf.bytes.drop 8).take 15, r.2))
      = some ([0, 0, 0, 1, 0x78,  0, 0, 0, 2, 0x79, 0x7A,  0, 0, 0, 0], 4119)
      ∧ Spec.Formals (Spec.formals_names props_formals.formals)
          = [0, 0, 0, 1, 0x78,  0, 0, 0, 2, 0x79, 0x7A,  0, 0, 0, 0]
      ∧ duk__dump_formals host_le 4104 writer_8 props_formals = .error .out_of_bounds := by
  refine ⟨?_, ?_, ?_⟩ <;> decide!


/-! ### Empty names end the list -/

/-- The formals loop of the loader, run on a dumped list of names, stops at
the first empty name. -/
theorem load_formals_prefix (cfg : Config) (mem : List Nat) (names : List (List Nat)) :
    ∀ fuel acc p, names.length < fuel → At mem p (Spec.Formals names) →
      names.all (fun s => decide (s.length < 4294967296)) = true →
      duk__load_func_formals cfg mem fuel acc p
        = .ok (acc ++ (names.takeWhile fun s => decide (s ≠ [])).map some,
            p + ((names.takeWhile fun s => decide (s ≠ [])).flatMap Spec.Str).length + 4) := by
  induction names with
  | nil =>
    intro fuel acc p hf h _
    obtain ⟨fuel, rfl⟩ : ∃ k, fuel = k + 1 := ⟨fuel - 1, by simp at hf; omega⟩
    rw [Formals_nil] at h
    rw [duk__load_func_formals]
    simp [load_string_empty cfg mem p h, bind, Except.bind, pure, Except.pure]
  | cons s rest ih =>
    intro fuel acc p hf h hsz
    obtain ⟨fuel, rfl⟩ : ∃ k, fuel = k + 1 := ⟨fuel - 1, by simp at hf; omega⟩
    rw [Formals_cons, at_append, Str_length] at h
    rw [List.all_cons, Bool.and_eq_true, decide_eq_true_eq] at hsz
    have e1 := load_string_at cfg mem p s hsz.1 h.1
    rw [duk__load_func_formals]
    simp only [e1, bind, Except.bind, pure, Except.pure]
    by_cases hs : s = []
    · subst hs
      simp
    · have hl : s.length ≠ 0 := fun h0 => hs (List.length_eq_zero.mp h0)
      rw [if_neg hl, ih fuel (acc ++ [some s]) (p + 4 + s.length)
        (by simp only [List.length_cons] at hf; omega) (h.2.cast (by omega)) hsz.2]
      simp only [List.takeWhile_cons, hs, ne_eq, not_false_eq_true, decide_True, if_true,
        List.map_cons, List.flatMap_cons, List.length_append, Str_length, List.append_assoc,
        List.singleton_append]
      congr 2
      omega

theorem takeWhile_nonempty_eq (names : List (List Nat)) :
    (names.takeWhile fun s => decide (s ≠ [])) = names ↔ ∀ s ∈ names, s ≠ [] := by
  rw [List.takeWhile_eq_self_iff]
  simp

/-- C25. Empty names act as terminators.  For every formals property (the
host resizing in place, or no string in the array), `duk__dump_formals` emits,
from every state of a dump in progress, bytes from which the formals loop of
the loader (wherever they lie in its input, with a budget of more iterations
than there are names) reads back the longest prefix of the dumped string
entries that contains no empty string, and stops right behind the first
zero-length string; the list read back is the whole list of dumped names
exactly when no dumped name is empty. -/
theorem empty_name_terminates_formals (cfg : Config) (props : duk_props)
    (hloc : InPlace cfg ∨ Spec.formals_names props.formals = [])
    (hsz : (Spec.formals_names props.formals).all
      (fun s => decide (s.length < 4294967296)) = true)
    (bw_ctx : duk_bufwriter_ctx) (p : Nat) (out : List Nat) (hi : Inv bw_ctx p out) :
    ∃ bw' p' xs, duk__dump_formals cfg p bw_ctx props = .ok (bw', p')
      ∧ Inv bw' p' (out ++ xs)
      ∧ (∀ (mem : List Nat) (q fuel : Nat), At mem q xs →
          (Spec.formals_names props.formals).length < fuel →
          duk__load_func_formals cfg mem fuel [] q
            = .ok (((Spec.formals_names props.formals).takeWhile
                  fun s => decide (s ≠ [])).map some,
                q + (((Spec.formals_names props.formals).takeWhile
                  fun s => decide (s ≠ [])).flatMap Spec.Str).length + 4))
      ∧ ((((Spec.formals_names props.formals).takeWhile fun s => decide (s ≠ [])).map some
            = (Spec.formals_names props.formals).map some)
          ↔ ∀ s ∈ Spec.formals_names props.formals, s ≠ []) := by
  obtain ⟨bw', p', e, hi'⟩ := dumps_formals cfg props hloc hsz bw_ctx p out hi
  refine ⟨bw', p', _, e, hi', ?_, ?_⟩
  · intro mem q fuel hat hf
    have := load_formals_prefix cfg mem _ fuel [] q hf hat hsz
    simpa using this
  · rw [← takeWhile_nonempty_eq]
    constructor
    · intro h
      exact List.map_injective_iff.mpr (fun a b hab => Option.some.inj hab) h
    · intro h
      rw [h]

/-- C25, at the formals `""`, `y`. -/
theorem empty_name_terminates_formals_witness :
    ∃ bw' p' xs, duk__dump_formals host_inplace 4099 writer_small func_empty_formal.props
        = .ok (bw', p')
      ∧ Inv bw' p' ([1, 2, 3] ++ xs)
      ∧ (∀ (mem : List Nat) (q fuel : Nat), At mem q xs →
          (Spec.formals_names func_empty_formal.props.formals).length < fuel →
          duk__load_func_formals host_inplace mem fuel [] q
            = .ok (((Spec.formals_names func_empty_formal.props.formals).takeWhile
                  fun s => decide (s ≠ [])).map some,
                q + (((Spec.formals_names func_empty_formal.props.formals).takeWhile
                  fun s => decide (s ≠ [])).flatMap Spec.Str).length + 4))
      ∧ ((((Spec.formals_names func_empty_formal.props.formals).takeWhile
              fun s => decide (s ≠ [])).map some
            = (Spec.formals_names func_empty_formal.props.formals).map some)
          ↔ ∀ s ∈ Spec.formals_names func_empty_formal.props.formals, s ≠ []) :=
  empty_name_terminates_formals host_inplace func_empty_formal.props
    (Or.inl (fun _ _ _ => rfl)) (by decide) writer_small 4099 [1, 2, 3]
    ⟨⟨rfl, [0, 0], rfl⟩, rfl⟩


/-! ### The loader on a longer input -/

theorem bind_ok_iff {α β : Type} (x : Except duk_fault α) (f : α → Except duk_fault β) (b : β) :
    (x >>= f) = .ok b ↔ ∃ a, x = .ok a ∧ f a = .ok b := by
  cases x with
  | error e => simp [bind, Except.bind]
  | ok a => simp [bind, Except.bind]

theorem bind_ne_fuel {α β : Type} (x : Except duk_fault α) (f : α → Except duk_fault β)
    (hx : x ≠ .error .fuel) (hf : ∀ a, x = .ok a → f a ≠ .error .fuel) :
    (x >>= f) ≠ .error .fuel := by
  cases x with
  | error e =>
    intro h
    apply hx
    cases e <;> first | rfl | cases h
  | ok a => exact hf a rfl

theorem fetch_some (mem T : List Nat) (p n : Nat) (b : List Nat) (h : fetch mem p n = some b) :
    p + n ≤ mem.length ∧ fetch (mem ++ T) p n = some b := by
  unfold fetch at h ⊢
  split at h
  · rename_i hle
    refine ⟨hle, ?_⟩
    rw [if_pos (by rw [List.length_append]; omega)]
    rw [List.drop_append_of_le_length (by omega),
      List.take_append_of_le_length (by rw [List.length_drop]; omega)]
    exact h
  · cases h

theorem read_u8_ext (mem T : List Nat) (p v q : Nat) (h : DUK__READ_U8 mem p = .ok (v, q)) :
    DUK__READ_U8 (mem ++ T) p = .ok (v, q) ∧ q = p + 1 ∧ q ≤ mem.length := by
  unfold DUK__READ_U8 at h ⊢
  cases hf : fetch mem p 1 with
  | none => rw [hf] at h; cases h
  | some b =>
    obtain ⟨hb, hf'⟩ := fetch_some mem T p 1 b hf
    rw [hf] at h
    rw [hf']
    match b, h with
    | [x], h =>
      simp only [Except.ok.injEq, Prod.mk.injEq] at h
      obtain ⟨rfl, rfl⟩ := h
      exact ⟨rfl, rfl, hb⟩

theorem read_u16_ext (cfg : Config) (mem T : List Nat) (p v q : Nat)
    (h : duk__read_u16 cfg mem p = .ok (v, q)) :
    duk__read_u16 cfg (mem ++ T) p = .ok (v, q) ∧ q = p + 2 ∧ q ≤ mem.length := by
  unfold duk__read_u16 at h ⊢
  cases hf : fetch mem p 2 with
  | none => rw [hf] at h; cases h
  | some b =>
    obtain ⟨hb, hf'⟩ := fetch_some mem T p 2 b hf
    rw [hf] at h
    rw [hf']
    simp only [Except.ok.injEq, Prod.mk.injEq] at h
    obtain ⟨rfl, rfl⟩ := h
    exact ⟨rfl, rfl, hb⟩

theorem read_u32_ext (cfg : Config) (mem T : List Nat) (p v q : Nat)
    (h : duk__read_u32 cfg mem p = .ok (v, q)) :
    duk__read_u32 cfg (mem ++ T) p = .ok (v, q) ∧ q = p + 4 ∧ q ≤ mem.length := by
  unfold duk__read_u32 at h ⊢
  cases hf : fetch mem p 4 with
  | none => rw [hf] at h; cases h
  | some b =>
    obtain ⟨hb, hf'⟩ := fetch_some mem T p 4 b hf
    rw [hf] at h
    rw [hf']
    simp only [Except.ok.injEq, Prod.mk.injEq] at h
    obtain ⟨rfl, rfl⟩ := h
    exact ⟨rfl, rfl, hb⟩

theorem read_double_ext (cfg : Config) (mem T : List Nat) (p : Nat) (v : duk_double_union)
    (q : Nat) (h : duk__read_double cfg mem p = .ok (v, q)) :
    duk__read_double cfg (mem ++ T) p = .ok (v, q) ∧ q = p + 8 ∧ q ≤ mem.length := by
  unfold duk__read_double at h ⊢
  cases hf : fetch mem p 4 with
  | none => rw [hf] at h; cases h
  | some b =>
    cases hg : fetch mem (p + 4) 4 with
    | none => rw [hf, hg] at h; cases h
    | some c =>
      obtain ⟨_, hf'⟩ := fetch_some mem T p 4 b hf
      obtain ⟨hc, hg'⟩ := fetch_some mem T (p + 4) 4 c hg
      rw [hf, hg] at h
      rw [hf', hg']
      simp only [Except.ok.injEq, Prod.mk.injEq] at h
      obtain ⟨rfl, rfl⟩ := h
      exact ⟨rfl, rfl, by omega⟩

theorem load_string_ext (cfg : Config) (mem T : List Nat) (p : Nat) (s : List Nat) (q : Nat)
    (h : duk__load_string cfg mem p = .ok (s, q)) :
    duk__load_string cfg (mem ++ T) p = .ok (s, q) ∧ p + 4 ≤ q ∧ q ≤ mem.length := by
  unfold duk__load_string at h ⊢
  rw [bind_ok_iff] at h
  obtain ⟨⟨len, p1⟩, e1, h⟩ := h
  obtain ⟨e1', rfl, _⟩ := read_u32_ext cfg mem T p len p1 e1
  simp only [e1', bind, Except.bind]
  simp only [] at h
  cases hf : fetch mem (p + 4) len with
  | none => rw [hf] at h; cases h
  | some b =>
    obtain ⟨hb, hf'⟩ := fetch_some mem T (p + 4) len b hf
    rw [hf] at h
    rw [hf']
    simp only [pure, Except.pure, Except.ok.injEq, Prod.mk.injEq] at h ⊢
    obtain ⟨rfl, rfl⟩ := h
    exact ⟨⟨rfl, rfl⟩, by omega, hb⟩

theorem load_buffer_ext (cfg : Config) (mem T : List Nat) (p : Nat) (s : List Nat) (q : Nat)
    (h : duk__load_buffer cfg mem p = .ok (s, q)) :
    duk__load_buffer cfg (mem ++ T) p = .ok (s, q) ∧ p + 4 ≤ q ∧ q ≤ mem.length :=
  load_string_ext cfg mem T p s q h

theorem load_instrs_loop_ext (cfg : Config) (mem T : List Nat) :
    ∀ (n p : Nat) (code : List Nat) (q : Nat),
      duk__load_func_instrs_loop cfg mem n p = .ok (code, q) →
      duk__load_func_instrs_loop cfg (mem ++ T) n p = .ok (code, q) ∧ q = p + 4 * n
        ∧ (0 < n → q ≤ mem.length) := by
  intro n
  induction n with
  | zero =>
    intro p code q h
    simp only [duk__load_func_instrs_loop, pure, Except.pure, Except.ok.injEq,
      Prod.mk.injEq] at h ⊢
    obtain ⟨rfl, rfl⟩ := h
    exact ⟨⟨rfl, rfl⟩, rfl, fun h => absurd h (by omega)⟩
  | succ n ih =>
    intro p code q h
    rw [duk__load_func_instrs_loop, bind_ok_iff] at h
    obtain ⟨⟨ins, p1⟩, e1, h⟩ := h
    obtain ⟨e1', rfl, hb1⟩ := read_u32_ext cfg mem T p ins p1 e1
    simp only [] at h
    rw [bind_ok_iff] at h
    obtain ⟨⟨rest, p2⟩, e2, h⟩ := h
    obtain ⟨e2', rfl, hb2⟩ := ih _ _ _ e2
    simp only [pure, Except.pure, Except.ok.injEq, Prod.mk.injEq] at h
    obtain ⟨rfl, rfl⟩ := h
    rw [duk__load_func_instrs_loop]
    simp only [e1', e2', bind, Except.bind, pure, Except.pure]
    refine ⟨trivial, by omega, fun _ => ?_⟩
    rcases Nat.eq_zero_or_pos n with hn | hn
    · subst hn
      omega
    · exact hb2 hn

theorem load_instrs_ext (cfg : Config) (mem T : List Nat) (n p : Nat) (code : List Nat)
    (q : Nat) (hp : p ≤ mem.length) (h : duk__load_func_instrs cfg mem n p = .ok (code, q)) :
    duk__load_func_instrs cfg (mem ++ T) n p = .ok (code, q) ∧ q = p + 4 * n
      ∧ q ≤ mem.length := by
  unfold duk__load_func_instrs at h ⊢
  split at h
  · rename_i hbe
    rw [if_pos hbe]
    cases hf : fetch mem p (4 * n) with
    | none => rw [hf] at h; cases h
    | some b =>
      obtain ⟨hb, hf'⟩ := fetch_some mem T p (4 * n) b hf
      rw [hf] at h
      rw [hf']
      simp only [Except.ok.injEq, Prod.mk.injEq] at h
      obtain ⟨rfl, rfl⟩ := h
      exact ⟨rfl, rfl, hb⟩
  · rename_i hbe
    rw [if_neg hbe]
    obtain ⟨e, hq, hb⟩ := load_instrs_loop_ext cfg mem T n p code q h
    refine ⟨e, hq, ?_⟩
    rcases Nat.eq_zero_or_pos n with hn | hn
    · subst hn
      omega
    · exact hb hn


theorem load_consts_ext (cfg : Config) (mem T : List Nat) (p_end p_end' : Nat)
    (hend : mem.length ≤ p_end') :
    ∀ (n p : Nat) (cs : List duk_const) (q : Nat), p ≤ mem.length →
      duk__load_func_consts cfg mem p_end n p = .ok (cs, q) →
      duk__load_func_consts cfg (mem ++ T) p_end' n p = .ok (cs, q) ∧ p ≤ q
        ∧ q ≤ mem.length := by
  intro n
  induction n with
  | zero =>
    intro p cs q hp h
    simp only [duk__load_func_consts, pure, Except.pure, Except.ok.injEq, Prod.mk.injEq] at h ⊢
    obtain ⟨rfl, rfl⟩ := h
    exact ⟨⟨rfl, rfl⟩, Nat.le_refl _, hp⟩
  | succ n ih =>
    intro p cs q hp h
    rw [duk__load_func_consts, bind_ok_iff] at h
    obtain ⟨⟨⟩, _, h⟩ := h
    rw [bind_ok_iff] at h
    obtain ⟨⟨t, p1⟩, e1, h⟩ := h
    obtain ⟨e1', rfl, hb1⟩ := read_u8_ext mem T p t p1 e1
    have ea := assert_left_ok cfg p_end' p 1 (by omega)
    rw [duk__load_func_consts]
    simp only [ea, e1', bind, Except.bind]
    simp only [] at h
    split at h
    · rename_i ht
      rw [if_pos ht]
      rw [bind_ok_iff] at h
      obtain ⟨⟨s, p2⟩, e2, h⟩ := h
      obtain ⟨e2', hb2, hb2'⟩ := load_string_ext cfg mem T _ s p2 e2
      simp only [] at h
      rw [bind_ok_iff] at h
      obtain ⟨⟨rest, p3⟩, e3, h⟩ := h
      obtain ⟨e3', hb3, hb3'⟩ := ih _ _ _ hb2' e3
      simp only [pure, Except.pure, Except.ok.injEq, Prod.mk.injEq] at h
      obtain ⟨rfl, rfl⟩ := h
      simp only [e2', e3', pure, Except.pure]
      exact ⟨trivial, by omega, hb3'⟩
    · rename_i ht
      rw [if_neg ht]
      split at h
      · rename_i ht2
        rw [if_pos ht2]
        rw [bind_ok_iff] at h
        obtain ⟨⟨⟩, _, h⟩ := h
        rw [bind_ok_iff] at h
        obtain ⟨⟨v, p2⟩, e2, h⟩ := h
        obtain ⟨e2', rfl, hb2'⟩ := read_double_ext cfg mem T _ v p2 e2
        simp only [] at h
        rw [bind_ok_iff] at h
        obtain ⟨⟨rest, p3⟩, e3, h⟩ := h
        obtain ⟨e3', hb3, hb3'⟩ := ih _ _ _ hb2' e3
        simp only [pure, Except.pure, Except.ok.injEq, Prod.mk.injEq] at h
        obtain ⟨rfl, rfl⟩ := h
        have ea2 := assert_left_ok cfg p_end' (p + 1) 8 (by omega)
        simp only [ea2, e2', e3', pure, Except.pure]
        exact ⟨trivial, by omega, hb3'⟩
      · cases h

theorem load_funcs_ext (mem : List Nat)
    (load load' : Nat → Except duk_fault (duk_hcompiledfunction × Nat))
    (hload : ∀ (p : Nat) (fn : duk_hcompiledfunction) (q : Nat), load p = .ok (fn, q) →
      load' p = .ok (fn, q) ∧ p ≤ q ∧ q ≤ mem.length) :
    ∀ (n p : Nat) (fs : List duk_hcompiledfunction) (q : Nat), p ≤ mem.length →
      duk__load_func_funcs load n p = .ok (fs, q) →
      duk__load_func_funcs load' n p = .ok (fs, q) ∧ p ≤ q ∧ q ≤ mem.length := by
  intro n
  induction n with
  | zero =>
    intro p fs q hp h
    simp only [duk__load_func_funcs, pure, Except.pure, Except.ok.injEq, Prod.mk.injEq] at h ⊢
    obtain ⟨rfl, rfl⟩ := h
    exact ⟨⟨rfl, rfl⟩, Nat.le_refl _, hp⟩
  | succ n ih =>
    intro p fs q hp h
    rw [duk__load_func_funcs, bind_ok_iff] at h
    obtain ⟨⟨fn, p1⟩, e1, h⟩ := h
    obtain ⟨e1', hb1, hb1'⟩ := hload p fn p1 e1
    simp only [] at h
    rw [bind_ok_iff] at h
    obtain ⟨⟨rest, p2⟩, e2, h⟩ := h
    obtain ⟨e2', hb2, hb2'⟩ := ih _ _ _ hb1' e2
    simp only [pure, Except.pure, Except.ok.injEq, Prod.mk.injEq] at h
    obtain ⟨rfl, rfl⟩ := h
    rw [duk__load_func_funcs]
    simp only [e1', e2', bind, Except.bind, pure, Except.pure]
    exact ⟨trivial, by omega, hb2'⟩

theorem load_varmap_ext (cfg : Config) (mem T : List Nat) :
    ∀ (fuel fuel' : Nat) (acc : List (List Nat × duk_double_union)) (p : Nat)
      (e_part : List (List Nat × duk_double_union)) (q : Nat), fuel ≤ fuel' →
      duk__load_func_varmap cfg mem fuel acc p = .ok (e_part, q) →
      duk__load_func_varmap cfg (mem ++ T) fuel' acc p = .ok (e_part, q) ∧ p ≤ q
        ∧ q ≤ mem.length := by
  intro fuel
  induction fuel with
  | zero =>
    intro fuel' acc p e_part q _ h
    cases h
  | succ fuel ih =>
    intro fuel' acc p e_part q hf h
    obtain ⟨fuel', rfl⟩ : ∃ k, fuel' = k + 1 := ⟨fuel' - 1, by omega⟩
    rw [duk__load_func_varmap, bind_ok_iff] at h
    obtain ⟨⟨key, p1⟩, e1, h⟩ := h
    obtain ⟨e1', hb1, hb1'⟩ := load_string_ext cfg mem T p key p1 e1
    rw [duk__load_func_varmap]
    simp only [e1', bind, Except.bind]
    simp only [] at h
    split at h
    · rename_i hk
      rw [if_pos hk]
      simp only [pure, Except.pure, Except.ok.injEq, Prod.mk.injEq] at h ⊢
      obtain ⟨rfl, rfl⟩ := h
      exact ⟨⟨rfl, rfl⟩, by omega, hb1'⟩
    · rename_i hk
      rw [if_neg hk]
      rw [bind_ok_iff] at h
      obtain ⟨⟨v, p2⟩, e2, h⟩ := h
      obtain ⟨e2', rfl, hb2'⟩ := read_u32_ext cfg mem T _ v p2 e2
      simp only [] at h
      obtain ⟨e3', hb3, hb3'⟩ := ih fuel' _ _ _ _ (by omega) h
      simp only [e2', e3']
      exact ⟨trivial, by omega, hb3'⟩

theorem load_formals_ext (cfg : Config) (mem T : List Nat) :
    ∀ (fuel fuel' : Nat) (acc : List (Option (List Nat))) (p : Nat)
      (a_part : List (Option (List Nat))) (q : Nat), fuel ≤ fuel' →
      duk__load_func_formals cfg mem fuel acc p = .ok (a_part, q) →
      duk__load_func_formals cfg (mem ++ T) fuel' acc p = .ok (a_part, q) ∧ p ≤ q
        ∧ q ≤ mem.length := by
  intro fuel
  induction fuel with
  | zero =>
    intro fuel' acc p a_part q _ h
    cases h
  | succ fuel ih =>
    intro fuel' acc p a_part q hf h
    obtain ⟨fuel', rfl⟩ : ∃ k, fuel' = k + 1 := ⟨fuel' - 1, by omega⟩
    rw [duk__load_func_formals, bind_ok_iff] at h
    obtain ⟨⟨key, p1⟩, e1, h⟩ := h
    obtain ⟨e1', hb1, hb1'⟩ := load_string_ext cfg mem T p key p1 e1
    rw [duk__load_func_formals]
    simp only [e1', bind, Except.bind]
    simp only [] at h
    split at h
    · rename_i hk
      rw [if_pos hk]
      simp only [pure, Except.pure, Except.ok.injEq, Prod.mk.injEq] at h ⊢
      obtain ⟨rfl, rfl⟩ := h
      exact ⟨⟨rfl, rfl⟩, by omega, hb1'⟩
    · rename_i hk
      rw [if_neg hk]
      obtain ⟨e3', hb3, hb3'⟩ := ih fuel' _ _ _ _ (by omega) h
      simp only [e3']
      exact ⟨trivial, by omega, hb3'⟩

theorem load_props_ext (cfg : Config) (mem T : List Nat) (flags p : Nat) (props : duk_props)
    (q : Nat) (h : duk__load_func_props cfg mem flags p = .ok (props, q)) :
    duk__load_func_props cfg (mem ++ T) flags p = .ok (props, q) ∧ p ≤ q ∧ q ≤ mem.length := by
  unfold duk__load_func_props at h ⊢
  rw [bind_ok_iff] at h
  obtain ⟨⟨v1, p1⟩, e1, h⟩ := h
  obtain ⟨e1', rfl, _⟩ := read_u32_ext cfg mem T _ _ _ e1
  simp only [] at h
  rw [bind_ok_iff] at h
  obtain ⟨⟨v2, p2⟩, e2, h⟩ := h
  obtain ⟨e2', hb2, _⟩ := load_string_ext cfg mem T _ _ _ e2
  simp only [] at h
  rw [bind_ok_iff] at h
  obtain ⟨⟨v3, p3⟩, e3, h⟩ := h
  obtain ⟨e3', hb3, _⟩ := load_string_ext cfg mem T _ _ _ e3
  simp only [] at h
  rw [bind_ok_iff] at h
  obtain ⟨⟨v4, p4⟩, e4, h⟩ := h
  obtain ⟨e4', hb4, _⟩ := load_buffer_ext cfg mem T _ _ _ e4
  simp only [] at h
  rw [bind_ok_iff] at h
  obtain ⟨⟨v5, p5⟩, e5, h⟩ := h
  obtain ⟨e5', hb5, _⟩ := load_varmap_ext cfg mem T _ ((mem ++ T).length + 1) _ _ _ _
    (by rw [List.length_append]; omega) e5
  simp only [] at h
  rw [bind_ok_iff] at h
  obtain ⟨⟨v6, p6⟩, e6, h⟩ := h
  obtain ⟨e6', hb6, hb6'⟩ := load_formals_ext cfg mem T _ ((mem ++ T).length + 1) _ _ _ _
    (by rw [List.length_append]; omega) e6
  simp only [pure, Except.pure, Except.ok.injEq, Prod.mk.injEq] at h
  obtain ⟨rfl, rfl⟩ := h
  simp only [e1', e2', e3', e4', e5', e6', bind, Except.bind, pure, Except.pure]
  exact ⟨trivial, by omega, hb6'⟩

theorem load_header_ext (cfg : Config) (mem T : List Nat) (p_end p_end' : Nat)
    (hend : mem.length ≤ p_end') (p : Nat) (hd : duk__func_header) (q : Nat)
    (h : duk__load_func_header cfg mem p_end p = .ok (hd, q)) :
    duk__load_func_header cfg (mem ++ T) p_end' p = .ok (hd, q) ∧ q = p + 28
      ∧ q ≤ mem.length := by
  unfold duk__load_func_header at h ⊢
  rw [bind_ok_iff] at h
  obtain ⟨⟨⟩, _, h⟩ := h
  rw [bind_ok_iff] at h
  obtain ⟨⟨v1, p1⟩, e1, h⟩ := h
  obtain ⟨e1', rfl, hb1⟩ := read_u32_ext cfg mem T _ _ _ e1
  simp only [] at h
  rw [bind_ok_iff] at h
  obtain ⟨⟨v2, p2⟩, e2, h⟩ := h
  obtain ⟨e2', rfl, hb2⟩ := read_u32_ext cfg mem T _ _ _ e2
  simp only [] at h
  rw [bind_ok_iff] at h
  obtain ⟨⟨v3, p3⟩, e3, h⟩ := h
  obtain ⟨e3', rfl, hb3⟩ := read_u32_ext cfg mem T _ _ _ e3
  simp only [] at h
  rw [bind_ok_iff] at h
  obtain ⟨⟨v4, p4⟩, e4, h⟩ := h
  obtain ⟨e4', rfl, hb4⟩ := read_u16_ext cfg mem T _ _ _ e4
  simp only [] at h
  rw [bind_ok_iff] at h
  obtain ⟨⟨v5, p5⟩, e5, h⟩ := h
  obtain ⟨e5', rfl, hb5⟩ := read_u16_ext cfg mem T _ _ _ e5
  simp only [] at h
  have ea := assert_left_ok cfg p_end' p (3 * 4) (by omega)
  cases hdbg : cfg.debugger_support with
  | false =>
    simp only [hdbg, Bool.false_eq_true, if_false, pure, Except.pure, bind, Except.bind] at h ⊢
    cases e8 : duk__read_u32 cfg mem (p + 4 + 4 + 4 + 2 + 2 + 8) with
    | error x => rw [e8] at h; cases h
    | ok r =>
      obtain ⟨v8, p8⟩ := r
      obtain ⟨e8', rfl, hb8⟩ := read_u32_ext cfg mem T _ _ _ e8
      rw [e8] at h
      simp only [Except.ok.injEq, Prod.mk.injEq] at h
      obtain ⟨rfl, rfl⟩ := h
      simp only [ea, e1', e2', e3', e4', e5', e8']
      exact ⟨trivial, trivial, hb8⟩
  | true =>
    simp only [hdbg, if_true, bind, Except.bind] at h ⊢
    cases e6 : duk__read_u32 cfg mem (p + 4 + 4 + 4 + 2 + 2) with
    | error x => rw [e6] at h; cases h
    | ok r6 =>
      obtain ⟨v6, p6⟩ := r6
      obtain ⟨e6', rfl, hb6⟩ := read_u32_ext cfg mem T _ _ _ e6
      rw [e6] at h
      simp only [] at h
      cases e7 : duk__read_u32 cfg mem (p + 4 + 4 + 4 + 2 + 2 + 4) with
      | error x => rw [e7] at h; cases h
      | ok r7 =>
        obtain ⟨v7, p7⟩ := r7
        obtain ⟨e7', rfl, hb7⟩ := read_u32_ext cfg mem T _ _ _ e7
        rw [e7] at h
        simp only [] at h
        cases e8 : duk__read_u32 cfg mem (p + 4 + 4 + 4 + 2 + 2 + 4 + 4) with
        | error x => rw [e8] at h; cases h
        | ok r =>
          obtain ⟨v8, p8⟩ := r
          obtain ⟨e8', rfl, hb8⟩ := read_u32_ext cfg mem T _ _ _ e8
          rw [e8] at h
          simp only [pure, Except.pure, Except.ok.injEq, Prod.mk.injEq] at h
          obtain ⟨rfl, rfl⟩ := h
          simp only [ea, e1', e2', e3', e4', e5', e6', e7', e8', pure, Except.pure]
          exact ⟨trivial, trivial, hb8⟩

/-- A successful run of the loader reads inside the memory it was given: on a
longer memory, with an end pointer not before the end of the old memory and
with at least the same recursion budget, it returns the same function and the
same cursor. -/
theorem load_func_ext (cfg : Config) (mem T : List Nat) (p_end p_end' : Nat)
    (hend : mem.length ≤ p_end') :
    ∀ (fuel fuel' p : Nat) (fn : duk_hcompiledfunction) (q : Nat), fuel ≤ fuel' →
      duk__load_func cfg mem p_end fuel p = .ok (fn, q) →
      duk__load_func cfg (mem ++ T) p_end' fuel' p = .ok (fn, q) ∧ p ≤ q ∧ q ≤ mem.length := by
  intro fuel
  induction fuel with
  | zero =>
    intro fuel' p fn q _ h
    cases h
  | succ fuel ih =>
    intro fuel' p fn q hf h
    obtain ⟨fuel', rfl⟩ : ∃ k, fuel' = k + 1 := ⟨fuel' - 1, by omega⟩
    rw [duk__load_func, bind_ok_iff] at h
    obtain ⟨⟨hd, p1⟩, e1, h⟩ := h
    obtain ⟨e1', rfl, hb1⟩ := load_header_ext cfg mem T p_end p_end' hend _ _ _ e1
    simp only [] at h
    rw [bind_ok_iff] at h
    obtain ⟨⟨⟩, _, h⟩ := h
    rw [bind_ok_iff] at h
    obtain ⟨⟨code, p2⟩, e2, h⟩ := h
    obtain ⟨e2', rfl, hb2⟩ := load_instrs_ext cfg mem T _ _ _ _ hb1 e2
    simp only [] at h
    rw [bind_ok_iff] at h
    obtain ⟨⟨consts, p3⟩, e3, h⟩ := h
    obtain ⟨e3', hb3, hb3'⟩ := load_consts_ext cfg mem T p_end p_end' hend _ _ _ _ hb2 e3
    simp only [] at h
    rw [bind_ok_iff] at h
    obtain ⟨⟨funcs, p4⟩, e4, h⟩ := h
    obtain ⟨e4', hb4, hb4'⟩ := load_funcs_ext mem _
      (duk__load_func cfg (mem ++ T) p_end' fuel')
      (fun p fn q hl => ih fuel' p fn q (by omega) hl) _ _ _ _ hb3' e4
    simp only [] at h
    rw [bind_ok_iff] at h
    obtain ⟨⟨props, p5⟩, e5, h⟩ := h
    obtain ⟨e5', hb5, hb5'⟩ := load_props_ext cfg mem T _ _ _ _ e5
    simp only [pure, Except.pure, Except.ok.injEq, Prod.mk.injEq] at h
    obtain ⟨rfl, rfl⟩ := h
    have ea := assert_left_ok cfg p_end' (p + 28) (hd.count_instr * 4) (by omega)
    rw [duk__load_func]
    simp only [e1', ea, e2', e3', e4', e5', bind, Except.bind, pure, Except.pure]
    exact ⟨trivial, by omega, hb5'⟩


/-- C24 as stated fails for an input on which the load succeeds by reading the
memory behind the buffer: the six-byte input `FF 00 00 00 00 00`, followed in
memory by zero bytes, loads a function without constants; the same input with
the bytes `00 00 00 01` appended loads a function with one constant. -/
theorem trailing_bytes_seen_after_short_input :
    (duk_load_function host_le blob_truncated (List.replicate 64 0)).toOption.map
        (fun fn => fn.consts) = some []
      ∧ (duk_load_function host_le (blob_truncated ++ [0, 0, 0, 1])
          (List.replicate 64 0)).toOption.map (fun fn => fn.consts) = some [.string []] := by
  refine ⟨?_, ?_⟩ <;> decide!

/-- C24, for inputs that load without reading past their end.
`duk_load_function` does not look at the cursor `duk__load_func` returns; and
for every input `B` that loads when no memory can be read behind it, and every
byte sequence `S`, the input `B ++ S` loads as well, whatever lies behind it
in memory, and gives the same function. -/
theorem trailing_bytes_ignored (cfg : Config) (B S beyond : List Nat)
    (fn : duk_hcompiledfunction) (h : duk_load_function cfg B [] = .ok fn) :
    duk_load_function cfg (B ++ S) beyond = .ok fn
      ∧ ∀ (f : duk_hcompiledfunction) (q q' : Nat),
          duk_load_function_finish (.ok (f, q)) = duk_load_function_finish (.ok (f, q')) := by
  refine ⟨?_, fun f q q' => rfl⟩
  rw [load_function_eq] at h
  by_cases hsig : B.take 2 = [0xFF, 0x00]
  · rw [if_pos hsig] at h
    have h2 := take_two_length B hsig
    have hsig' : (B ++ S).take 2 = [0xFF, 0x00] := by
      rw [List.take_append_of_le_length h2]
      exact hsig
    rw [load_function_eq, if_pos hsig']
    cases hl : duk__load_func cfg (B ++ []) B.length ((B ++ []).length + 1) 2 with
    | error e =>
      rw [hl] at h
      cases e <;> cases h
    | ok r =>
      obtain ⟨f, q⟩ := r
      rw [hl] at h
      simp only [duk_load_function_finish, Except.ok.injEq] at h
      subst h
      rw [List.append_nil] at hl
      obtain ⟨e, _, _⟩ := load_func_ext cfg B (S ++ beyond) B.length (B ++ S).length
        (by rw [List.length_append]; omega) (B.length + 1) ((B ++ S ++ beyond).length + 1) 2 f q
        (by simp only [List.length_append]; omega) hl
      rw [← List.append_assoc] at e
      rw [e]
      rfl
  · rw [if_neg hsig] at h
    cases h

/-- C24 (amended), at the blob of the sample function followed by three bytes. -/
theorem trailing_bytes_ignored_witness :
    duk_load_function host_be (Spec.Blob host_be func_sample ++ [1, 2, 3]) [4, 5]
        = .ok (loaded host_be func_sample)
      ∧ ∀ (f : duk_hcompiledfunction) (q q' : Nat),
          duk_load_function_finish (.ok (f, q)) = duk_load_function_finish (.ok (f, q')) :=
  trailing_bytes_ignored host_be (Spec.Blob host_be func_sample) [1, 2, 3] [4, 5]
    (loaded host_be func_sample)
    (load_function_blob host_be func_sample [] (by decide) (by decide))


/-! ### The recursion budget is never used up -/

theorem bind_stable {α β : Type} (x x' : Except duk_fault α) (f f' : α → Except duk_fault β)
    (hx : x ≠ .error .fuel → x' = x)
    (hf : ∀ a, x = .ok a → f a ≠ .error .fuel → f' a = f a) :
    (x >>= f) ≠ .error .fuel → (x' >>= f') = (x >>= f) := by
  intro h
  cases x with
  | error e =>
    have he : e ≠ .fuel := by
      intro he
      subst he
      exact h rfl
    rw [hx (by intro h'; cases h'; exact he rfl)]
    rfl
  | ok a =>
    rw [hx (by intro h'; cases h')]
    exact hf a rfl h

theorem assert_ne_fuel (cfg : Config) (c : Bool) : DUK_ASSERT cfg c ≠ .error .fuel := by
  unfold DUK_ASSERT
  split <;> intro h <;> cases h

theorem assert_left_ne_fuel (cfg : Config) (p_end p n : Nat) :
    DUK__ASSERT_LEFT cfg p_end p n ≠ .error .fuel :=
  assert_ne_fuel cfg _

theorem read_u8_ne_fuel (mem : List Nat) (p : Nat) : DUK__READ_U8 mem p ≠ .error .fuel := by
  unfold DUK__READ_U8
  split <;> intro h <;> cases h

theorem read_u16_ne_fuel (cfg : Config) (mem : List Nat) (p : Nat) :
    duk__read_u16 cfg mem p ≠ .error .fuel := by
  unfold duk__read_u16
  split <;> intro h <;> cases h

theorem read_u32_ne_fuel (cfg : Config) (mem : List Nat) (p : Nat) :
    duk__read_u32 cfg mem p ≠ .error .fuel := by
  unfold duk__read_u32
  split <;> intro h <;> cases h

theorem read_double_ne_fuel (cfg : Config) (mem : List Nat) (p : Nat) :
    duk__read_double cfg mem p ≠ .error .fuel := by
  unfold duk__read_double
  split <;> intro h <;> cases h

theorem load_string_ne_fuel (cfg : Config) (mem : List Nat) (p : Nat) :
    duk__load_string cfg mem p ≠ .error .fuel := by
  unfold duk__load_string
  refine bind_ne_fuel _ _ (read_u32_ne_fuel cfg mem p) ?_
  rintro ⟨len, q⟩ _
  simp only []
  split <;> intro h <;> cases h

theorem load_buffer_ne_fuel (cfg : Config) (mem : List Nat) (p : Nat) :
    duk__load_buffer cfg mem p ≠ .error .fuel :=
  load_string_ne_fuel cfg mem p

theorem load_instrs_loop_ne_fuel (cfg : Config) (mem : List Nat) :
    ∀ n p, duk__load_func_instrs_loop cfg mem n p ≠ .error .fuel := by
  intro n
  induction n with
  | zero => intro p h; cases h
  | succ n ih =>
    intro p
    rw [duk__load_func_instrs_loop]
    refine bind_ne_fuel _ _ (read_u32_ne_fuel cfg mem p) ?_
    rintro ⟨ins, q⟩ _
    refine bind_ne_fuel _ _ (ih q) ?_
    rintro ⟨rest, q'⟩ _ h
    cases h

theorem load_instrs_ne_fuel (cfg : Config) (mem : List Nat) (n p : Nat) :
    duk__load_func_instrs cfg mem n p ≠ .error .fuel := by
  unfold duk__load_func_instrs
  split
  · split <;> intro h <;> cases h
  · exact load_instrs_loop_ne_fuel cfg mem n p

theorem load_consts_ne_fuel (cfg : Config) (mem : List Nat) (p_end : Nat) :
    ∀ n p, duk__load_func_consts cfg mem p_end n p ≠ .error .fuel := by
  intro n
  induction n with
  | zero => intro p h; cases h
  | succ n ih =>
    intro p
    rw [duk__load_func_consts]
    refine bind_ne_fuel _ _ (assert_left_ne_fuel cfg _ _ _) ?_
    rintro ⟨⟩ _
    refine bind_ne_fuel _ _ (read_u8_ne_fuel mem p) ?_
    rintro ⟨t, q⟩ _
    simp only []
    split
    · refine bind_ne_fuel _ _ (load_string_ne_fuel cfg mem q) ?_
      rintro ⟨s, q1⟩ _
      refine bind_ne_fuel _ _ (ih q1) ?_
      rintro ⟨rest, q2⟩ _ h
      cases h
    · split
      · refine bind_ne_fuel _ _ (assert_left_ne_fuel cfg _ _ _) ?_
        rintro ⟨⟩ _
        refine bind_ne_fuel _ _ (read_double_ne_fuel cfg mem q) ?_
        rintro ⟨v, q1⟩ _
        refine bind_ne_fuel _ _ (ih q1) ?_
        rintro ⟨rest, q2⟩ _ h
        cases h
      · intro h
        cases h

theorem load_header_ne_fuel (cfg : Config) (mem : List Nat) (p_end p : Nat) :
    duk__load_func_header cfg mem p_end p ≠ .error .fuel := by
  unfold duk__load_func_header
  refine bind_ne_fuel _ _ (assert_left_ne_fuel cfg _ _ _) ?_
  rintro ⟨⟩ _
  refine bind_ne_fuel _ _ (read_u32_ne_fuel cfg mem _) ?_
  rintro ⟨v1, q1⟩ _
  refine bind_ne_fuel _ _ (read_u32_ne_fuel cfg mem _) ?_
  rintro ⟨v2, q2⟩ _
  refine bind_ne_fuel _ _ (read_u32_ne_fuel cfg mem _) ?_
  rintro ⟨v3, q3⟩ _
  refine bind_ne_fuel _ _ (read_u16_ne_fuel cfg mem _) ?_
  rintro ⟨v4, q4⟩ _
  refine bind_ne_fuel _ _ (read_u16_ne_fuel cfg mem _) ?_
  rintro ⟨v5, q5⟩ _
  have hp : ∀ (x : Nat × Nat), (pure x : Except duk_fault (Nat × Nat)) ≠ .error .fuel := by
    intro x h
    cases h
  simp only []
  split
  · refine bind_ne_fuel _ _ (read_u32_ne_fuel cfg mem _) ?_
    rintro ⟨v6, q6⟩ _
    simp only []
    refine bind_ne_fuel _ _ (read_u32_ne_fuel cfg mem _) ?_
    rintro ⟨v7, q7⟩ _
    refine bind_ne_fuel _ _ (read_u32_ne_fuel cfg mem _) ?_
    rintro ⟨v8, q8⟩ _ h
    cases h
  · refine bind_ne_fuel _ _ (hp _) ?_
    rintro ⟨v6, q6⟩ _
    simp only []
    refine bind_ne_fuel _ _ (hp _) ?_
    rintro ⟨v7, q7⟩ _
    refine bind_ne_fuel _ _ (read_u32_ne_fuel cfg mem _) ?_
    rintro ⟨v8, q8⟩ _ h
    cases h

/-- Every iteration of the var-map loop reads at least four bytes, so a budget
larger than the number of bytes left is never used up. -/
theorem load_varmap_ne_fuel (cfg : Config) (mem : List Nat) :
    ∀ (fuel : Nat) (acc : List (List Nat × duk_double_union)) (p : Nat),
      mem.length - p < fuel → duk__load_func_varmap cfg mem fuel acc p ≠ .error .fuel := by
  intro fuel
  induction fuel with
  | zero => intro acc p h; omega
  | succ fuel ih =>
    intro acc p hf
    rw [duk__load_func_varmap]
    refine bind_ne_fuel _ _ (load_string_ne_fuel cfg mem p) ?_
    rintro ⟨key, q⟩ e1
    obtain ⟨_, hb1, hb1'⟩ := load_string_ext cfg mem [] p key q e1
    simp only []
    split
    · intro h; cases h
    · refine bind_ne_fuel _ _ (read_u32_ne_fuel cfg mem q) ?_
      rintro ⟨v, q1⟩ e2
      obtain ⟨_, rfl, hb2⟩ := read_u32_ext cfg mem [] q v q1 e2
      exact ih _ _ (by omega)

/-- Every iteration of the formals loop reads at least four bytes. -/
theorem load_formals_ne_fuel (cfg : Config) (mem : List Nat) :
    ∀ (fuel : Nat) (acc : List (Option (List Nat))) (p : Nat),
      mem.length - p < fuel → duk__load_func_formals cfg mem fuel acc p ≠ .error .fuel := by
  intro fuel
  induction fuel with
  | zero => intro acc p h; omega
  | succ fuel ih =>
    intro acc p hf
    rw [duk__load_func_formals]
    refine bind_ne_fuel _ _ (load_string_ne_fuel cfg mem p) ?_
    rintro ⟨key, q⟩ e1
    obtain ⟨_, hb1, hb1'⟩ := load_string_ext cfg mem [] p key q e1
    simp only []
    split
    · intro h; cases h
    · exact ih _ _ (by omega)

theorem load_props_ne_fuel (cfg : Config) (mem : List Nat) (flags p : Nat) :
    duk__load_func_props cfg mem flags p ≠ .error .fuel := by
  unfold duk__load_func_props
  refine bind_ne_fuel _ _ (read_u32_ne_fuel cfg mem _) ?_
  rintro ⟨v1, q1⟩ _
  refine bind_ne_fuel _ _ (load_string_ne_fuel cfg mem _) ?_
  rintro ⟨v2, q2⟩ _
  refine bind_ne_fuel _ _ (load_string_ne_fuel cfg mem _) ?_
  rintro ⟨v3, q3⟩ _
  refine bind_ne_fuel _ _ (load_buffer_ne_fuel cfg mem _) ?_
  rintro ⟨v4, q4⟩ _
  refine bind_ne_fuel _ _ (load_varmap_ne_fuel cfg mem _ _ _ (by omega)) ?_
  rintro ⟨v5, q5⟩ _
  refine bind_ne_fuel _ _ (load_formals_ne_fuel cfg mem _ _ _ (by omega)) ?_
  rintro ⟨v6, q6⟩ _ h
  cases h

theorem load_funcs_ne_fuel (lo : Nat)
    (load : Nat → Except duk_fault (duk_hcompiledfunction × Nat))
    (hne : ∀ p, lo ≤ p → load p ≠ .error .fuel)
    (hmono : ∀ (p : Nat) (fn : duk_hcompiledfunction) (q : Nat), load p = .ok (fn, q) → p ≤ q) :
    ∀ n p, lo ≤ p → duk__load_func_funcs load n p ≠ .error .fuel := by
  intro n
  induction n with
  | zero => intro p _ h; cases h
  | succ n ih =>
    intro p hp
    rw [duk__load_func_funcs]
    refine bind_ne_fuel _ _ (hne p hp) ?_
    rintro ⟨fn, q⟩ e1
    have := hmono p fn q e1
    refine bind_ne_fuel _ _ (ih q (by omega)) ?_
    rintro ⟨rest, q'⟩ _ h
    cases h

/-- Every call of the loader reads the 28 bytes of a header before it calls
itself, so a budget larger than the number of bytes left is never used up. -/
theorem load_func_ne_fuel (cfg : Config) (mem : List Nat) (p_end : Nat) :
    ∀ fuel p, mem.length - p < fuel → duk__load_func cfg mem p_end fuel p ≠ .error .fuel := by
  intro fuel
  induction fuel with
  | zero => intro p h; omega
  | succ fuel ih =>
    intro p hf
    rw [duk__load_func]
    refine bind_ne_fuel _ _ (load_header_ne_fuel cfg mem p_end p) ?_
    rintro ⟨hd, p1⟩ e1
    obtain ⟨_, rfl, hb1⟩ := load_header_ext cfg mem [] p_end mem.length (Nat.le_refl _) p hd p1 e1
    refine bind_ne_fuel _ _ (assert_left_ne_fuel cfg _ _ _) ?_
    rintro ⟨⟩ _
    refine bind_ne_fuel _ _ (load_instrs_ne_fuel cfg mem _ _) ?_
    rintro ⟨code, p2⟩ e2
    obtain ⟨_, rfl, hb2⟩ := load_instrs_ext cfg mem [] _ _ code p2 hb1 e2
    refine bind_ne_fuel _ _ (load_consts_ne_fuel cfg mem p_end _ _) ?_
    rintro ⟨consts, p3⟩ e3
    obtain ⟨_, hb3, hb3'⟩ := load_consts_ext cfg mem [] p_end mem.length (Nat.le_refl _) _ _
      consts p3 hb2 e3
    refine bind_ne_fuel _ _ ?_ ?_
    · refine load_funcs_ne_fuel (p + 28) _ (fun q hq => ih q (by omega)) ?_ _ _ (by omega)
      intro q fn q' hl
      exact (load_func_ext cfg mem [] p_end mem.length (Nat.le_refl _) fuel fuel q fn q'
        (Nat.le_refl _) hl).2.1
    rintro ⟨funcs, p4⟩ _
    refine bind_ne_fuel _ _ (load_props_ne_fuel cfg mem _ _) ?_
    rintro ⟨props, p5⟩ _ h
    cases h

theorem load_funcs_stable (load load' : Nat → Except duk_fault (duk_hcompiledfunction × Nat))
    (h : ∀ p, load p ≠ .error .fuel → load' p = load p) :
    ∀ n p, duk__load_func_funcs load n p ≠ .error .fuel →
      duk__load_func_funcs load' n p = duk__load_func_funcs load n p := by
  intro n
  induction n with
  | zero => intro p _; rfl
  | succ n ih =>
    intro p
    rw [duk__load_func_funcs, duk__load_func_funcs]
    refine bind_stable _ _ _ _ (h p) ?_
    rintro ⟨fn, q⟩ _
    refine bind_stable _ _ _ _ (ih q) ?_
    rintro ⟨rest, q'⟩ _ _
    rfl

/-- A run of the loader that does not use up its recursion budget is the same
with every larger budget. -/
theorem load_func_stable (cfg : Config) (mem : List Nat) (p_end : Nat) :
    ∀ fuel k p, duk__load_func cfg mem p_end fuel p ≠ .error .fuel →
      duk__load_func cfg mem p_end (fuel + k) p = duk__load_func cfg mem p_end fuel p := by
  intro fuel
  induction fuel with
  | zero => intro k p h; exact absurd rfl h
  | succ fuel ih =>
    intro k p
    rw [show fuel + 1 + k = (fuel + k) + 1 by omega, duk__load_func, duk__load_func]
    refine bind_stable _ _ _ _ (fun _ => rfl) ?_
    rintro ⟨hd, p1⟩ _
    refine bind_stable _ _ _ _ (fun _ => rfl) ?_
    rintro ⟨⟩ _
    refine bind_stable _ _ _ _ (fun _ => rfl) ?_
    rintro ⟨code, p2⟩ _
    refine bind_stable _ _ _ _ (fun _ => rfl) ?_
    rintro ⟨consts, p3⟩ _
    refine bind_stable _ _ _ _ (load_funcs_stable _ _ (fun q => ih k q) _ _) ?_
    rintro ⟨funcs, p4⟩ _ _
    rfl

/-- C26. Loader totality.  Every read of the embedding is bounds-checked
against the length of the memory `mem` (a read past it fails).  For every
build, memory, value of `p_end` and start cursor, the run of `duk__load_func`
with the recursion budget `mem.length + 1` does not use up the budget (it
returns a function and a cursor, or fails in another way), and it is the run
with every larger budget; the var-map and formals loops, which read at least
four bytes per iteration, do not use up the budget `mem.length + 1` either;
and `duk_load_function` never stops because the budget ran out. -/
theorem loader_total (cfg : Config) (mem : List Nat) (p_end p k : Nat)
    (e_part : List (List Nat × duk_double_union)) (a_part : List (Option (List Nat)))
    (buf beyond : List Nat) :
    duk__load_func cfg mem p_end (mem.length + 1) p ≠ .error .fuel
      ∧ duk__load_func cfg mem p_end (mem.length + 1 + k) p
          = duk__load_func cfg mem p_end (mem.length + 1) p
      ∧ duk__load_func_varmap cfg mem (mem.length + 1) e_part p ≠ .error .fuel
      ∧ duk__load_func_formals cfg mem (mem.length + 1) a_part p ≠ .error .fuel
      ∧ duk_load_function cfg buf beyond ≠ .error .fuel := by
  have h1 := load_func_ne_fuel cfg mem p_end (mem.length + 1) p (by omega)
  refine ⟨h1, load_func_stable cfg mem p_end _ k p h1,
    load_varmap_ne_fuel cfg mem _ _ _ (by omega), load_formals_ne_fuel cfg mem _ _ _ (by omega),
    ?_⟩
  rw [load_function_eq]
  split
  · have h2 := load_func_ne_fuel cfg (buf ++ beyond) buf.length ((buf ++ beyond).length + 1) 2
      (by omega)
    cases hl : duk__load_func cfg (buf ++ beyond) buf.length ((buf ++ beyond).length + 1) 2 with
    | ok r => intro h; cases h
    | error e =>
      cases e with
      | fuel => exact absurd hl h2
      | format_error => intro h; cases h
      | type_error => intro h; cases h
      | assertion => intro h; cases h
      | out_of_bounds => intro h; cases h
      | api_error => intro h; cases h
  · intro h
    cases h


/-! ### The loader on the value stack -/

theorem stk_replace_at (base : duk_context) (e : duk_stack_tval) (rest : duk_context)
    (tv : duk_stack_tval) :
    Stack.replace_at (base ++ e :: rest) base.length tv = base ++ tv :: rest := by
  induction base with
  | nil => rfl
  | cons x xs ih =>
    show x :: Stack.replace_at (xs ++ e :: rest) xs.length tv = x :: (xs ++ tv :: rest)
    rw [ih]

theorem stk_get_at (base : duk_context) (e : duk_stack_tval) (rest : duk_context) :
    (base ++ e :: rest)[base.length]? = some e := by
  rw [List.getElem?_append_right (Nat.le_refl _), Nat.sub_self]
  simp

theorem stk_require_abs (base : duk_context) (e : duk_stack_tval) (rest : duk_context) :
    Stack.duk_require_tval (base ++ e :: rest) (base.length : Int) = .ok (base.length, e) := by
  have h : Stack.duk_normalize_index (base ++ e :: rest) (base.length : Int)
      = some base.length := by
    unfold Stack.duk_normalize_index
    rw [if_pos (by omega), Int.toNat_ofNat, if_pos (by simp)]
  simp only [Stack.duk_require_tval, h, stk_get_at]

theorem stk_require_neg (base : duk_context) (e : duk_stack_tval) (rest : duk_context) :
    Stack.duk_require_tval (base ++ e :: rest) (-((rest.length + 1 : Nat) : Int))
      = .ok (base.length, e) := by
  have h : Stack.duk_normalize_index (base ++ e :: rest) (-((rest.length + 1 : Nat) : Int))
      = some base.length := by
    unfold Stack.duk_normalize_index
    rw [if_neg (by omega), Int.neg_neg, Int.toNat_ofNat, if_pos (by simp)]
    congr 1
    simp only [List.length_append, List.length_cons]
    omega
  simp only [Stack.duk_require_tval, h, stk_get_at]

theorem stk_require_m1 (base : duk_context) (a : duk_stack_tval) :
    Stack.duk_require_tval (base ++ [a]) (-1) = .ok (base.length, a) :=
  stk_require_neg base a []

theorem stk_require_m2 (base : duk_context) (a b : duk_stack_tval) :
    Stack.duk_require_tval (base ++ [a, b]) (-2) = .ok (base.length, a) :=
  stk_require_neg base a [b]

theorem stk_require_m3 (base : duk_context) (a b c : duk_stack_tval) :
    Stack.duk_require_tval (base ++ [a, b, c]) (-3) = .ok (base.length, a) :=
  stk_require_neg base a [b, c]

theorem stk_require_m1_2 (base : duk_context) (a b : duk_stack_tval) :
    Stack.duk_require_tval (base ++ [a, b]) (-1) = .ok (base.length + 1, b) := by
  have := stk_require_neg (base ++ [a]) b []
  simpa using this

theorem stk_require_m1_3 (base : duk_context) (a b c : duk_stack_tval) :
    Stack.duk_require_tval (base ++ [a, b, c]) (-1) = .ok (base.length + 2, c) := by
  have := stk_require_neg (base ++ [a, b]) c []
  simpa using this

theorem stk_require_m2_3 (base : duk_context) (a b c : duk_stack_tval) :
    Stack.duk_require_tval (base ++ [a, b, c]) (-2) = .ok (base.length + 1, b) := by
  have := stk_require_neg (base ++ [a]) b [c]
  simpa using this

theorem stk_dropLast_2 (base : duk_context) (a b : duk_stack_tval) :
    (base ++ [a, b]).dropLast = base ++ [a] := by
  have : base ++ [a, b] = (base ++ [a]) ++ [b] := by simp
  rw [this, List.dropLast_concat]

theorem stk_dropLast_3 (base : duk_context) (a b c : duk_stack_tval) :
    (base ++ [a, b, c]).dropLast = base ++ [a, b] := by
  have : base ++ [a, b, c] = (base ++ [a, b]) ++ [c] := by simp
  rw [this, List.dropLast_concat]

theorem stk_xdef_stridx_m2 (base : duk_context) (obj val : duk_stack_tval)
    (key : duk_stridx_def) :
    Stack.duk_xdef_prop_stridx (base ++ [obj, val]) (-2) key
      = match Stack.define_own obj key val with
        | .ok obj' => .ok (base ++ [obj'])
        | .error x => .error x := by
  simp only [Stack.duk_xdef_prop_stridx, stk_require_m2, stk_require_m1_2, bind, Except.bind,
    pure, Except.pure]
  cases Stack.define_own obj key val with
  | error x => rfl
  | ok o => simp only [stk_replace_at, stk_dropLast_2]

theorem stk_xdef_stridx_m2_3 (base : duk_context) (x obj val : duk_stack_tval)
    (key : duk_stridx_def) :
    Stack.duk_xdef_prop_stridx (base ++ [x, obj, val]) (-2) key
      = match Stack.define_own obj key val with
        | .ok obj' => .ok (base ++ [x, obj'])
        | .error x => .error x := by
  have := stk_xdef_stridx_m2 (base ++ [x]) obj val key
  simp only [List.append_assoc, List.singleton_append] at this
  rw [this]

theorem stk_xdef_stridx_abs (base : duk_context) (obj mid val : duk_stack_tval)
    (key : duk_stridx_def) :
    Stack.duk_xdef_prop_stridx (base ++ [obj, mid, val]) (base.length : Int) key
      = match Stack.define_own obj key val with
        | .ok obj' => .ok (base ++ [obj', mid])
        | .error x => .error x := by
  simp only [Stack.duk_xdef_prop_stridx, stk_require_abs, stk_require_m1_3, bind,
    Except.bind, pure, Except.pure]
  cases Stack.define_own obj key val with
  | error x => rfl
  | ok o => simp only [stk_replace_at, stk_dropLast_3]

theorem stk_dup_m2 (base : duk_context) (a b : duk_stack_tval) :
    Stack.duk_dup (base ++ [a, b]) (-2) = .ok (base ++ [a, b, a]) := by
  simp [Stack.duk_dup, stk_require_m2, bind, Except.bind, pure, Except.pure]

theorem stk_dup_m2_3 (base : duk_context) (x a b : duk_stack_tval) :
    Stack.duk_dup (base ++ [x, a, b]) (-2) = .ok (base ++ [x, a, b, a]) := by
  have := stk_dup_m2 (base ++ [x]) a b
  simpa using this

theorem stk_dup_abs (base : duk_context) (a : duk_stack_tval) (rest : duk_context) :
    Stack.duk_dup (base ++ a :: rest) (base.length : Int) = .ok (base ++ a :: rest ++ [a]) := by
  simp [Stack.duk_dup, stk_require_abs, bind, Except.bind, pure, Except.pure]

theorem stk_xdef_prop_m3 (base : duk_context) (name : List Nat) (f : duk_hcompiledfunction) :
    Stack.duk_xdef_prop (base ++ [.decenv none, .tval (.string name), .compiledfunction f]) (-3)
      = .ok (base ++ [.decenv (some name)]) := by
  simp only [Stack.duk_xdef_prop, stk_require_m3, stk_require_m2_3, stk_require_m1_3, bind,
    Except.bind, pure, Except.pure, stk_replace_at, stk_dropLast_3, stk_dropLast_2]

theorem stk_xdef_prop_m3_5 (base : duk_context) (x y : duk_stack_tval) (name : List Nat)
    (f : duk_hcompiledfunction) :
    Stack.duk_xdef_prop
        (base ++ [x, y, .decenv none, .tval (.string name), .compiledfunction f]) (-3)
      = .ok (base ++ [x, y, .decenv (some name)]) := by
  have := stk_xdef_prop_m3 (base ++ [x, y]) name f
  simpa using this

theorem stk_compact_m1_2 (base : duk_context) (x a : duk_stack_tval) :
    Stack.duk_compact (base ++ [x, a]) (-1) = .ok (base ++ [x, a]) := by
  simp only [Stack.duk_compact, stk_require_m1_2, bind, Except.bind, pure, Except.pure]

theorem stk_compact_m1 (base : duk_context) (a : duk_stack_tval) :
    Stack.duk_compact (base ++ [a]) (-1) = .ok (base ++ [a]) := by
  simp only [Stack.duk_compact, stk_require_m1, bind, Except.bind, pure, Except.pure]

theorem stk_pop (base : duk_context) (a : duk_stack_tval) :
    Stack.duk_pop (base ++ [a]) = .ok base := by
  simp [Stack.duk_pop]

theorem stk_get_length_m1 (base : duk_context) (s : List Nat) :
    Stack.duk_get_length (base ++ [.tval (.string s)]) (-1) = s.length := by
  simp only [Stack.duk_get_length, stk_require_m1]

theorem stk_put_prop_m3 (base : duk_context) (h : duk_hobject) (name : List Nat)
    (d : duk_double_union) :
    Stack.duk_put_prop (base ++ [.tval (.object h), .tval (.string name), .tval (.number d)])
        (-3)
      = .ok (base ++ [.tval (.object { h with e_part := duk_put_prop h.e_part name d })]) := by
  simp only [Stack.duk_put_prop, stk_require_m3, stk_require_m2_3, stk_require_m1_3, bind,
    Except.bind, pure, Except.pure, stk_replace_at, stk_dropLast_3, stk_dropLast_2]

theorem stk_put_prop_index_m2 (base : duk_context) (h : duk_hobject) (s : List Nat) :
    Stack.duk_put_prop_index (base ++ [.tval (.object h), .tval (.string s)]) (-2)
        h.a_part.length
      = .ok (base ++ [.tval (.object { h with a_part := h.a_part ++ [some s] })]) := by
  simp only [Stack.duk_put_prop_index, stk_require_m2, stk_require_m1_2, bind,
    Except.bind, pure, Except.pure, stk_replace_at, stk_dropLast_2]
  simp

theorem stk_remove_m2 (base : duk_context) (a b : duk_stack_tval) :
    Stack.duk_remove (base ++ [a, b]) (-2) = .ok (base ++ [b]) := by
  simp [Stack.duk_remove, stk_require_m2, bind, Except.bind, pure, Except.pure]

theorem stk_require_buffer_m1 (base : duk_context) (b : List Nat) :
    Stack.duk_require_buffer (base ++ [.tval (.buffer b)]) (-1) = .ok b := by
  simp only [Stack.duk_require_buffer, stk_require_m1]

theorem stk_hfun_set (base : duk_context) (h_fun : duk_hcompiledfunction) (rest : duk_context)
    (f : duk_hcompiledfunction → duk_hcompiledfunction) :
    Stack.hfun_set (base ++ .compiledfunction h_fun :: rest) base.length f
      = base ++ .compiledfunction (f h_fun) :: rest := by
  simp only [Stack.hfun_set, stk_get_at, stk_replace_at]

theorem stk_set_top (base rest : duk_context) :
    Stack.duk_set_top (base ++ rest) base.length = base := by
  simp [Stack.duk_set_top]


theorem stk_load_string (cfg : Config) (mem : List Nat) (ctx : duk_context) (p : Nat) :
    Stack.duk__load_string cfg mem ctx p
      = Stack.pushed ctx (fun s => [.tval (.string s)]) (duk__load_string cfg mem p) := by
  unfold Stack.duk__load_string duk__load_string
  cases duk__read_u32 cfg mem p with
  | error e => rfl
  | ok r =>
    obtain ⟨len, q⟩ := r
    simp only [bind, Except.bind]
    cases fetch mem q len with
    | none => rfl
    | some s => rfl

theorem stk_load_buffer (cfg : Config) (mem : List Nat) (ctx : duk_context) (p : Nat) :
    Stack.duk__load_buffer cfg mem ctx p
      = Stack.pushed ctx (fun b => [.tval (.buffer b)]) (duk__load_buffer cfg mem p) := by
  unfold Stack.duk__load_buffer duk__load_buffer
  cases duk__read_u32 cfg mem p with
  | error e => rfl
  | ok r =>
    obtain ⟨len, q⟩ := r
    simp only [bind, Except.bind]
    cases fetch mem q len with
    | none => rfl
    | some s =>
      simp only [Stack.duk_push_fixed_buffer, List.length_append, List.length_singleton,
        Nat.add_sub_cancel, stk_replace_at, pure, Except.pure, Stack.pushed]

theorem stk_load_consts (cfg : Config) (mem : List Nat) (p_end : Nat) :
    ∀ (n : Nat) (ctx : duk_context) (p : Nat),
      Stack.duk__load_func_consts cfg mem p_end n ctx p
        = Stack.pushed ctx (fun cs => cs.map Stack.const_tval)
            (duk__load_func_consts cfg mem p_end n p) := by
  intro n
  induction n with
  | zero =>
    intro ctx p
    simp [Stack.duk__load_func_consts, duk__load_func_consts, Stack.pushed, pure, Except.pure]
  | succ n ih =>
    intro ctx p
    rw [Stack.duk__load_func_consts, duk__load_func_consts]
    cases DUK__ASSERT_LEFT cfg p_end p 1 with
    | error e => rfl
    | ok u =>
      simp only [bind, Except.bind]
      cases DUK__READ_U8 mem p with
      | error e => rfl
      | ok r =>
        obtain ⟨t, q⟩ := r
        simp only []
        split
        · rw [stk_load_string]
          cases duk__load_string cfg mem q with
          | error e => rfl
          | ok r1 =>
            obtain ⟨s, q1⟩ := r1
            simp only [Stack.pushed]
            rw [ih]
            cases duk__load_func_consts cfg mem p_end n q1 with
            | error e => rfl
            | ok r2 =>
              obtain ⟨rest, q2⟩ := r2
              simp [Stack.pushed, pure, Except.pure, Stack.const_tval]
        · split
          · cases DUK__ASSERT_LEFT cfg p_end q 8 with
            | error e => rfl
            | ok u2 =>
              simp only []
              cases duk__read_double cfg mem q with
              | error e => rfl
              | ok r1 =>
                obtain ⟨v, q1⟩ := r1
                simp only []
                rw [ih]
                cases duk__load_func_consts cfg mem p_end n q1 with
                | error e => rfl
                | ok r2 =>
                  obtain ⟨rest, q2⟩ := r2
                  simp [Stack.pushed, pure, Except.pure, Stack.const_tval,
                    Stack.duk_push_number]
          · rfl

theorem stk_load_funcs
    (load_s : duk_context → Nat → Except duk_fault (duk_context × Nat))
    (load : Nat → Except duk_fault (duk_hcompiledfunction × Nat))
    (hload : ∀ ctx p, load_s ctx p = Stack.pushed ctx (fun f => [.compiledfunction f]) (load p)) :
    ∀ (n : Nat) (ctx : duk_context) (p : Nat),
      Stack.duk__load_func_funcs load_s n ctx p
        = Stack.pushed ctx (fun fs => fs.map .compiledfunction)
            (duk__load_func_funcs load n p) := by
  intro n
  induction n with
  | zero =>
    intro ctx p
    simp [Stack.duk__load_func_funcs, duk__load_func_funcs, Stack.pushed, pure, Except.pure]
  | succ n ih =>
    intro ctx p
    rw [Stack.duk__load_func_funcs, duk__load_func_funcs, hload]
    cases load p with
    | error e => rfl
    | ok r =>
      obtain ⟨f, q⟩ := r
      simp only [Stack.pushed, bind, Except.bind]
      rw [ih]
      cases duk__load_func_funcs load n q with
      | error e => rfl
      | ok r2 =>
        obtain ⟨rest, q2⟩ := r2
        simp [Stack.pushed, pure, Except.pure]

theorem load_consts_length (cfg : Config) (mem : List Nat) (p_end : Nat) :
    ∀ (n p : Nat) (cs : List duk_const) (q : Nat),
      duk__load_func_consts cfg mem p_end n p = .ok (cs, q) → cs.length = n := by
  intro n
  induction n with
  | zero =>
    intro p cs q h
    simp only [duk__load_func_consts, pure, Except.pure, Except.ok.injEq, Prod.mk.injEq] at h
    rw [← h.1]
    rfl
  | succ n ih =>
    intro p cs q h
    rw [duk__load_func_consts, bind_ok_iff] at h
    obtain ⟨⟨⟩, _, h⟩ := h
    rw [bind_ok_iff] at h
    obtain ⟨⟨t, p1⟩, _, h⟩ := h
    simp only [] at h
    split at h
    · rw [bind_ok_iff] at h
      obtain ⟨⟨s, p2⟩, _, h⟩ := h
      simp only [] at h
      rw [bind_ok_iff] at h
      obtain ⟨⟨rest, p3⟩, e3, h⟩ := h
      simp only [pure, Except.pure, Except.ok.injEq, Prod.mk.injEq] at h
      rw [← h.1, List.length_cons, ih _ _ _ e3]
    · split at h
      · rw [bind_ok_iff] at h
        obtain ⟨⟨⟩, _, h⟩ := h
        rw [bind_ok_iff] at h
        obtain ⟨⟨v, p2⟩, _, h⟩ := h
        simp only [] at h
        rw [bind_ok_iff] at h
        obtain ⟨⟨rest, p3⟩, e3, h⟩ := h
        simp only [pure, Except.pure, Except.ok.injEq, Prod.mk.injEq] at h
        rw [← h.1, List.length_cons, ih _ _ _ e3]
      · cases h

theorem load_funcs_length (load : Nat → Except duk_fault (duk_hcompiledfunction × Nat)) :
    ∀ (n p : Nat) (fs : List duk_hcompiledfunction) (q : Nat),
      duk__load_func_funcs load n p = .ok (fs, q) → fs.length = n := by
  intro n
  induction n with
  | zero =>
    intro p fs q h
    simp only [duk__load_func_funcs, pure, Except.pure, Except.ok.injEq, Prod.mk.injEq] at h
    rw [← h.1]
    rfl
  | succ n ih =>
    intro p fs q h
    rw [duk__load_func_funcs, bind_ok_iff] at h
    obtain ⟨⟨f, p1⟩, _, h⟩ := h
    simp only [] at h
    rw [bind_ok_iff] at h
    obtain ⟨⟨rest, p2⟩, e2, h⟩ := h
    simp only [pure, Except.pure, Except.ok.injEq, Prod.mk.injEq] at h
    rw [← h.1, List.length_cons, ih _ _ _ e2]

theorem stk_stack_consts (cs : List duk_const) :
    Stack.stack_consts (cs.map Stack.const_tval) = .ok cs := by
  induction cs with
  | nil => rfl
  | cons c cs ih =>
    cases c with
    | string h =>
      simp only [List.map_cons, Stack.const_tval, Stack.stack_consts, ih, bind, Except.bind, pure,
        Except.pure]
    | number d =>
      simp only [List.map_cons, Stack.const_tval, Stack.stack_consts, ih, bind, Except.bind, pure,
        Except.pure]

theorem stk_stack_funcs (fs : List duk_hcompiledfunction) :
    Stack.stack_funcs (fs.map .compiledfunction) = .ok fs := by
  induction fs with
  | nil => rfl
  | cons f fs ih =>
    simp only [List.map_cons, Stack.stack_funcs, ih, bind, Except.bind, pure, Except.pure]

/-- The commit step on the stack the first part of the loader builds: the
function gets the instruction words of the data buffer, the constants and the
inner functions; the stack keeps its values; the reference counts incremented
are those of the data buffer, of every string constant (once per slot) and of
every inner function (once per slot), in this order. -/
theorem stk_commit (base : duk_context) (a b c d e : Nat) (code0 : List Nat)
    (consts0 : List duk_const) (funcs0 : List duk_hcompiledfunction) (props : duk_props)
    (size : Nat) (code : List Nat) (consts : List duk_const)
    (funcs : List duk_hcompiledfunction) :
    Stack.duk__load_func_commit
        (base ++ [.compiledfunction (.mk a b c d e code0 consts0 funcs0 props),
            .fun_data size code] ++ consts.map Stack.const_tval
          ++ funcs.map .compiledfunction)
        base.length consts.length funcs.length
      = .ok (base ++ [.compiledfunction (.mk a b c d e code consts funcs props),
            .fun_data size code] ++ consts.map Stack.const_tval
            ++ funcs.map .compiledfunction,
          [duk_refop.incref (.data_buffer size code)]
            ++ consts.flatMap Stack.DUK_TVAL_INCREF_FAST
            ++ funcs.map fun h_obj => duk_refop.incref (.function h_obj)) := by
  have h1 : ((base ++ [.compiledfunction (.mk a b c d e code0 consts0 funcs0 props),
      .fun_data size code] ++ consts.map Stack.const_tval
      ++ funcs.map .compiledfunction : duk_context))[base.length + 1]?
      = some (.fun_data size code) := by
    have := stk_get_at (base ++ [.compiledfunction (.mk a b c d e code0 consts0 funcs0 props)])
      (.fun_data size code) (consts.map Stack.const_tval ++ funcs.map .compiledfunction)
    simpa using this
  have h2 : List.drop (base.length + 2)
      ((base ++ [.compiledfunction (.mk a b c d e code0 consts0 funcs0 props),
      .fun_data size code] ++ consts.map Stack.const_tval
      ++ funcs.map .compiledfunction : duk_context))
      = consts.map Stack.const_tval ++ funcs.map .compiledfunction := by
    rw [List.append_assoc, List.drop_append_eq_append_drop, List.drop_eq_nil_of_le (by simp)]
    simp
  have h3 : List.drop (base.length + 2 + consts.length)
      ((base ++ [.compiledfunction (.mk a b c d e code0 consts0 funcs0 props),
      .fun_data size code] ++ consts.map Stack.const_tval
      ++ funcs.map .compiledfunction : duk_context))
      = funcs.map .compiledfunction := by
    rw [← List.drop_drop, h2, List.drop_append_eq_append_drop,
      List.drop_eq_nil_of_le (by simp)]
    simp
  have h4 : Stack.hfun_set
      ((base ++ [.compiledfunction (.mk a b c d e code0 consts0 funcs0 props),
      .fun_data size code] ++ consts.map Stack.const_tval
      ++ funcs.map .compiledfunction : duk_context)) base.length
      (Stack.set_data code consts funcs)
      = base ++ [.compiledfunction (.mk a b c d e code consts funcs props),
        .fun_data size code] ++ consts.map Stack.const_tval
        ++ funcs.map .compiledfunction := by
    have := stk_hfun_set base (.mk a b c d e code0 consts0 funcs0 props)
      (.fun_data size code :: (consts.map Stack.const_tval ++ funcs.map .compiledfunction))
      (Stack.set_data code consts funcs)
    simpa [Stack.set_data] using this
  unfold Stack.duk__load_func_commit
  simp only [h1, h2, h3, bind, Except.bind, pure, Except.pure]
  rw [List.take_left' (by simp), List.take_of_length_le (by simp)]
  simp only [List.length_map, ne_eq, not_true_eq_false, if_false, stk_stack_consts,
    stk_stack_funcs, h4]


theorem stk_load_varmap (cfg : Config) (mem : List Nat) :
    ∀ (fuel : Nat) (base : duk_context) (h : duk_hobject) (p : Nat),
      Stack.duk__load_func_varmap cfg mem fuel (base ++ [.tval (.object h)]) p
        = match duk__load_func_varmap cfg mem fuel h.e_part p with
          | .ok (e_part, q) => .ok (base ++ [.tval (.object { h with e_part := e_part })], q)
          | .error x => .error x := by
  intro fuel
  induction fuel with
  | zero => intro base h p; rfl
  | succ fuel ih =>
    intro base h p
    rw [Stack.duk__load_func_varmap, duk__load_func_varmap, stk_load_string]
    cases duk__load_string cfg mem p with
    | error e => rfl
    | ok r =>
      obtain ⟨key, q⟩ := r
      simp only [Stack.pushed, bind, Except.bind, stk_get_length_m1]
      by_cases hk : key.length = 0
      · simp only [hk, if_true, stk_pop, pure, Except.pure]
      · simp only [hk, if_false]
        cases duk__read_u32 cfg mem q with
        | error e => rfl
        | ok r2 =>
          obtain ⟨v, q2⟩ := r2
          simp only [Stack.duk_push_u32, List.append_assoc, List.singleton_append,
            List.cons_append, List.nil_append, stk_put_prop_m3]
          exact ih base { h with e_part := duk_put_prop h.e_part key (cfg.u32_to_dbl v) } q2

theorem stk_load_formals (cfg : Config) (mem : List Nat) :
    ∀ (fuel : Nat) (base : duk_context) (h : duk_hobject) (p : Nat),
      Stack.duk__load_func_formals cfg mem fuel h.a_part.length (base ++ [.tval (.object h)]) p
        = match duk__load_func_formals cfg mem fuel h.a_part p with
          | .ok (a_part, q) => .ok (base ++ [.tval (.object { h with a_part := a_part })], q)
          | .error x => .error x := by
  intro fuel
  induction fuel with
  | zero => intro base h p; rfl
  | succ fuel ih =>
    intro base h p
    rw [Stack.duk__load_func_formals, duk__load_func_formals, stk_load_string]
    cases duk__load_string cfg mem p with
    | error e => rfl
    | ok r =>
      obtain ⟨key, q⟩ := r
      simp only [Stack.pushed, bind, Except.bind, stk_get_length_m1]
      by_cases hk : key.length = 0
      · simp only [hk, if_true, stk_pop, pure, Except.pure]
      · simp only [hk, if_false, List.append_assoc, List.singleton_append,
          List.cons_append, List.nil_append, stk_put_prop_index_m2]
        have := ih base { h with a_part := h.a_part ++ [some key] } q
        simp only [List.length_append, List.length_singleton] at this
        exact this

theorem stk_load_varmap_2 (cfg : Config) (mem : List Nat) (fuel : Nat) (base : duk_context)
    (x : duk_stack_tval) (h : duk_hobject) (p : Nat) :
    Stack.duk__load_func_varmap cfg mem fuel (base ++ [x, .tval (.object h)]) p
      = match duk__load_func_varmap cfg mem fuel h.e_part p with
        | .ok (e_part, q) => .ok (base ++ [x, .tval (.object { h with e_part := e_part })], q)
        | .error x => .error x := by
  have := stk_load_varmap cfg mem fuel (base ++ [x]) h p
  simp only [List.append_assoc, List.singleton_append] at this
  exact this

theorem stk_load_formals_2 (cfg : Config) (mem : List Nat) (fuel : Nat) (base : duk_context)
    (x : duk_stack_tval) (p : Nat) :
    Stack.duk__load_func_formals cfg mem fuel 0
        (base ++ [x, .tval (.object { e_part := [], a_part := [] })]) p
      = match duk__load_func_formals cfg mem fuel [] p with
        | .ok (a_part, q) =>
          .ok (base ++ [x, .tval (.object { e_part := [], a_part := a_part })], q)
        | .error x => .error x := by
  have := stk_load_formals cfg mem fuel (base ++ [x]) { e_part := [], a_part := [] } p
  simp only [List.append_assoc, List.singleton_append, List.length_nil] at this
  exact this

theorem stk_load_props (cfg : Config) (mem : List Nat) (flags : Nat) (base : duk_context)
    (a b c d e : Nat) (code : List Nat) (consts : List duk_const)
    (funcs : List duk_hcompiledfunction) (p : Nat) :
    Stack.duk__load_func_props cfg mem base.length flags
        (base ++ [.compiledfunction (.mk a b c d e code consts funcs no_props)]) p
      = match duk__load_func_props cfg mem flags p with
        | .ok (props, q) =>
          .ok (base ++ [.compiledfunction (.mk a b c d e code consts funcs props)], q)
        | .error x => .error x := by
  have hassert : ∀ f : duk_hcompiledfunction, DUK_ASSERT cfg
      (decide (Stack.duk_get_top (base ++ [duk_stack_tval.compiledfunction f])
        = base.length + 1)) = .ok () := by
    intro f
    exact assert_ok cfg _ (by simp [Stack.duk_get_top])
  unfold Stack.duk__load_func_props duk__load_func_props
  cases hnb : DUK_HOBJECT_HAS_NAMEBINDING cfg flags
  all_goals
    try simp only [bind, Except.bind, pure, Except.pure, Stack.duk_push_u32, Stack.duk_push_object,
      Stack.duk_push_object_helper_proto, List.append_assoc, List.singleton_append,
      List.cons_append, List.nil_append, stk_xdef_stridx_m2, stk_xdef_stridx_m2_3,
      stk_xdef_stridx_abs, Stack.define_own, stk_load_string, stk_load_buffer, Stack.pushed,
      stk_dup_m2, stk_dup_m2_3, stk_dup_abs, stk_xdef_prop_m3_5, stk_compact_m1_2,
      stk_load_varmap_2, stk_load_formals_2, hassert, if_true, if_false, Bool.false_eq_true]
    cases duk__read_u32 cfg mem p with
    | error x => rfl
    | ok r1 =>
    obtain ⟨v1, q1⟩ := r1
    try simp only [bind, Except.bind, pure, Except.pure, Stack.duk_push_u32, Stack.duk_push_object,
      Stack.duk_push_object_helper_proto, List.append_assoc, List.singleton_append,
      List.cons_append, List.nil_append, stk_xdef_stridx_m2, stk_xdef_stridx_m2_3,
      stk_xdef_stridx_abs, Stack.define_own, stk_load_string, stk_load_buffer, Stack.pushed,
      stk_dup_m2, stk_dup_m2_3, stk_dup_abs, stk_xdef_prop_m3_5, stk_compact_m1_2,
      stk_load_varmap_2, stk_load_formals_2, hassert, if_true, if_false, Bool.false_eq_true]
    cases duk__load_string cfg mem q1 with
    | error x => rfl
    | ok r2 =>
    obtain ⟨v2, q2⟩ := r2
    try simp only [bind, Except.bind, pure, Except.pure, Stack.duk_push_u32, Stack.duk_push_object,
      Stack.duk_push_object_helper_proto, List.append_assoc, List.singleton_append,
      List.cons_append, List.nil_append, stk_xdef_stridx_m2, stk_xdef_stridx_m2_3,
      stk_xdef_stridx_abs, Stack.define_own, stk_load_string, stk_load_buffer, Stack.pushed,
      stk_dup_m2, stk_dup_m2_3, stk_dup_abs, stk_xdef_prop_m3_5, stk_compact_m1_2,
      stk_load_varmap_2, stk_load_formals_2, hassert, if_true, if_false, Bool.false_eq_true]
    cases duk__load_string cfg mem q2 with
    | error x => rfl
    | ok r3 =>
    obtain ⟨v3, q3⟩ := r3
    try simp only [bind, Except.bind, pure, Except.pure, Stack.duk_push_u32, Stack.duk_push_object,
      Stack.duk_push_object_helper_proto, List.append_assoc, List.singleton_append,
      List.cons_append, List.nil_append, stk_xdef_stridx_m2, stk_xdef_stridx_m2_3,
      stk_xdef_stridx_abs, Stack.define_own, stk_load_string, stk_load_buffer, Stack.pushed,
      stk_dup_m2, stk_dup_m2_3, stk_dup_abs, stk_xdef_prop_m3_5, stk_compact_m1_2,
      stk_load_varmap_2, stk_load_formals_2, hassert, if_true, if_false, Bool.false_eq_true]
    cases duk__load_buffer cfg mem q3 with
    | error x => rfl
    | ok r4 =>
    obtain ⟨v4, q4⟩ := r4
    try simp only [bind, Except.bind, pure, Except.pure, Stack.duk_push_u32, Stack.duk_push_object,
      Stack.duk_push_object_helper_proto, List.append_assoc, List.singleton_append,
      List.cons_append, List.nil_append, stk_xdef_stridx_m2, stk_xdef_stridx_m2_3,
      stk_xdef_stridx_abs, Stack.define_own, stk_load_string, stk_load_buffer, Stack.pushed,
      stk_dup_m2, stk_dup_m2_3, stk_dup_abs, stk_xdef_prop_m3_5, stk_compact_m1_2,
      stk_load_varmap_2, stk_load_formals_2, hassert, if_true, if_false, Bool.false_eq_true]
    cases duk__load_func_varmap cfg mem (mem.length + 1) [] q4 with
    | error x => rfl
    | ok r5 =>
    obtain ⟨v5, q5⟩ := r5
    try simp only [bind, Except.bind, pure, Except.pure, Stack.duk_push_u32, Stack.duk_push_object,
      Stack.duk_push_object_helper_proto, List.append_assoc, List.singleton_append,
      List.cons_append, List.nil_append, stk_xdef_stridx_m2, stk_xdef_stridx_m2_3,
      stk_xdef_stridx_abs, Stack.define_own, stk_load_string, stk_load_buffer, Stack.pushed,
      stk_dup_m2, stk_dup_m2_3, stk_dup_abs, stk_xdef_prop_m3_5, stk_compact_m1_2,
      stk_load_varmap_2, stk_load_formals_2, hassert, if_true, if_false, Bool.false_eq_true]
    cases duk__load_func_formals cfg mem (mem.length + 1) [] q5 with
    | error x => rfl
    | ok r6 =>
    obtain ⟨v6, q6⟩ := r6
    try simp only [bind, Except.bind, pure, Except.pure, Stack.duk_push_u32, Stack.duk_push_object,
      Stack.duk_push_object_helper_proto, List.append_assoc, List.singleton_append,
      List.cons_append, List.nil_append, stk_xdef_stridx_m2, stk_xdef_stridx_m2_3,
      stk_xdef_stridx_abs, Stack.define_own, stk_load_string, stk_load_buffer, Stack.pushed,
      stk_dup_m2, stk_dup_m2_3, stk_dup_abs, stk_xdef_prop_m3_5, stk_compact_m1_2,
      stk_load_varmap_2, stk_load_formals_2, hassert, if_true, if_false, Bool.false_eq_true]
    try rfl


theorem stk_replace_at_1 (base : duk_context) (x e tv : duk_stack_tval) :
    Stack.replace_at (base ++ [x, e]) (base.length + 1) tv = base ++ [x, tv] := by
  have := stk_replace_at (base ++ [x]) e [] tv
  simpa using this

/-- The first part of the loader on the stack: above the values that were on
the stack it leaves the function object (header fields set, no data yet), the
data buffer with the instruction words, the constants and the inner functions,
in this order. -/
theorem stk_build (cfg : Config) (mem : List Nat) (p_end : Nat)
    (load_s : duk_context → Nat → Except duk_fault (duk_context × Nat))
    (load : Nat → Except duk_fault (duk_hcompiledfunction × Nat))
    (hload : ∀ ctx p, load_s ctx p = Stack.pushed ctx (fun f => [.compiledfunction f]) (load p))
    (ctx : duk_context) (p : Nat) :
    Stack.duk__load_func_build cfg mem p_end load_s ctx p
      = match (do
          let (hd, p) ← duk__load_func_header cfg mem p_end p
          DUK__ASSERT_LEFT cfg p_end p (hd.count_instr * 4)
          let (code, p) ← duk__load_func_instrs cfg mem hd.count_instr p
          let (consts, p) ← duk__load_func_consts cfg mem p_end hd.count_const p
          let (funcs, p) ← duk__load_func_funcs load hd.count_funcs p
          pure (hd, code, consts, funcs, p) :
            Except duk_fault (duk__func_header × List Nat × List duk_const
              × List duk_hcompiledfunction × Nat)) with
        | .ok (hd, code, consts, funcs, q) =>
          .ok ({ idx_base := ctx.length, count_instr := hd.count_instr,
                 count_const := hd.count_const, count_funcs := hd.count_funcs,
                 flags := hd.flags },
            ctx ++ [.compiledfunction
                (.mk hd.nregs hd.nargs hd.start_line hd.end_line hd.flags [] [] [] no_props),
              .fun_data (duk__load_func_layout cfg hd.count_instr hd.count_const
                hd.count_funcs).data_size code]
              ++ consts.map Stack.const_tval ++ funcs.map .compiledfunction, q)
        | .error x => .error x := by
  unfold Stack.duk__load_func_build duk__load_func_header
  cases hdbg : cfg.debugger_support with
  | false =>
    cases DUK__ASSERT_LEFT cfg p_end p (3 * 4) with
    | error x => rfl
    | ok u =>
    try simp only [bind, Except.bind, pure, Except.pure, Bool.false_eq_true, if_false, if_true,
        Stack.duk_require_stack, Stack.duk_get_top, Stack.duk_push_compiledfunction,
        stk_hfun_set, Stack.set_nregs, Stack.set_nargs, Stack.set_start_line,
        Stack.set_end_line, Stack.set_flags, Stack.duk_push_fixed_buffer, List.append_assoc,
        List.singleton_append, List.cons_append, List.nil_append, stk_replace_at_1,
        stk_load_consts, stk_load_funcs load_s load hload, Stack.pushed]
    cases duk__read_u32 cfg mem p with
    | error x => rfl
    | ok r1 =>
    obtain ⟨v1, q1⟩ := r1
    try simp only [bind, Except.bind, pure, Except.pure, Bool.false_eq_true, if_false, if_true,
        Stack.duk_require_stack, Stack.duk_get_top, Stack.duk_push_compiledfunction,
        stk_hfun_set, Stack.set_nregs, Stack.set_nargs, Stack.set_start_line,
        Stack.set_end_line, Stack.set_flags, Stack.duk_push_fixed_buffer, List.append_assoc,
        List.singleton_append, List.cons_append, List.nil_append, stk_replace_at_1,
        stk_load_consts, stk_load_funcs load_s load hload, Stack.pushed]
    cases duk__read_u32 cfg mem q1 with
    | error x => rfl
    | ok r2 =>
    obtain ⟨v2, q2⟩ := r2
    try simp only [bind, Except.bind, pure, Except.pure, Bool.false_eq_true, if_false, if_true,
        Stack.duk_require_stack, Stack.duk_get_top, Stack.duk_push_compiledfunction,
        stk_hfun_set, Stack.set_nregs, Stack.set_nargs, Stack.set_start_line,
        Stack.set_end_line, Stack.set_flags, Stack.duk_push_fixed_buffer, List.append_assoc,
        List.singleton_append, List.cons_append, List.nil_append, stk_replace_at_1,
        stk_load_consts, stk_load_funcs load_s load hload, Stack.pushed]
    cases duk__read_u32 cfg mem q2 with
    | error x => rfl
    | ok r3 =>
    obtain ⟨v3, q3⟩ := r3
    try simp only [bind, Except.bind, pure, Except.pure, Bool.false_eq_true, if_false, if_true,
        Stack.duk_require_stack, Stack.duk_get_top, Stack.duk_push_compiledfunction,
        stk_hfun_set, Stack.set_nregs, Stack.set_nargs, Stack.set_start_line,
        Stack.set_end_line, Stack.set_flags, Stack.duk_push_fixed_buffer, List.append_assoc,
        List.singleton_append, List.cons_append, List.nil_append, stk_replace_at_1,
        stk_load_consts, stk_load_funcs load_s load hload, Stack.pushed]
    cases duk__read_u16 cfg mem q3 with
    | error x => rfl
    | ok r4 =>
    obtain ⟨v4, q4⟩ := r4
    try simp only [bind, Except.bind, pure, Except.pure, Bool.false_eq_true, if_false, if_true,
        Stack.duk_require_stack, Stack.duk_get_top, Stack.duk_push_compiledfunction,
        stk_hfun_set, Stack.set_nregs, Stack.set_nargs, Stack.set_start_line,
        Stack.set_end_line, Stack.set_flags, Stack.duk_push_fixed_buffer, List.append_assoc,
        List.singleton_append, List.cons_append, List.nil_append, stk_replace_at_1,
        stk_load_consts, stk_load_funcs load_s load hload, Stack.pushed]
    cases duk__read_u16 cfg mem q4 with
    | error x => rfl
    | ok r5 =>
    obtain ⟨v5, q5⟩ := r5
    try simp only [bind, Except.bind, pure, Except.pure, Bool.false_eq_true, if_false, if_true,
        Stack.duk_require_stack, Stack.duk_get_top, Stack.duk_push_compiledfunction,
        stk_hfun_set, Stack.set_nregs, Stack.set_nargs, Stack.set_start_line,
        Stack.set_end_line, Stack.set_flags, Stack.duk_push_fixed_buffer, List.append_assoc,
        List.singleton_append, List.cons_append, List.nil_append, stk_replace_at_1,
        stk_load_consts, stk_load_funcs load_s load hload, Stack.pushed]
    cases duk__read_u32 cfg mem (q5 + 8) with
    | error x => rfl
    | ok r6 =>
    obtain ⟨v6, q6⟩ := r6
    try simp only [bind, Except.bind, pure, Except.pure, Bool.false_eq_true, if_false, if_true,
        Stack.duk_require_stack, Stack.duk_get_top, Stack.duk_push_compiledfunction,
        stk_hfun_set, Stack.set_nregs, Stack.set_nargs, Stack.set_start_line,
        Stack.set_end_line, Stack.set_flags, Stack.duk_push_fixed_buffer, List.append_assoc,
        List.singleton_append, List.cons_append, List.nil_append, stk_replace_at_1,
        stk_load_consts, stk_load_funcs load_s load hload, Stack.pushed]
    cases DUK__ASSERT_LEFT cfg p_end q6 (v1 * 4) with
    | error x => rfl
    | ok u2 =>
    try simp only [bind, Except.bind, pure, Except.pure, Bool.false_eq_true, if_false, if_true,
        Stack.duk_require_stack, Stack.duk_get_top, Stack.duk_push_compiledfunction,
        stk_hfun_set, Stack.set_nregs, Stack.set_nargs, Stack.set_start_line,
        Stack.set_end_line, Stack.set_flags, Stack.duk_push_fixed_buffer, List.append_assoc,
        List.singleton_append, List.cons_append, List.nil_append, stk_replace_at_1,
        stk_load_consts, stk_load_funcs load_s load hload, Stack.pushed]
    cases duk__load_func_instrs cfg mem v1 q6 with
    | error x => rfl
    | ok ri =>
    obtain ⟨code, qi⟩ := ri
    try simp only [bind, Except.bind, pure, Except.pure, Bool.false_eq_true, if_false, if_true,
        Stack.duk_require_stack, Stack.duk_get_top, Stack.duk_push_compiledfunction,
        stk_hfun_set, Stack.set_nregs, Stack.set_nargs, Stack.set_start_line,
        Stack.set_end_line, Stack.set_flags, Stack.duk_push_fixed_buffer, List.append_assoc,
        List.singleton_append, List.cons_append, List.nil_append, stk_replace_at_1,
        stk_load_consts, stk_load_funcs load_s load hload, Stack.pushed]
    cases duk__load_func_consts cfg mem p_end v2 qi with
    | error x => rfl
    | ok rc =>
    obtain ⟨consts, qc⟩ := rc
    try simp only [bind, Except.bind, pure, Except.pure, Bool.false_eq_true, if_false, if_true,
        Stack.duk_require_stack, Stack.duk_get_top, Stack.duk_push_compiledfunction,
        stk_hfun_set, Stack.set_nregs, Stack.set_nargs, Stack.set_start_line,
        Stack.set_end_line, Stack.set_flags, Stack.duk_push_fixed_buffer, List.append_assoc,
        List.singleton_append, List.cons_append, List.nil_append, stk_replace_at_1,
        stk_load_consts, stk_load_funcs load_s load hload, Stack.pushed]
    cases duk__load_func_funcs load v3 qc with
    | error x => rfl
    | ok rf =>
    obtain ⟨funcs, qf⟩ := rf
    try simp only [bind, Except.bind, pure, Except.pure, Bool.false_eq_true, if_false, if_true,
        Stack.duk_require_stack, Stack.duk_get_top, Stack.duk_push_compiledfunction,
        stk_hfun_set, Stack.set_nregs, Stack.set_nargs, Stack.set_start_line,
        Stack.set_end_line, Stack.set_flags, Stack.duk_push_fixed_buffer, List.append_assoc,
        List.singleton_append, List.cons_append, List.nil_append, stk_replace_at_1,
        stk_load_consts, stk_load_funcs load_s load hload, Stack.pushed]
  | true =>
    cases DUK__ASSERT_LEFT cfg p_end p (3 * 4) with
    | error x => rfl
    | ok u =>
    try simp only [bind, Except.bind, pure, Except.pure, Bool.false_eq_true, if_false, if_true,
        Stack.duk_require_stack, Stack.duk_get_top, Stack.duk_push_compiledfunction,
        stk_hfun_set, Stack.set_nregs, Stack.set_nargs, Stack.set_start_line,
        Stack.set_end_line, Stack.set_flags, Stack.duk_push_fixed_buffer, List.append_assoc,
        List.singleton_append, List.cons_append, List.nil_append, stk_replace_at_1,
        stk_load_consts, stk_load_funcs load_s load hload, Stack.pushed]
    cases duk__read_u32 cfg mem p with
    | error x => rfl
    | ok r1 =>
    obtain ⟨v1, q1⟩ := r1
    try simp only [bind, Except.bind, pure, Except.pure, Bool.false_eq_true, if_false, if_true,
        Stack.duk_require_stack, Stack.duk_get_top, Stack.duk_push_compiledfunction,
        stk_hfun_set, Stack.set_nregs, Stack.set_nargs, Stack.set_start_line,
        Stack.set_end_line, Stack.set_flags, Stack.duk_push_fixed_buffer, List.append_assoc,
        List.singleton_append, List.cons_append, List.nil_append, stk_replace_at_1,
        stk_load_consts, stk_load_funcs load_s load hload, Stack.pushed]
    cases duk__read_u32 cfg mem q1 with
    | error x => rfl
    | ok r2 =>
    obtain ⟨v2, q2⟩ := r2
    try simp only [bind, Except.bind, pure, Except.pure, Bool.false_eq_true, if_false, if_true,
        Stack.duk_require_stack, Stack.duk_get_top, Stack.duk_push_compiledfunction,
        stk_hfun_set, Stack.set_nregs, Stack.set_nargs, Stack.set_start_line,
        Stack.set_end_line, Stack.set_flags, Stack.duk_push_fixed_buffer, List.append_assoc,
        List.singleton_append, List.cons_append, List.nil_append, stk_replace_at_1,
        stk_load_consts, stk_load_funcs load_s load hload, Stack.pushed]
    cases duk__read_u32 cfg mem q2 with
    | error x => rfl
    | ok r3 =>
    obtain ⟨v3, q3⟩ := r3
    try simp only [bind, Except.bind, pure, Except.pure, Bool.false_eq_true, if_false, if_true,
        Stack.duk_require_stack, Stack.duk_get_top, Stack.duk_push_compiledfunction,
        stk_hfun_set, Stack.set_nregs, Stack.set_nargs, Stack.set_start_line,
        Stack.set_end_line, Stack.set_flags, Stack.duk_push_fixed_buffer, List.append_assoc,
        List.singleton_append, List.cons_append, List.nil_append, stk_replace_at_1,
        stk_load_consts, stk_load_funcs load_s load hload, Stack.pushed]
    cases duk__read_u16 cfg mem q3 with
    | error x => rfl
    | ok r4 =>
    obtain ⟨v4, q4⟩ := r4
    try simp only [bind, Except.bind, pure, Except.pure, Bool.false_eq_true, if_false, if_true,
        Stack.duk_require_stack, Stack.duk_get_top, Stack.duk_push_compiledfunction,
        stk_hfun_set, Stack.set_nregs, Stack.set_nargs, Stack.set_start_line,
        Stack.set_end_line, Stack.set_flags, Stack.duk_push_fixed_buffer, List.append_assoc,
        List.singleton_append, List.cons_append, List.nil_append, stk_replace_at_1,
        stk_load_consts, stk_load_funcs load_s load hload, Stack.pushed]
    cases duk__read_u16 cfg mem q4 with
    | error x => rfl
    | ok r5 =>
    obtain ⟨v5, q5⟩ := r5
    try simp only [bind, Except.bind, pure, Except.pure, Bool.false_eq_true, if_false, if_true,
        Stack.duk_require_stack, Stack.duk_get_top, Stack.duk_push_compiledfunction,
        stk_hfun_set, Stack.set_nregs, Stack.set_nargs, Stack.set_start_line,
        Stack.set_end_line, Stack.set_flags, Stack.duk_push_fixed_buffer, List.append_assoc,
        List.singleton_append, List.cons_append, List.nil_append, stk_replace_at_1,
        stk_load_consts, stk_load_funcs load_s load hload, Stack.pushed]
    cases duk__read_u32 cfg mem q5 with
    | error x => rfl
    | ok r6 =>
    obtain ⟨v6, q6⟩ := r6
    try simp only [bind, Except.bind, pure, Except.pure, Bool.false_eq_true, if_false, if_true,
        Stack.duk_require_stack, Stack.duk_get_top, Stack.duk_push_compiledfunction,
        stk_hfun_set, Stack.set_nregs, Stack.set_nargs, Stack.set_start_line,
        Stack.set_end_line, Stack.set_flags, Stack.duk_push_fixed_buffer, List.append_assoc,
        List.singleton_append, List.cons_append, List.nil_append, stk_replace_at_1,
        stk_load_consts, stk_load_funcs load_s load hload, Stack.pushed]
    cases duk__read_u32 cfg mem q6 with
    | error x => rfl
    | ok r7 =>
    obtain ⟨v7, q7⟩ := r7
    try simp only [bind, Except.bind, pure, Except.pure, Bool.false_eq_true, if_false, if_true,
        Stack.duk_require_stack, Stack.duk_get_top, Stack.duk_push_compiledfunction,
        stk_hfun_set, Stack.set_nregs, Stack.set_nargs, Stack.set_start_line,
        Stack.set_end_line, Stack.set_flags, Stack.duk_push_fixed_buffer, List.append_assoc,
        List.singleton_append, List.cons_append, List.nil_append, stk_replace_at_1,
        stk_load_consts, stk_load_funcs load_s load hload, Stack.pushed]
    cases duk__read_u32 cfg mem q7 with
    | error x => rfl
    | ok r8 =>
    obtain ⟨v8, q8⟩ := r8
    try simp only [bind, Except.bind, pure, Except.pure, Bool.false_eq_true, if_false, if_true,
        Stack.duk_require_stack, Stack.duk_get_top, Stack.duk_push_compiledfunction,
        stk_hfun_set, Stack.set_nregs, Stack.set_nargs, Stack.set_start_line,
        Stack.set_end_line, Stack.set_flags, Stack.duk_push_fixed_buffer, List.append_assoc,
        List.singleton_append, List.cons_append, List.nil_append, stk_replace_at_1,
        stk_load_consts, stk_load_funcs load_s load hload, Stack.pushed]
    cases DUK__ASSERT_LEFT cfg p_end q8 (v1 * 4) with
    | error x => rfl
    | ok u2 =>
    try simp only [bind, Except.bind, pure, Except.pure, Bool.false_eq_true, if_false, if_true,
        Stack.duk_require_stack, Stack.duk_get_top, Stack.duk_push_compiledfunction,
        stk_hfun_set, Stack.set_nregs, Stack.set_nargs, Stack.set_start_line,
        Stack.set_end_line, Stack.set_flags, Stack.duk_push_fixed_buffer, List.append_assoc,
        List.singleton_append, List.cons_append, List.nil_append, stk_replace_at_1,
        stk_load_consts, stk_load_funcs load_s load hload, Stack.pushed]
    cases duk__load_func_instrs cfg mem v1 q8 with
    | error x => rfl
    | ok ri =>
    obtain ⟨code, qi⟩ := ri
    try simp only [bind, Except.bind, pure, Except.pure, Bool.false_eq_true, if_false, if_true,
        Stack.duk_require_stack, Stack.duk_get_top, Stack.duk_push_compiledfunction,
        stk_hfun_set, Stack.set_nregs, Stack.set_nargs, Stack.set_start_line,
        Stack.set_end_line, Stack.set_flags, Stack.duk_push_fixed_buffer, List.append_assoc,
        List.singleton_append, List.cons_append, List.nil_append, stk_replace_at_1,
        stk_load_consts, stk_load_funcs load_s load hload, Stack.pushed]
    cases duk__load_func_consts cfg mem p_end v2 qi with
    | error x => rfl
    | ok rc =>
    obtain ⟨consts, qc⟩ := rc
    try simp only [bind, Except.bind, pure, Except.pure, Bool.false_eq_true, if_false, if_true,
        Stack.duk_require_stack, Stack.duk_get_top, Stack.duk_push_compiledfunction,
        stk_hfun_set, Stack.set_nregs, Stack.set_nargs, Stack.set_start_line,
        Stack.set_end_line, Stack.set_flags, Stack.duk_push_fixed_buffer, List.append_assoc,
        List.singleton_append, List.cons_append, List.nil_append, stk_replace_at_1,
        stk_load_consts, stk_load_funcs load_s load hload, Stack.pushed]
    cases duk__load_func_funcs load v3 qc with
    | error x => rfl
    | ok rf =>
    obtain ⟨funcs, qf⟩ := rf
    try simp only [bind, Except.bind, pure, Except.pure, Bool.false_eq_true, if_false, if_true,
        Stack.duk_require_stack, Stack.duk_get_top, Stack.duk_push_compiledfunction,
        stk_hfun_set, Stack.set_nregs, Stack.set_nargs, Stack.set_start_line,
        Stack.set_end_line, Stack.set_flags, Stack.duk_push_fixed_buffer, List.append_assoc,
        List.singleton_append, List.cons_append, List.nil_append, stk_replace_at_1,
        stk_load_consts, stk_load_funcs load_s load hload, Stack.pushed]


theorem stk_set_top_1 (base : duk_context) (x y : duk_stack_tval) (l1 l2 : duk_context) :
    Stack.duk_set_top (base ++ [x, y] ++ l1 ++ l2) (base.length + 1) = base ++ [x] := by
  have := stk_set_top (base ++ [x]) (y :: (l1 ++ l2))
  simpa using this

/-- The loader on the value stack and the loader as a function of the input
agree: a call either ends the same way as the function loader, or returns the
same cursor and leaves the stack as it was with the loaded function pushed. -/
theorem stk_load_func (cfg : Config) (mem : List Nat) (p_end : Nat) :
    ∀ (fuel : Nat) (ctx : duk_context) (p : Nat),
      Stack.duk__load_func cfg mem p_end fuel ctx p
        = Stack.pushed ctx (fun f => [.compiledfunction f])
            (duk__load_func cfg mem p_end fuel p) := by
  intro fuel
  induction fuel with
  | zero => intro ctx p; rfl
  | succ fuel ih =>
    intro ctx p
    rw [Stack.duk__load_func, duk__load_func,
      stk_build cfg mem p_end _ (duk__load_func cfg mem p_end fuel) ih ctx p]
    cases duk__load_func_header cfg mem p_end p with
    | error x => rfl
    | ok r1 =>
    obtain ⟨hd, q1⟩ := r1
    simp only [bind, Except.bind]
    cases DUK__ASSERT_LEFT cfg p_end q1 (hd.count_instr * 4) with
    | error x => rfl
    | ok u =>
    simp only []
    cases duk__load_func_instrs cfg mem hd.count_instr q1 with
    | error x => rfl
    | ok r2 =>
    obtain ⟨code, q2⟩ := r2
    simp only []
    cases hc : duk__load_func_consts cfg mem p_end hd.count_const q2 with
    | error x => rfl
    | ok r3 =>
    obtain ⟨consts, q3⟩ := r3
    simp only []
    cases hf : duk__load_func_funcs (duk__load_func cfg mem p_end fuel) hd.count_funcs q3 with
    | error x => rfl
    | ok r4 =>
    obtain ⟨funcs, q4⟩ := r4
    have hcl := load_consts_length cfg mem p_end _ _ _ _ hc
    have hfl := load_funcs_length _ _ _ _ _ hf
    simp only [pure, Except.pure]
    rw [← hcl, ← hfl, stk_commit]
    simp only [stk_set_top_1, stk_load_props]
    cases duk__load_func_props cfg mem hd.flags q4 with
    | error x => rfl
    | ok r5 =>
    obtain ⟨props, q5⟩ := r5
    rfl

/-- `duk_load_function` on the value stack, with the input buffer on the stack
top: it ends the same way as `duk_load_function` on the buffer, or leaves the
loaded function in the buffer's place. -/
theorem stk_load_function (cfg : Config) (base : duk_context) (buf beyond : List Nat) :
    Stack.duk_load_function cfg (base ++ [.tval (.buffer buf)]) beyond
      = match duk_load_function cfg buf beyond with
        | .ok f => .ok (base ++ [.compiledfunction f])
        | .error x => .error x := by
  unfold Stack.duk_load_function duk_load_function duk_load_function_with
  simp only [stk_require_buffer_m1, bind, Except.bind, stk_load_func]
  split
  · rfl
  · cases duk__load_func cfg (buf ++ beyond) buf.length ((buf ++ beyond).length + 1) 2 with
    | error x => cases x <;> rfl
    | ok r =>
      obtain ⟨f, q⟩ := r
      simp only [Stack.pushed, duk_load_function_finish, List.append_assoc,
        List.singleton_append, stk_remove_m2]


/-- The stack the first part of the loader has built when it returns. -/
theorem stk_build_shape (cfg : Config) (mem : List Nat) (p_end fuel : Nat) (ctx : duk_context)
    (p : Nat) (st : Stack.duk__load_state) (built : duk_context) (q : Nat)
    (h : Stack.duk__load_func_build cfg mem p_end (Stack.duk__load_func cfg mem p_end fuel) ctx p
      = .ok (st, built, q)) :
    ∃ (h_fun : duk_hcompiledfunction) (code : List Nat) (consts : List duk_const)
      (funcs : List duk_hcompiledfunction),
      built = ctx ++ [.compiledfunction h_fun,
          .fun_data (duk__load_func_layout cfg st.count_instr st.count_const
            st.count_funcs).data_size code]
          ++ consts.map Stack.const_tval ++ funcs.map .compiledfunction
        ∧ h_fun.code = [] ∧ h_fun.consts = [] ∧ h_fun.funcs = []
        ∧ st.idx_base = ctx.length ∧ consts.length = st.count_const
        ∧ funcs.length = st.count_funcs := by
  rw [stk_build cfg mem p_end _ (duk__load_func cfg mem p_end fuel)
    (stk_load_func cfg mem p_end fuel) ctx p] at h
  revert h
  cases duk__load_func_header cfg mem p_end p with
  | error x => intro h; cases h
  | ok r1 =>
  obtain ⟨hd, q1⟩ := r1
  simp only [bind, Except.bind]
  cases DUK__ASSERT_LEFT cfg p_end q1 (hd.count_instr * 4) with
  | error x => intro h; cases h
  | ok u =>
  simp only []
  cases duk__load_func_instrs cfg mem hd.count_instr q1 with
  | error x => intro h; cases h
  | ok r2 =>
  obtain ⟨code, q2⟩ := r2
  simp only []
  cases hc : duk__load_func_consts cfg mem p_end hd.count_const q2 with
  | error x => intro h; cases h
  | ok r3 =>
  obtain ⟨consts, q3⟩ := r3
  simp only []
  cases hf : duk__load_func_funcs (duk__load_func cfg mem p_end fuel) hd.count_funcs q3 with
  | error x => intro h; cases h
  | ok r4 =>
  obtain ⟨funcs, q4⟩ := r4
  have hcl := load_consts_length cfg mem p_end _ _ _ _ hc
  have hfl := load_funcs_length _ _ _ _ _ hf
  intro h
  simp only [pure, Except.pure, Except.ok.injEq, Prod.mk.injEq] at h
  obtain ⟨rfl, rfl, rfl⟩ := h
  exact ⟨_, code, consts, funcs, rfl, rfl, rfl, rfl, rfl, hcl, hfl⟩

/-! ### C18: the stack effect of a load -/

/-- C18. Stack effect of load.  For every input on which `duk__load_func`
(on the value stack) returns, the stack on return is the stack at entry with
exactly one more value on top, the loaded function, which is the function the
loader yields as a function of the input; this is so for every call, the
recursive ones included, so that the first part of the call has left, above
the `idx_base` values of the stack at entry, exactly the function, the data
buffer, `count_const` constants and `count_funcs` inner functions, in this
order, when the commit step runs.  `duk_load_function` on a stack whose top is
the input buffer, when it returns, leaves a stack of the same height with the
loaded function in the buffer's place. -/
theorem load_stack_effect (cfg : Config) (mem : List Nat) (p_end fuel : Nat)
    (ctx ctx' : duk_context) (p q : Nat)
    (h : Stack.duk__load_func cfg mem p_end fuel ctx p = .ok (ctx', q)) :
    ctx'.length = ctx.length + 1
      ∧ (∃ f, ctx' = ctx ++ [.compiledfunction f]
          ∧ duk__load_func cfg mem p_end fuel p = .ok (f, q))
      ∧ (∃ (k : Nat) (st : Stack.duk__load_state) (q1 : Nat) (h_fun : duk_hcompiledfunction)
          (size : Nat) (code : List Nat) (consts : List duk_const)
          (funcs : List duk_hcompiledfunction),
          fuel = k + 1
          ∧ Stack.duk__load_func_build cfg mem p_end (Stack.duk__load_func cfg mem p_end k) ctx p
              = .ok (st, ctx ++ [.compiledfunction h_fun, .fun_data size code]
                  ++ consts.map Stack.const_tval ++ funcs.map .compiledfunction, q1)
          ∧ st.idx_base = ctx.length ∧ consts.length = st.count_const
          ∧ funcs.length = st.count_funcs)
      ∧ (∀ (base : duk_context) (buf beyond : List Nat) (out : duk_context),
          Stack.duk_load_function cfg (base ++ [.tval (.buffer buf)]) beyond = .ok out →
          out.length = (base ++ [duk_stack_tval.tval (.buffer buf)]).length
            ∧ ∃ f, out = base ++ [.compiledfunction f]
              ∧ duk_load_function cfg buf beyond = .ok f) := by
  have hfun : ∃ f, ctx' = ctx ++ [.compiledfunction f]
      ∧ duk__load_func cfg mem p_end fuel p = .ok (f, q) := by
    rw [stk_load_func] at h
    cases hl : duk__load_func cfg mem p_end fuel p with
    | error x => rw [hl] at h; cases h
    | ok r =>
      obtain ⟨f, q'⟩ := r
      rw [hl] at h
      simp only [Stack.pushed, Except.ok.injEq, Prod.mk.injEq] at h
      obtain ⟨rfl, rfl⟩ := h
      exact ⟨f, rfl, rfl⟩
  refine ⟨?_, hfun, ?_, ?_⟩
  · obtain ⟨f, rfl, _⟩ := hfun
    simp
  · cases fuel with
    | zero => cases h
    | succ k =>
      rw [Stack.duk__load_func, bind_ok_iff] at h
      obtain ⟨⟨st, built, q1⟩, hb, _⟩ := h
      obtain ⟨h_fun, code, consts, funcs, rfl, _, _, _, h1, h2, h3⟩ :=
        stk_build_shape cfg mem p_end k ctx p st built q1 hb
      exact ⟨k, st, q1, h_fun, _, code, consts, funcs, rfl, hb, h1, h2, h3⟩
  · intro base buf beyond out ho
    rw [stk_load_function] at ho
    cases hl : duk_load_function cfg buf beyond with
    | error x => rw [hl] at ho; cases ho
    | ok f =>
      rw [hl] at ho
      simp only [Except.ok.injEq] at ho
      subst ho
      exact ⟨by simp, f, rfl, rfl⟩

set_option maxRecDepth 16384 in
/-- C18, at the serialisation of the sample function (constants, an inner
function, name binding) and a stack that holds two values. -/
theorem load_stack_effect_witness :
    (ctx_two ++ [duk_stack_tval.compiledfunction (loaded host_le func_sample)]).length
        = ctx_two.length + 1
      ∧ (∃ f, ctx_two ++ [duk_stack_tval.compiledfunction (loaded host_le func_sample)]
            = ctx_two ++ [.compiledfunction f]
          ∧ duk__load_func host_le (Spec.Func host_le func_sample ++ []) 500 3 0
              = .ok (f, 0 + (Spec.Func host_le func_sample).length))
      ∧ (∃ (k : Nat) (st : Stack.duk__load_state) (q1 : Nat) (h_fun : duk_hcompiledfunction)
          (size : Nat) (code : List Nat) (consts : List duk_const)
          (funcs : List duk_hcompiledfunction),
          3 = k + 1
          ∧ Stack.duk__load_func_build host_le (Spec.Func host_le func_sample ++ []) 500
              (Stack.duk__load_func host_le (Spec.Func host_le func_sample ++ []) 500 k)
              ctx_two 0
              = .ok (st, ctx_two ++ [.compiledfunction h_fun, .fun_data size code]
                  ++ consts.map Stack.const_tval ++ funcs.map .compiledfunction, q1)
          ∧ st.idx_base = ctx_two.length ∧ consts.length = st.count_const
          ∧ funcs.length = st.count_funcs)
      ∧ (∀ (base : duk_context) (buf beyond : List Nat) (out : duk_context),
          Stack.duk_load_function host_le (base ++ [.tval (.buffer buf)]) beyond = .ok out →
          out.length = (base ++ [duk_stack_tval.tval (.buffer buf)]).length
            ∧ ∃ f, out = base ++ [.compiledfunction f]
              ∧ duk_load_function host_le buf beyond = .ok f) :=
  load_stack_effect host_le (Spec.Func host_le func_sample ++ []) 500 3 ctx_two
    (ctx_two ++ [.compiledfunction (loaded host_le func_sample)]) 0
    (0 + (Spec.Func host_le func_sample).length)
    (by
      rw [stk_load_func, load_func_at host_le _ 500 func_sample 3 0 (by decide)
        (at_zero_append _ _) (by decide) (by decide) (by decide)]
      rfl)


/-! ### C21: the layout of the data region -/

/-- C21 as stated fails where `duk_size_t` has 32 bits: for the header with
`0x40000000` instructions, no constants and no inner functions the size
computed for the data buffer is 0, not `4 * 0x40000000`; for the header with
`0x20000000` constants (eight bytes each) it is 0 as well, while the
inner-function and bytecode pointers are set `0x100000000` bytes behind the
start of the buffer. -/
theorem data_size_wraps_on_32_bit_host :
    (duk__load_func_layout host_32 0x40000000 0 0).data_size = 0
      ∧ host_32.sizeof_tval * 0 + host_32.sizeof_hobject_ptr * 0 + 4 * 0x40000000 = 0x100000000
      ∧ duk__load_func_layout host_32 0 0x20000000 0
          = { data_size := 0, instr_offset := 0, consts_offset := 0,
              funcs_offset := 0x100000000, bytecode_offset := 0x100000000 } := by
  decide

/-- C21, where the size of the data region fits `duk_size_t` (as it does for
all 32-bit counts where `duk_size_t` has 64 bits).  The size computed for the
data buffer, which is the size of the buffer the loader pushes, is
`sizeof(duk_tval) * n_const + sizeof(duk_hobject *) * n_funcs + 4 * n_instr`;
the constants are copied to offset 0, the inner-function pointers start at
`sizeof(duk_tval) * n_const`, the bytecode pointer is set to
`sizeof(duk_tval) * n_const + sizeof(duk_hobject *) * n_funcs`, which is
where the instruction words were stored; each part ends where the next
begins, and the last ends at the size of the buffer. -/
theorem data_region_layout (cfg : Config) (n_instr n_const n_funcs : Nat)
    (hfit : cfg.sizeof_tval * n_const + cfg.sizeof_hobject_ptr * n_funcs + 4 * n_instr
      < 2 ^ cfg.size_bits) :
    (duk__load_func_layout cfg n_instr n_const n_funcs).data_size
        = cfg.sizeof_tval * n_const + cfg.sizeof_hobject_ptr * n_funcs + 4 * n_instr
      ∧ (duk__load_func_layout cfg n_instr n_const n_funcs).consts_offset = 0
      ∧ (duk__load_func_layout cfg n_instr n_const n_funcs).funcs_offset
          = cfg.sizeof_tval * n_const
      ∧ (duk__load_func_layout cfg n_instr n_const n_funcs).bytecode_offset
          = cfg.sizeof_tval * n_const + cfg.sizeof_hobject_ptr * n_funcs
      ∧ (duk__load_func_layout cfg n_instr n_const n_funcs).instr_offset
          = (duk__load_func_layout cfg n_instr n_const n_funcs).bytecode_offset
      ∧ (duk__load_func_layout cfg n_instr n_const n_funcs).consts_offset
            + cfg.sizeof_tval * n_const
          = (duk__load_func_layout cfg n_instr n_const n_funcs).funcs_offset
      ∧ (duk__load_func_layout cfg n_instr n_const n_funcs).funcs_offset
            + cfg.sizeof_hobject_ptr * n_funcs
          = (duk__load_func_layout cfg n_instr n_const n_funcs).bytecode_offset
      ∧ (duk__load_func_layout cfg n_instr n_const n_funcs).bytecode_offset + 4 * n_instr
          = (duk__load_func_layout cfg n_instr n_const n_funcs).data_size
      ∧ (∀ (mem : List Nat) (p_end fuel : Nat) (ctx : duk_context) (p : Nat)
          (st : Stack.duk__load_state) (built : duk_context) (q : Nat),
          Stack.duk__load_func_build cfg mem p_end (Stack.duk__load_func cfg mem p_end fuel)
              ctx p = .ok (st, built, q) →
          ∃ code, built[st.idx_base + 1]?
            = some (.fun_data (duk__load_func_layout cfg st.count_instr st.count_const
                st.count_funcs).data_size code)) := by
  have h1 : cfg.sizeof_tval * n_const % 2 ^ cfg.size_bits = cfg.sizeof_tval * n_const :=
    Nat.mod_eq_of_lt (by omega)
  have h2 : cfg.sizeof_hobject_ptr * n_funcs % 2 ^ cfg.size_bits
      = cfg.sizeof_hobject_ptr * n_funcs := Nat.mod_eq_of_lt (by omega)
  simp only [duk__load_func_layout, Nat.mod_eq_of_lt hfit, h1, h2, Nat.zero_add, true_and]
  intro mem p_end fuel ctx p st built q hb
  obtain ⟨h_fun, code, consts, funcs, rfl, _, _, _, hi, _, _⟩ :=
    stk_build_shape cfg mem p_end fuel ctx p st built q hb
  refine ⟨code, ?_⟩
  rw [hi]
  have := stk_get_at (ctx ++ [.compiledfunction h_fun])
    (.fun_data (duk__load_func_layout cfg st.count_instr st.count_const
      st.count_funcs).data_size code)
    (consts.map Stack.const_tval ++ funcs.map .compiledfunction)
  simpa [duk__load_func_layout] using this

/-- C21 (amended), at three instructions, two constants and one inner function
on a 32-bit host. -/
theorem data_region_layout_witness :
    (duk__load_func_layout host_32 3 2 1).data_size
        = host_32.sizeof_tval * 2 + host_32.sizeof_hobject_ptr * 1 + 4 * 3
      ∧ (duk__load_func_layout host_32 3 2 1).consts_offset = 0
      ∧ (duk__load_func_layout host_32 3 2 1).funcs_offset = host_32.sizeof_tval * 2
      ∧ (duk__load_func_layout host_32 3 2 1).bytecode_offset
          = host_32.sizeof_tval * 2 + host_32.sizeof_hobject_ptr * 1
      ∧ (duk__load_func_layout host_32 3 2 1).instr_offset
          = (duk__load_func_layout host_32 3 2 1).bytecode_offset
      ∧ (duk__load_func_layout host_32 3 2 1).consts_offset + host_32.sizeof_tval * 2
          = (duk__load_func_layout host_32 3 2 1).funcs_offset
      ∧ (duk__load_func_layout host_32 3 2 1).funcs_offset + host_32.sizeof_hobject_ptr * 1
          = (duk__load_func_layout host_32 3 2 1).bytecode_offset
      ∧ (duk__load_func_layout host_32 3 2 1).bytecode_offset + 4 * 3
          = (duk__load_func_layout host_32 3 2 1).data_size
      ∧ (∀ (mem : List Nat) (p_end fuel : Nat) (ctx : duk_context) (p : Nat)
          (st : Stack.duk__load_state) (built : duk_context) (q : Nat),
          Stack.duk__load_func_build host_32 mem p_end
              (Stack.duk__load_func host_32 mem p_end fuel) ctx p = .ok (st, built, q) →
          ∃ code, built[st.idx_base + 1]?
            = some (.fun_data (duk__load_func_layout host_32 st.count_instr st.count_const
                st.count_funcs).data_size code)) :=
  data_region_layout host_32 3 2 1 (by decide)

/-! ### C22: the reference counts at commit -/

theorem incref_fast_length (consts : List duk_const) :
    (consts.flatMap Stack.DUK_TVAL_INCREF_FAST).length
      = (consts.filter fun c => match c with
          | .string _ => true
          | .number _ => false).length := by
  induction consts with
  | nil => rfl
  | cons cst rest ih =>
    cases cst with
    | string s =>
      simp only [List.flatMap_cons, Stack.DUK_TVAL_INCREF_FAST, List.length_append,
        List.length_singleton, List.filter_cons_of_pos, List.length_cons, List.length_nil, ih]
      omega
    | number d =>
      simp only [List.flatMap_cons, Stack.DUK_TVAL_INCREF_FAST, List.nil_append, ih,
        Bool.false_eq_true, not_false_eq_true, List.filter_cons_of_neg]

/-- C22. Reference counts at commit.  In every call of `duk__load_func` that
returns, the commit step runs on the stack the first part of the call built
(function, data buffer, constants, inner functions above the values that were
there), and the reference-count operations it makes are, in this order: one
increment for the data buffer; for every constant slot that holds a string
one increment of that string, and none for a slot that holds a number; for
every inner-function slot one increment of that function.  There is no other
operation; in particular nothing is decremented. -/
theorem commit_reference_counts (cfg : Config) (mem : List Nat) (p_end k : Nat)
    (ctx ctx' : duk_context) (p q : Nat)
    (h : Stack.duk__load_func cfg mem p_end (k + 1) ctx p = .ok (ctx', q)) :
    ∃ (st : Stack.duk__load_state) (q1 : Nat) (h_fun : duk_hcompiledfunction) (size : Nat)
      (code : List Nat) (consts : List duk_const) (funcs : List duk_hcompiledfunction)
      (ctx2 : duk_context) (ops : List duk_refop),
      Stack.duk__load_func_build cfg mem p_end (Stack.duk__load_func cfg mem p_end k) ctx p
          = .ok (st, ctx ++ [.compiledfunction h_fun, .fun_data size code]
              ++ consts.map Stack.const_tval ++ funcs.map .compiledfunction, q1)
        ∧ consts.length = st.count_const ∧ funcs.length = st.count_funcs
        ∧ Stack.duk__load_func_commit
            (ctx ++ [.compiledfunction h_fun, .fun_data size code]
              ++ consts.map Stack.const_tval ++ funcs.map .compiledfunction)
            st.idx_base st.count_const st.count_funcs = .ok (ctx2, ops)
        ∧ ops = [duk_refop.incref (.data_buffer size code)]
            ++ consts.flatMap Stack.DUK_TVAL_INCREF_FAST
            ++ funcs.map (fun h_obj => duk_refop.incref (.function h_obj))
        ∧ (∀ s, Stack.DUK_TVAL_INCREF_FAST (.string s) = [duk_refop.incref (.string s)])
        ∧ (∀ d, Stack.DUK_TVAL_INCREF_FAST (.number d) = [])
        ∧ (∀ r ∈ ops, ∃ o, r = duk_refop.incref o)
        ∧ ops.length = 1 + (consts.filter fun c => match c with
            | .string _ => true
            | .number _ => false).length + funcs.length := by
  rw [Stack.duk__load_func, bind_ok_iff] at h
  obtain ⟨⟨st, built, q1⟩, hb, _⟩ := h
  obtain ⟨h_fun, code, consts, funcs, rfl, _, _, _, h1, h2, h3⟩ :=
    stk_build_shape cfg mem p_end k ctx p st built q1 hb
  obtain ⟨a, b, c, d, e, code0, consts0, funcs0, props⟩ := h_fun
  have hc := stk_commit ctx a b c d e code0 consts0 funcs0 props
    (duk__load_func_layout cfg st.count_instr st.count_const st.count_funcs).data_size
    code consts funcs
  rw [h2, h3, ← h1] at hc
  refine ⟨st, q1, _, _, code, consts, funcs, _, _, hb, h2, h3, hc, rfl, fun s => rfl,
    fun d => rfl, ?_, ?_⟩
  · intro r hr
    simp only [List.mem_append, List.mem_singleton, List.mem_flatMap, List.mem_map] at hr
    obtain (rfl | ⟨cst, _, hr⟩) | ⟨f, _, rfl⟩ := hr
    · exact ⟨_, rfl⟩
    · cases cst with
      | string s =>
        simp only [Stack.DUK_TVAL_INCREF_FAST, List.mem_singleton] at hr
        exact ⟨_, hr⟩
      | number d =>
        simp only [Stack.DUK_TVAL_INCREF_FAST, List.not_mem_nil] at hr
    · exact ⟨_, rfl⟩
  · simp only [List.length_append, List.length_singleton, List.length_map,
      incref_fast_length]

set_option maxRecDepth 16384 in
/-- C22, at the serialisation of the sample function and a stack that holds two
values. -/
theorem commit_reference_counts_witness :
    ∃ (st : Stack.duk__load_state) (q1 : Nat) (h_fun : duk_hcompiledfunction) (size : Nat)
      (code : List Nat) (consts : List duk_const) (funcs : List duk_hcompiledfunction)
      (ctx2 : duk_context) (ops : List duk_refop),
      Stack.duk__load_func_build host_le (Spec.Func host_le func_sample ++ []) 500
          (Stack.duk__load_func host_le (Spec.Func host_le func_sample ++ []) 500 2) ctx_two 0
          = .ok (st, ctx_two ++ [.compiledfunction h_fun, .fun_data size code]
              ++ consts.map Stack.const_tval ++ funcs.map .compiledfunction, q1)
        ∧ consts.length = st.count_const ∧ funcs.length = st.count_funcs
        ∧ Stack.duk__load_func_commit
            (ctx_two ++ [.compiledfunction h_fun, .fun_data size code]
              ++ consts.map Stack.const_tval ++ funcs.map .compiledfunction)
            st.idx_base st.count_const st.count_funcs = .ok (ctx2, ops)
        ∧ ops = [duk_refop.incref (.data_buffer size code)]
            ++ consts.flatMap Stack.DUK_TVAL_INCREF_FAST
            ++ funcs.map (fun h_obj => duk_refop.incref (.function h_obj))
        ∧ (∀ s, Stack.DUK_TVAL_INCREF_FAST (.string s) = [duk_refop.incref (.string s)])
        ∧ (∀ d, Stack.DUK_TVAL_INCREF_FAST (.number d) = [])
        ∧ (∀ r ∈ ops, ∃ o, r = duk_refop.incref o)
        ∧ ops.length = 1 + (consts.filter fun c => match c with
            | .string _ => true
            | .number _ => false).length + funcs.length :=
  commit_reference_counts host_le (Spec.Func host_le func_sample ++ []) 500 2 ctx_two
    (ctx_two ++ [.compiledfunction (loaded host_le func_sample)]) 0
    (0 + (Spec.Func host_le func_sample).length)
    (by
      rw [stk_load_func, load_func_at host_le _ 500 func_sample 3 0 (by decide)
        (at_zero_append _ _) (by decide) (by decide) (by decide)]
      rfl)

/-! ### C23: the stack reservation -/

/-- C23 as stated fails for large counts: the argument of `duk_require_stack`
is computed in `duk_uint32_t` and passed as a `duk_idx_t`.  For
`n_const = 0xFFFFFFFF` and no inner functions the slot count passed is 1 (the
mathematical value is `0x100000001`); for `n_const = 0x7FFFFFFF` it is
negative.  The first of these headers is read by the first part of the loader
from a 30-byte input. -/
theorem stack_reservation_wraps :
    duk__load_func_reserve 0xFFFFFFFF 0 = 1
      ∧ (2 + 0xFFFFFFFF + 0 : Int) = 0x100000001
      ∧ duk__load_func_reserve 0x7FFFFFFF 0 = -2147483647
      ∧ (duk__load_func_header host_le blob_many_consts 30 2).toOption.map
          (fun r => (r.1.count_const, r.1.count_funcs)) = some (0xFFFFFFFF, 0) := by
  decide

/-- C23, for counts whose sum with 2 fits the signed index type.  The slot
count passed to `duk_require_stack` is then `2 + n_const + n_funcs`; and
whenever the first part of the loader returns, the number of values it holds
above `idx_base` (the function, the data buffer, the constants, the inner
functions) is `2 + count_const + count_funcs`. -/
theorem stack_reservation (n_const n_funcs : Nat) (hfit : 2 + n_const + n_funcs < 2147483648) :
    duk__load_func_reserve n_const n_funcs = ((2 + n_const + n_funcs : Nat) : Int)
      ∧ (∀ (cfg : Config) (mem : List Nat) (p_end fuel : Nat) (ctx : duk_context) (p : Nat)
          (st : Stack.duk__load_state) (built : duk_context) (q : Nat),
          Stack.duk__load_func_build cfg mem p_end (Stack.duk__load_func cfg mem p_end fuel)
              ctx p = .ok (st, built, q) →
          built.length = st.idx_base + (2 + st.count_const + st.count_funcs)
            ∧ (2 + st.count_const + st.count_funcs < 2147483648 →
                duk__load_func_reserve st.count_const st.count_funcs
                  = (((built.length - st.idx_base : Nat)) : Int))) := by
  have hres : ∀ c f : Nat, 2 + c + f < 2147483648 →
      duk__load_func_reserve c f = ((2 + c + f : Nat) : Int) := by
    intro c f hcf
    unfold duk__load_func_reserve duk_idx_t_of_uint32
    rw [Nat.mod_mod, Nat.mod_eq_of_lt (by omega), if_pos hcf]
  refine ⟨hres _ _ hfit, ?_⟩
  intro cfg mem p_end fuel ctx p st built q hb
  obtain ⟨h_fun, code, consts, funcs, rfl, _, _, _, h1, h2, h3⟩ :=
    stk_build_shape cfg mem p_end fuel ctx p st built q hb
  have hl : (ctx ++ [duk_stack_tval.compiledfunction h_fun,
      .fun_data (duk__load_func_layout cfg st.count_instr st.count_const
        st.count_funcs).data_size code]
      ++ consts.map Stack.const_tval
      ++ funcs.map duk_stack_tval.compiledfunction).length
      = st.idx_base + (2 + st.count_const + st.count_funcs) := by
    simp only [List.length_append, List.length_cons, List.length_nil, List.length_map]
    omega
  refine ⟨hl, fun hcf => ?_⟩
  rw [hres _ _ hcf, hl]
  congr 1
  omega

/-- C23 (amended), at two constants and one inner function. -/
theorem stack_reservation_witness :
    duk__load_func_reserve 2 1 = ((2 + 2 + 1 : Nat) : Int)
      ∧ (∀ (cfg : Config) (mem : List Nat) (p_end fuel : Nat) (ctx : duk_context) (p : Nat)
          (st : Stack.duk__load_state) (built : duk_context) (q : Nat),
          Stack.duk__load_func_build cfg mem p_end (Stack.duk__load_func cfg mem p_end fuel)
              ctx p = .ok (st, built, q) →
          built.length = st.idx_base + (2 + st.count_const + st.count_funcs)
            ∧ (2 + st.count_const + st.count_funcs < 2147483648 →
                duk__load_func_reserve st.count_const st.count_funcs
                  = (((built.length - st.idx_base : Nat)) : Int))) :=
  stack_reservation 2 1 (by decide)

end Duk
